import Mathlib

/-!
# mailx: the IMAP search path, the sync commands and the helpers around them

A shallow embedding of the hand-written IMAP search client
(`internal/mail/search.go`) with proofs about its quoting rule, its response
readers and its command sequence; of the sync commands and the daemon loop
(`internal/cli`); of `calendar add` and the selector; of the provider
detection and the output parsers (`internal/ai`); and of `TruncateStr`
(`internal/ui/utils`).  The sync engine itself is not among the sources and is
modelled from the specification.

Go strings are embedded as lists of Unicode code points (`List Char`), i.e.
as the rune sequence of a valid UTF-8 string.  Every pattern the code looks
for (`\`, `"`, `\n`, digits, ASCII blanks, `* SEARCH`, the tags) is ASCII,
so the byte-level and rune-level readings of the library calls coincide.
-/

namespace Mail

/-- A Go `string`, as its sequence of runes. -/
abbrev GoString := List Char

/-! ## The pieces of the Go standard library the code calls -/

/-- Go: `strings.HasPrefix(s, p)`. -/
def HasPrefix : GoString → GoString → Bool
  | _, [] => true
  | [], _ :: _ => false
  | c :: s, d :: p => c == d && HasPrefix s p

/-- The scan of `strings.Replace(s, old, new, -1)` for a non-empty `old`:
`skip` counts the runes of an occurrence of `old` that are still to be
dropped; outside an occurrence the next occurrence is looked for at the
current position (leftmost, non-overlapping). -/
def replaceScan (old new : GoString) : Nat → GoString → GoString
  | _, [] => []
  | skip + 1, _ :: cs => replaceScan old new skip cs
  | 0, c :: cs =>
    if HasPrefix (c :: cs) old then new ++ replaceScan old new (old.length - 1) cs
    else c :: replaceScan old new 0 cs

/-- Go: `strings.ReplaceAll(s, old, new)`: every non-overlapping occurrence of
`old`, found left to right, is replaced by `new`; an empty `old` matches
before every rune and at the end. -/
def ReplaceAll (s old new : GoString) : GoString :=
  if old = [] then new ++ s.flatMap (fun c => c :: new)
  else replaceScan old new 0 s

/-! ## `quoteString` -/

/-- Go: `quoteString` of `search.go`:
```go
s = strings.ReplaceAll(s, "\\", "\\\\")
s = strings.ReplaceAll(s, "\"", "\\\"")
return "\"" + s + "\""
``` -/
def quoteString (s : GoString) : GoString :=
  let s := ReplaceAll s ['\\'] ['\\', '\\']
  let s := ReplaceAll s ['"'] ['\\', '"']
  ['"'] ++ s ++ ['"']

/-- The quoting rule as the specification words it, one rune at a time:
backslash becomes two backslashes, double quote becomes backslash followed by
double quote, every other rune is copied. -/
def escapeRune (c : Char) : GoString :=
  if c = '\\' then ['\\', '\\']
  else if c = '"' then ['\\', '"']
  else [c]

/-- The quoted form the specification describes: a double quote, the escaped
runes of `s` in order, a double quote. -/
def quotedSpec (s : GoString) : GoString :=
  '"' :: (s.flatMap escapeRune ++ ['"'])

/-- The server-side reading of a quoted string's body, as the specification
words it: read left to right, turning each backslash-x pair into x. -/
def unescape : GoString → GoString
  | [] => []
  | [c] => [c]
  | c :: x :: rest => if c = '\\' then x :: unescape rest else c :: unescape (x :: rest)

/-- The server-side unquoting the specification expects: strip the outer
double quotes, then unescape what is between them.  `none` when the argument
is not wrapped in double quotes. -/
def serverUnquote (q : GoString) : Option GoString :=
  match q with
  | [] => none
  | c :: body =>
    if c = '"' ∧ body.getLast? = some '"' then some (unescape body.dropLast) else none

/-! ## More of the standard library: `unicode`, `strings`, `strconv`, `regexp` -/

/-- Go: `unicode.IsSpace`: the Latin-1 spaces `\t \n \v \f \r`, space, U+0085,
U+00A0, and the other code points with the Unicode White_Space property. -/
def IsSpace (c : Char) : Bool :=
  let n := c.toNat
  (9 ≤ n && n ≤ 13) || n == 0x20 || n == 0x85 || n == 0xA0 || n == 0x1680 ||
  (0x2000 ≤ n && n ≤ 0x200A) || n == 0x2028 || n == 0x2029 || n == 0x202F ||
  n == 0x205F || n == 0x3000

/-- Go: `strings.TrimSpace`: all leading and trailing white space removed. -/
def TrimSpace (s : GoString) : GoString :=
  (s.dropWhile IsSpace).rdropWhile IsSpace

/-- The scan of `strings.Fields`: `cur` is the field being read. -/
def fieldsScan : GoString → GoString → List GoString
  | [], cur => if cur = [] then [] else [cur]
  | c :: cs, cur =>
    if IsSpace c then
      if cur = [] then fieldsScan cs [] else cur :: fieldsScan cs []
    else fieldsScan cs (cur ++ [c])

/-- Go: `strings.Fields`: the maximal runs of non-space runes, in order. -/
def Fields (s : GoString) : List GoString := fieldsScan s []

/-- The regexp class `\d` (also the digit test of `strconv.ParseUint`). -/
def isDigit (c : Char) : Bool := 48 ≤ c.toNat && c.toNat ≤ 57

/-- The regexp class `\s` of Go (RE2): `[\t\n\f\r ]`. -/
def isReSpace (c : Char) : Bool :=
  c.toNat == 9 || c.toNat == 10 || c.toNat == 12 || c.toNat == 13 || c.toNat == 32

/-- The largest value of a `uint32`. -/
def maxUint32 : Nat := 2 ^ 32 - 1

/-- The loop of `strconv.ParseUint(s, 10, 32)` over the bytes of `s`, `n` being
the value read so far (a `uint64`): a byte that is no decimal digit is a
syntax error, a value above `maxVal` a range error. -/
def parseUintLoop (maxVal : Nat) : GoString → Nat → Option Nat
  | [], n => some n
  | c :: cs, n =>
    if isDigit c then
      let d := c.toNat - 48
      if n ≥ (2 ^ 64 - 1) / 10 + 1 then none
      else
        let n10 := (n * 10) % 2 ^ 64
        let n1 := (n10 + d) % 2 ^ 64
        if n1 < n10 ∨ n1 > maxVal then none
        else parseUintLoop maxVal cs n1
    else none

/-- Go: `strconv.ParseUint(s, 10, 32)`; `none` stands for a non-nil error. -/
def ParseUint (s : GoString) : Option Nat :=
  if s = [] then none else parseUintLoop maxUint32 s 0

/-- The pattern `\d+` at the head of `s` (greedy): the digits and the rest. -/
def matchDigits (s : GoString) : Option (GoString × GoString) :=
  if s.takeWhile isDigit = [] then none
  else some (s.takeWhile isDigit, s.dropWhile isDigit)

/-- The pattern `\s+` at the head of `s` (greedy): the blanks and the rest. -/
def matchSpaces (s : GoString) : Option (GoString × GoString) :=
  if s.takeWhile isReSpace = [] then none
  else some (s.takeWhile isReSpace, s.dropWhile isReSpace)

/-- The pattern `(?:\s+\d+)*` at the head of `s` (greedy): the text matched.
Each round consumes at least two runes, so `fuel = s.length` rounds suffice.
A round that finds blanks but no digit after them matches nothing: giving
blanks back cannot help, the next rune still being a blank or a non-digit. -/
def matchMore : Nat → GoString → GoString
  | 0, _ => []
  | fuel + 1, s =>
    match matchSpaces s with
    | none => []
    | some (ws, r1) =>
      match matchDigits r1 with
      | none => []
      | some (ds, r2) => ws ++ ds ++ matchMore fuel r2

/-- The optional group `(?: (\d+(?:\s+\d+)*))?` at the head of `s`: the text
captured by group 1, `none` when the group takes no part in the match. -/
def matchGroup (s : GoString) : Option GoString :=
  match s with
  | [] => none
  | c :: r =>
    if c = ' ' then
      match matchDigits r with
      | none => none
      | some (ds, r2) => some (ds ++ matchMore r2.length r2)
    else none

/-- The literal the pattern starts with. -/
def searchLiteral : GoString := "* SEARCH".toList

/-- The whole pattern at the head of `s`: the submatches `[match, group 1]`
(a group that took no part is the empty string, as in Go). -/
def matchHere (s : GoString) : Option (List GoString) :=
  if HasPrefix s searchLiteral then
    match matchGroup (s.drop searchLiteral.length) with
    | some g => some [searchLiteral ++ ' ' :: g, g]
    | none => some [searchLiteral, []]
  else none

/-- Go: `uidRegex.FindStringSubmatch(s)` for
`\* SEARCH(?: (\d+(?:\s+\d+)*))?`: the leftmost match, `none` for `nil`. -/
def FindStringSubmatch : GoString → Option (List GoString)
  | [] => none
  | c :: cs =>
    match matchHere (c :: cs) with
    | some m => some m
    | none => FindStringSubmatch cs

/-! ## Errors and the line reader -/

/-- A Go `error` value, as far as this code builds and inspects them. -/
inductive Error where
  /-- An error of the connection or of its buffered reader (`io.EOF`, a
  network error): what `ReadString`, `Write` and `tls.Dial` return. -/
  | transport (text : GoString)
  /-- The value of `fmt.Errorf(format, line)` with a `%s` verb, message given. -/
  | errorf (text : GoString)
  /-- The value of `fmt.Errorf(pfx + "%w", inner)`. -/
  | wrap (pfx : GoString) (inner : Error)
  deriving DecidableEq, Repr

/-- The method `Error()`: the message of an error. -/
def Error.message : Error → GoString
  | .transport t => t
  | .errorf t => t
  | .wrap p e => p ++ e.message

/-- A `*bufio.Reader` on the connection: the complete lines (each as
`ReadString('\n')` returns it, its `\n` included) still to come, and the
message of the connection's error (`io.EOF`, a timeout) that the reader
reports once they are used up.  The unterminated rest of the stream, which
`ReadString` returns together with that error, is not kept: no caller looks
at it. -/
structure Reader where
  lines : List GoString
  err : GoString
  deriving DecidableEq, Repr

/-- The lines of a byte stream, `cur` being the line under construction. -/
def splitLines : GoString → GoString → List GoString
  | [], _ => []
  | c :: cs, cur =>
    if c = '\n' then (cur ++ ['\n']) :: splitLines cs [] else splitLines cs (cur ++ [c])

/-- The reader over a stream `data` that ends with the error `err`. -/
def Reader.ofStream (data : GoString) (err : GoString) : Reader :=
  ⟨splitLines data [], err⟩

/-- Go: `reader.ReadString('\n')`: the line, the error, the reader afterwards. -/
def Reader.ReadString (r : Reader) : GoString × Option Error × Reader :=
  match r.lines with
  | [] => ([], some (.transport r.err), r)
  | l :: ls => (l, none, ⟨ls, r.err⟩)

/-- A message identifier, `imap.UID` (a `uint32`). -/
abbrev UID := Nat

/-! ## `readUntilOK` and `readSearchResponse` -/

/-- The loop of `readUntilOK` over the lines still to come. -/
def readUntilOKLoop (tag : GoString) (err : Error) :
    List GoString → Option Error × List GoString
  | [] => (some err, [])
  | raw :: rest =>
    let line := TrimSpace raw
    if HasPrefix line (tag ++ " OK".toList) then (none, rest)
    else if HasPrefix line (tag ++ " NO".toList) || HasPrefix line (tag ++ " BAD".toList) then
      (some (.errorf ("command failed: ".toList ++ line)), rest)
    else readUntilOKLoop tag err rest

/-- Go: `readUntilOK(reader, tag)`: the error (`none` for `nil`) and the reader
afterwards. -/
def readUntilOK (reader : Reader) (tag : GoString) : Option Error × Reader :=
  let out := readUntilOKLoop tag (.transport reader.err) reader.lines
  (out.1, ⟨out.2, reader.err⟩)

/-- The inner loop of `readSearchResponse`: every field that `ParseUint`
accepts is appended to `uids`, the others are passed over. -/
def appendUIDs (uids : List UID) : List GoString → List UID
  | [] => uids
  | numStr :: rest =>
    match ParseUint numStr with
    | some num => appendUIDs (uids ++ [num % 2 ^ 32]) rest
    | none => appendUIDs uids rest

/-- The `Parse SEARCH response` block of `readSearchResponse` for one trimmed
line: `uids` after it. -/
def parseSearchLine (line : GoString) (uids : List UID) : List UID :=
  match FindStringSubmatch line with
  | none => uids
  | some ms =>
    if 1 < ms.length ∧ ms.getD 1 [] ≠ [] then appendUIDs uids (Fields (ms.getD 1 []))
    else uids

/-- The loop of `readSearchResponse` over the lines still to come. -/
def readSearchResponseLoop (tag : GoString) (err : Error) :
    List GoString → List UID → (List UID × Option Error) × List GoString
  | [], _ => (([], some err), [])
  | raw :: rest, uids =>
    let line := TrimSpace raw
    let uids := parseSearchLine line uids
    if HasPrefix line (tag ++ " OK".toList) then ((uids, none), rest)
    else if HasPrefix line (tag ++ " NO".toList) || HasPrefix line (tag ++ " BAD".toList) then
      (([], some (.errorf ("search failed: ".toList ++ line))), rest)
    else readSearchResponseLoop tag err rest uids

/-- Go: `readSearchResponse(reader, tag)`: the identifiers (`[]` for `nil`), the
error (`none` for `nil`) and the reader afterwards. -/
def readSearchResponse (reader : Reader) (tag : GoString) :
    (List UID × Option Error) × Reader :=
  let out := readSearchResponseLoop tag (.transport reader.err) reader.lines []
  (out.1, ⟨out.2, reader.err⟩)

/-! ## Vocabulary of the claims about the readers -/

/-- The line, once trimmed, begins with `<tag> OK`. -/
def isOK (tag raw : GoString) : Bool :=
  HasPrefix (TrimSpace raw) (tag ++ " OK".toList)

/-- The line, once trimmed, begins with `<tag> NO` or `<tag> BAD`. -/
def isFail (tag raw : GoString) : Bool :=
  HasPrefix (TrimSpace raw) (tag ++ " NO".toList) ||
    HasPrefix (TrimSpace raw) (tag ++ " BAD".toList)

/-- The line is a tagged terminator for `tag`. -/
def isTerminator (tag raw : GoString) : Bool := isOK tag raw || isFail tag raw

/-- The identifiers that one line of the response carries for
`readSearchResponse`. -/
def lineUIDs (raw : GoString) : List UID := parseSearchLine (TrimSpace raw) []

/-- The value of a string of decimal digits. -/
def decVal (ds : GoString) : Nat := ds.foldl (fun n c => n * 10 + (c.toNat - 48)) 0

/-- The decimal numeral of `n`. -/
def decimal (n : Nat) : GoString := Nat.toDigits 10 n

/-- The tokens of a list, each preceded by one space. -/
def spaced (toks : List GoString) : GoString := toks.flatMap (fun t => ' ' :: t)

/-- The response line `* SEARCH t1 t2 ... tk\r\n` for a list of tokens. -/
def tokenLine (toks : List GoString) : GoString :=
  searchLiteral ++ spaced toks ++ "\r\n".toList

/-- The response line `* SEARCH n1 n2 ... nk\r\n`. -/
def searchLine (ns : List Nat) : GoString := tokenLine (ns.map decimal)

/-! ## The session: `doSearch` and `Search` -/

/-- Modelled from the spec: `auth.Credentials` is declared in package `auth`,
which is not among the sources; these are the fields `search.go` reads.  The
provider is kept as the string it is compared on. -/
structure Credentials where
  Provider : GoString
  IMAPHost : GoString
  IMAPPort : Int
  Email : GoString
  Password : GoString
  deriving DecidableEq

/-- Go: `searchType`, an `int`. -/
abbrev searchType := Int

/-- Standard IMAP TEXT search (`iota` = 0). -/
def searchTypeText : searchType := 0

/-- Gmail X-GM-RAW extension (`iota` = 1). -/
def searchTypeGmailRaw : searchType := 1

/-- What happens on the connection, in order. -/
inductive Event where
  /-- Go: `tls.Dial("tcp", host:port, nil)` is called. -/
  | dial (host : GoString) (port : Int)
  /-- Go: `ReadString` returns this line. -/
  | read (line : GoString)
  /-- Go: `conn.Write` is called with these bytes. -/
  | write (data : GoString)
  /-- The deferred `conn.Close()` runs. -/
  | close
  deriving DecidableEq, Repr

/-- The world outside one `doSearch` call: the outcome of the dial, what the
server sends, and the error (if any) of the k-th call of `conn.Write`. -/
structure Network where
  dialErr : Option Error
  server : Reader
  writeErr : Nat → Option Error

/-- The read events between two states of the reader: one for each line
taken off `before` to reach `after`. -/
def reads (before after : Reader) : List Event :=
  (before.lines.take (before.lines.length - after.lines.length)).map Event.read

/-- The bytes written by the calls of `conn.Write` of a trace, in order. -/
def writesOf : List Event → List GoString
  | [] => []
  | .write d :: t => d :: writesOf t
  | _ :: t => writesOf t

/-- The LOGIN command `doSearch` builds. -/
def loginCmd (creds : Credentials) : GoString :=
  "a1 LOGIN ".toList ++ quoteString creds.Email ++ " ".toList ++
    quoteString creds.Password ++ "\r\n".toList

/-- The SELECT command `doSearch` builds. -/
def selectCmd (mailbox : GoString) : GoString :=
  "a2 SELECT ".toList ++ quoteString mailbox ++ "\r\n".toList

/-- The search command `doSearch` builds: the `switch stype`. -/
def searchCmd (query : GoString) (stype : searchType) : GoString :=
  if stype = searchTypeGmailRaw then
    "a3 UID SEARCH X-GM-RAW ".toList ++ quoteString query ++ "\r\n".toList
  else
    "a3 UID SEARCH TEXT ".toList ++ quoteString query ++ "\r\n".toList

/-- The LOGOUT command. -/
def logoutCmd : GoString := "a4 LOGOUT\r\n".toList

/-- Go: `doSearch(creds, mailbox, query, stype)`: the identifiers (`[]` for `nil`),
the error (`none` for `nil`) and the trace of the connection.  Once the dial
has succeeded every return runs the deferred `conn.Close()`. -/
def doSearch (net : Network) (creds : Credentials) (mailbox query : GoString)
    (stype : searchType) : (List UID × Option Error) × List Event :=
  let t := [Event.dial creds.IMAPHost creds.IMAPPort]
  match net.dialErr with
  | some err => (([], some (.wrap "failed to connect: ".toList err)), t)
  | none =>
  let reader := net.server
  match reader.ReadString with
  | (_, some err, _) =>
    (([], some (.wrap "failed to read greeting: ".toList err)), t ++ [.close])
  | (greeting, none, reader) =>
  let t := t ++ [.read greeting]
  let t := t ++ [.write (loginCmd creds)]
  match net.writeErr 0 with
  | some err => (([], some (.wrap "failed to send login: ".toList err)), t ++ [.close])
  | none =>
  match readUntilOK reader "a1".toList with
  | (some err, r1) =>
    (([], some (.wrap "login failed: ".toList err)), t ++ reads reader r1 ++ [.close])
  | (none, r1) =>
  let t := t ++ reads reader r1
  let t := t ++ [.write (selectCmd mailbox)]
  match net.writeErr 1 with
  | some err => (([], some (.wrap "failed to send select: ".toList err)), t ++ [.close])
  | none =>
  match readUntilOK r1 "a2".toList with
  | (some err, r2) =>
    (([], some (.wrap "select failed: ".toList err)), t ++ reads r1 r2 ++ [.close])
  | (none, r2) =>
  let t := t ++ reads r1 r2
  let t := t ++ [.write (searchCmd query stype)]
  match net.writeErr 2 with
  | some err => (([], some (.wrap "failed to send search: ".toList err)), t ++ [.close])
  | none =>
  match readSearchResponse r2 "a3".toList with
  | ((_, some err), r3) =>
    (([], some (.wrap "search failed: ".toList err)), t ++ reads r2 r3 ++ [.close])
  | ((uids, none), r3) =>
  let t := t ++ reads r2 r3
  ((uids, none), t ++ [.write logoutCmd, .close])

/-- Go: `Search(creds, mailbox, query)`.  `ProviderGmail` is the constant
`auth.ProviderGmail`, declared outside the sources and taken as a parameter. -/
def Search (ProviderGmail : GoString) (net : Network) (creds : Credentials)
    (mailbox query : GoString) : (List UID × Option Error) × List Event :=
  if creds.Provider = ProviderGmail then doSearch net creds mailbox query searchTypeGmailRaw
  else doSearch net creds mailbox query searchTypeText

/-! ## Sample sessions -/

/-- Sample credentials: a Gmail account whose password holds a double quote. -/
def sampleCreds : Credentials :=
  ⟨"gmail".toList, "imap.gmail.com".toList, 993, "me@gmail.com".toList, "p\"w".toList⟩

/-- Sample credentials: an account of another provider. -/
def plainCreds : Credentials :=
  ⟨"yahoo".toList, "imap.mail.yahoo.com".toList, 993, "b@yahoo.com".toList, "pw".toList⟩

/-- A sample session: the dial and every write succeed, the server greets,
accepts the login and the select, then sends `reply`. -/
def sampleNetwork (reply : List GoString) : Network :=
  ⟨none,
    ⟨["* OK ready\r\n".toList, "a1 OK logged in\r\n".toList, "* 3 EXISTS\r\n".toList,
        "a2 OK selected\r\n".toList] ++ reply, "EOF".toList⟩,
    fun _ => none⟩

/-- A session in which the dial and every write succeed and the server sends
exactly `lines`. -/
def plainNetwork (lines : List GoString) : Network :=
  ⟨none, ⟨lines, "EOF".toList⟩, fun _ => none⟩

/-- The pair of identifiers and error that `doSearch` returns when it gives
up at a stage: no identifiers, and the stage's prefix wrapped around the
error of the reader. -/
def stageFailure (pfx : GoString) (inner : Error) : List UID × Option Error :=
  ([], some (.wrap pfx inner))

/-! ## Package `cli`: the one-shot sync and the daemon loop -/

/-- Modelled from the spec: `auth.Account` is declared in package `auth`, which
is not among the sources; this is the field the sync commands read. -/
structure Account where
  Credentials : Credentials
  deriving DecidableEq

/-- What a command does to the outside, in order. -/
inductive Effect where
  /-- The call `sync.NewSyncer(c, account).FullSync(mailbox)`. -/
  | fullSync (account : Account) (mailbox : GoString)
  /-- Text written to standard output by `fmt.Print`, `Printf` or `Println`. -/
  | print (text : GoString)
  /-- The PID file is written by `os.WriteFile`. -/
  | writePidFile
  /-- The deferred `os.Remove(pidFile)` runs. -/
  | removePidFile
  deriving DecidableEq

/-- How a command ends: it returns, it calls `os.Exit(code)`, or it is still
blocked in its `select` when the events at hand are used up. -/
inductive Ending where
  | returned
  | exited (code : Int)
  | waiting
  deriving DecidableEq

/-- The calls of `FullSync` among the effects, in order. -/
def callsOf : List Effect → List (Account × GoString)
  | [] => []
  | .fullSync a m :: t => (a, m) :: callsOf t
  | _ :: t => callsOf t

/-- Go: `syncAllAccounts(store, c)`, the loop over `store.Accounts`.  The
method `FullSync` of package `sync` is outside the sources and taken as the
parameter `fullSync`: from the account, the mailbox and the state of the
world (cache and servers) it gives its error (`none` for `nil`) and the state
afterwards. -/
def syncAllAccounts {σ : Type} (fullSync : Account → GoString → σ → Option Error × σ) :
    List Account → σ → List Effect × σ
  | [], w => ([], w)
  | account :: rest, w =>
    let (err, w1) := fullSync account "INBOX".toList w
    let report :=
      match err with
      | some e =>
        "Error syncing ".toList ++ account.Credentials.Email ++ ": ".toList ++ e.message ++
          "\n".toList
      | none => "Synced ".toList ++ account.Credentials.Email ++ "\n".toList
    let (out, w2) := syncAllAccounts fullSync rest w1
    (.fullSync account "INBOX".toList :: .print report :: out, w2)

/-- The loop of `runSync` over `store.Accounts`. -/
def runSyncLoop {σ : Type} (fullSync : Account → GoString → σ → Option Error × σ) :
    List Account → σ → List Effect × σ
  | [], w => ([], w)
  | account :: rest, w =>
    let announce := "  Syncing ".toList ++ account.Credentials.Email ++ "...".toList
    let (err, w1) := fullSync account "INBOX".toList w
    let report :=
      match err with
      | some e => " error: ".toList ++ e.message ++ "\n".toList
      | none => " done\n".toList
    let (out, w2) := runSyncLoop fullSync rest w1
    (.print announce :: .fullSync account "INBOX".toList :: .print report :: out, w2)

/-- The collaborators of the sync commands that are outside the sources: the
account store, the cache constructor and `FullSync`. -/
structure SyncEnv (σ : Type) where
  /-- The result of `auth.LoadAccountStore()`: the accounts of the store. -/
  LoadAccountStore : Except Error (List Account)
  /-- The error of `cache.New()`, if any. -/
  cacheNew : Option Error
  /-- The method `FullSync` of a syncer made by `sync.NewSyncer(c, account)`. -/
  fullSync : Account → GoString → σ → Option Error × σ

/-- Go: `runSync()`: the effects, the state of the world afterwards and how the
command ends. -/
def runSync {σ : Type} (env : SyncEnv σ) (w : σ) : List Effect × σ × Ending :=
  match env.LoadAccountStore with
  | .error err =>
    ([.print ("Error loading accounts: ".toList ++ err.message ++ "\n".toList)], w, .exited 1)
  | .ok accounts =>
  if accounts.length = 0 then
    ([.print "No accounts configured. Run 'maily login' first.\n".toList], w, .exited 1)
  else
  match env.cacheNew with
  | some err =>
    ([.print ("Error creating cache: ".toList ++ err.message ++ "\n".toList)], w, .exited 1)
  | none =>
  let (out, w1) := runSyncLoop env.fullSync accounts w
  ([.print "Syncing emails...\n".toList] ++ out ++ [.print "Sync complete\n".toList], w1,
    .returned)

/-- What the `select` of the daemon loop receives: a tick of the ticker or a
signal on `sigChan`. -/
inductive Wake where
  | tick
  | signal (sig : GoString)
  deriving DecidableEq

/-- The `for { select { ... } }` loop of `runDaemon`, run on the successive
events `wakes` its `select` receives. -/
def daemonLoop {σ : Type} (fullSync : Account → GoString → σ → Option Error × σ)
    (accounts : List Account) : List Wake → σ → List Effect × σ × Ending
  | [], w => ([], w, .waiting)
  | .tick :: rest, w =>
    let (out, w1) := syncAllAccounts fullSync accounts w
    let (out2, w2, ending) := daemonLoop fullSync accounts rest w1
    (out ++ out2, w2, ending)
  | .signal sig :: _, w =>
    ([.print ("Received signal: ".toList ++ sig ++ "\n".toList)], w, .returned)

/-- Go: `runDaemon()`, run on the events `wakes` that its `select` receives.
`mkdirOk` tells whether `os.MkdirAll` succeeded; the deferred `os.Remove` runs
when the function returns, not when it exits. -/
def runDaemon {σ : Type} (env : SyncEnv σ) (mkdirOk : Bool) (wakes : List Wake) (w : σ) :
    List Effect × σ × Ending :=
  let pid : List Effect := if mkdirOk then [.writePidFile] else []
  match env.LoadAccountStore with
  | .error err =>
    (pid ++ [.print ("Error loading accounts: ".toList ++ err.message ++ "\n".toList)], w,
      .exited 1)
  | .ok accounts =>
  if accounts.length = 0 then
    (pid ++ [.print "No accounts configured\n".toList], w, .exited 1)
  else
  match env.cacheNew with
  | some err =>
    (pid ++ [.print ("Error creating cache: ".toList ++ err.message ++ "\n".toList)], w,
      .exited 1)
  | none =>
  let (out0, w0) := syncAllAccounts env.fullSync accounts w
  let started := Effect.print "Daemon started, syncing every 30m0s\n".toList
  match daemonLoop env.fullSync accounts wakes w0 with
  | (out, w1, .returned) => (pid ++ out0 ++ [started] ++ out ++ [.removePidFile], w1, .returned)
  | (out, w1, ending) => (pid ++ out0 ++ [started] ++ out, w1, ending)

/-- The effects and final state of `n` successive complete passes of
`syncAllAccounts`. -/
def passes {σ : Type} (fullSync : Account → GoString → σ → Option Error × σ)
    (accounts : List Account) : Nat → σ → List Effect × σ
  | 0, w => ([], w)
  | n + 1, w =>
    let (out, w1) := syncAllAccounts fullSync accounts w
    let (out2, w2) := passes fullSync accounts n w1
    (out ++ out2, w2)

/-- Two sample accounts. -/
def sampleAccounts : List Account :=
  [⟨sampleCreds⟩, ⟨⟨"yahoo".toList, "imap.mail.yahoo.com".toList, 993, "b@yahoo.com".toList,
    "pw".toList⟩⟩]

/-- A sample `FullSync`: it fails for the Gmail account and succeeds for every
other one; the state counts the calls. -/
def sampleFullSync (account : Account) (_mailbox : GoString) (calls : Nat) :
    Option Error × Nat :=
  if account.Credentials.Provider = "gmail".toList then
    (some (.errorf "select failed".toList), calls + 1)
  else (none, calls + 1)

/-! ## The sync engine (package `sync`, not among the sources) -/

/-- Modelled from the spec: a message as the server enumerates it in step 2 of
`FullSync`, its identifier and its flags.  Package `sync` is missing from the
sources. -/
structure RemoteMessage where
  uid : UID
  flags : List GoString
  deriving DecidableEq

/-- Modelled from the spec: a `CacheEntry` of one (account, mailbox) pair,
keyed by the message identifier, with the flags that detect change and the
content fetched before, if any.  Package `cache` is missing from the sources. -/
structure CacheEntry where
  uid : UID
  flags : List GoString
  content : Option GoString
  deriving DecidableEq

/-- Modelled from the spec: the classified failures of a sync pass (package
`sync` is missing from the sources). -/
inductive SyncError where
  | auth
  | mailbox
  | transport
  | cache
  deriving DecidableEq

/-- Modelled from the spec: the counts of a successful `SyncResult` (package
`sync` is missing from the sources). -/
structure SyncCounts where
  added : Nat
  removed : Nat
  updated : Nat
  unchanged : Nat
  deriving DecidableEq

/-- Modelled from the spec: step 3 of `FullSync` (missing from the sources),
the additions are the identifiers present remotely but absent locally. -/
def additions (remote : List RemoteMessage) (cache : List CacheEntry) : List RemoteMessage :=
  remote.filter (fun m => decide (∀ e ∈ cache, e.uid ≠ m.uid))

/-- Modelled from the spec: step 3 of `FullSync` (missing from the sources),
the removals are the identifiers present locally but absent remotely. -/
def removals (remote : List RemoteMessage) (cache : List CacheEntry) : List CacheEntry :=
  cache.filter (fun e => decide (∀ m ∈ remote, m.uid ≠ e.uid))

/-- Modelled from the spec: step 3 of `FullSync` (missing from the sources),
the updates are the identifiers present in both with differing flags. -/
def updates (remote : List RemoteMessage) (cache : List CacheEntry) : List RemoteMessage :=
  remote.filter (fun m => decide (∃ e ∈ cache, e.uid = m.uid ∧ e.flags ≠ m.flags))

/-- Modelled from the spec: `Apply` of the Local Cache (missing from the
sources), the only mutation: removals are dropped, updates take the remote
flags and keep their content, additions are appended; on a `CacheError`
(`ok = false`) nothing is committed. -/
def Apply (cache : List CacheEntry) (adds upds : List RemoteMessage)
    (rems : List CacheEntry) (ok : Bool) : Except SyncError (List CacheEntry) :=
  if ok then
    let kept := cache.filter (fun e => decide (∀ r ∈ rems, r.uid ≠ e.uid))
    let updated := kept.map (fun e =>
      match upds.find? (fun m => m.uid == e.uid) with
      | some m => { e with flags := m.flags }
      | none => e)
    .ok (updated ++ adds.map (fun m => ⟨m.uid, m.flags, none⟩))
  else .error .cache

/-- Modelled from the spec: `FullSync(account, mailbox)` of the Sync Engine
(package `sync` is missing from the sources), on the cache entries of that
account and mailbox.  `session` is the outcome of steps 1 and 2 (open, login,
select, enumerate): a classified failure or the remote messages; `applyOk`
tells whether the cache accepts the write.  A failure leaves the cache
untouched. -/
def FullSync (session : Except SyncError (List RemoteMessage)) (applyOk : Bool)
    (cache : List CacheEntry) : Except SyncError SyncCounts × List CacheEntry :=
  match session with
  | .error e => (.error e, cache)
  | .ok remote =>
    let adds := additions remote cache
    let rems := removals remote cache
    let upds := updates remote cache
    match Apply cache adds upds rems applyOk with
    | .error e => (.error e, cache)
    | .ok cache1 =>
      (.ok ⟨adds.length, rems.length, upds.length, remote.length - adds.length - upds.length⟩,
        cache1)

/-! ## Package `cli`: `calendar add` -/

/-- A `time.Time`, as the instant it denotes: nanoseconds since the Unix
epoch. -/
structure Time where
  unixNano : Int
  deriving DecidableEq

/-- The duration `time.Hour`, in nanoseconds. -/
def Hour : Int := 3600000000000

/-- Go: `t.Add(d)`, the instant `d` nanoseconds after `t`. -/
def Time.Add (t : Time) (d : Int) : Time := ⟨t.unixNano + d⟩

/-- The struct `calendar.Event`. -/
structure CalendarEvent where
  ID : GoString
  Title : GoString
  StartTime : Time
  EndTime : Time
  Location : GoString
  Notes : GoString
  Calendar : GoString
  AllDay : Bool
  AlarmMinutesBefore : Int
  deriving DecidableEq

/-- The method of the interface `calendar.Client` that `addEvent` calls. -/
structure CalendarClient where
  CreateEvent : CalendarEvent → Except Error GoString

/-- The flag variables of `calendar add`. -/
structure AddFlags where
  calendarID : GoString
  eventStart : GoString
  eventEnd : GoString
  eventLocation : GoString
  eventNotes : GoString
  eventAllDay : Bool

/-- The functions of package `time` that the command calls, taken as
parameters: `time.ParseInLocation(layout, s, time.Local)` (`none` for an
error) and `t.Format(layout)`. -/
structure TimeLib where
  ParseInLocation : GoString → GoString → Option Time
  Format : Time → GoString → GoString

/-- The layouts `parseDateTime` tries, in order. -/
def layouts : List GoString :=
  ["2006-01-02 15:04".toList, "2006-01-02T15:04".toList, "2006-01-02 3:04 PM".toList,
    "2006-01-02 3:04PM".toList, "2006-01-02".toList, "01/02/2006 15:04".toList,
    "01/02/2006".toList]

/-- The loop of `parseDateTime` over the layouts: the first that parses. -/
def parseLayouts (lib : TimeLib) (s : GoString) : List GoString → Option Time
  | [] => none
  | layout :: rest =>
    match lib.ParseInLocation layout s with
    | some t => some t
    | none => parseLayouts lib s rest

/-- Go: `parseDateTime(s)`. -/
def parseDateTime (lib : TimeLib) (s : GoString) : Except Error Time :=
  let s := TrimSpace s
  match parseLayouts lib s layouts with
  | some t => .ok t
  | none => .error (.errorf ("invalid date/time format: ".toList ++ s))

/-- What a run of `addEvent` does once `getCalendarClient()` has returned: the
text `addEvent` prints itself (what `getCalendarClient` printed before it
returned comes first and is not recorded), the event handed to
`client.CreateEvent` (if the run gets that far) and how the run ends. -/
structure AddRun where
  printed : List GoString
  submitted : Option CalendarEvent
  ending : Ending

/-- Go: `addEvent(title)`.  The result of `getCalendarClient()` is taken as the
parameter `client`, so the run starts when that call returns. -/
def addEvent (lib : TimeLib) (client : Except Error CalendarClient) (flags : AddFlags)
    (title : GoString) : AddRun :=
  match client with
  | .error err => ⟨["Error: ".toList ++ err.message ++ "\n".toList], none, .exited 1⟩
  | .ok client =>
  match parseDateTime lib flags.eventStart with
  | .error err =>
    ⟨["Error parsing start time: ".toList ++ err.message ++ "\n".toList], none, .exited 1⟩
  | .ok startTime =>
  let endResult : Except Error Time :=
    if flags.eventEnd ≠ [] then parseDateTime lib flags.eventEnd
    else if flags.eventAllDay then .ok (startTime.Add (24 * Hour))
    else .ok (startTime.Add (1 * Hour))
  match endResult with
  | .error err =>
    ⟨["Error parsing end time: ".toList ++ err.message ++ "\n".toList], none, .exited 1⟩
  | .ok endTime =>
  let event : CalendarEvent :=
    { ID := [], Title := title, StartTime := startTime, EndTime := endTime,
      Calendar := flags.calendarID, Location := flags.eventLocation,
      Notes := flags.eventNotes, AllDay := flags.eventAllDay, AlarmMinutesBefore := 0 }
  match client.CreateEvent event with
  | .error err =>
    ⟨["Error creating event: ".toList ++ err.message ++ "\n".toList], some event, .exited 1⟩
  | .ok eventID =>
  let location : List GoString :=
    if flags.eventLocation ≠ [] then ["  Location: ".toList ++ flags.eventLocation ++ "\n".toList]
    else []
  ⟨["Event created: ".toList ++ title ++ "\n".toList,
      "  Time: ".toList ++ lib.Format startTime "Mon, Jan 2 3:04 PM".toList ++ " - ".toList ++
        lib.Format endTime "3:04 PM".toList ++ "\n".toList] ++ location ++
      ["  ID: ".toList ++ eventID ++ "\n".toList],
    some event, .returned⟩

/-- A sample `time` library: it parses the day `2024-01-20` with the layout
`2006-01-02` and nothing else. -/
def sampleTimeLib : TimeLib :=
  ⟨fun layout s =>
      if layout = "2006-01-02".toList ∧ s = "2024-01-20".toList then
        some ⟨1705708800000000000⟩
      else none,
    fun _ _ => "?".toList⟩

/-- A sample calendar client that accepts every event. -/
def sampleCalendarClient : CalendarClient := ⟨fun _ => .ok "E1".toList⟩

/-! ## Package `ai`: provider detection and the codex output -/

/-- Go: `Provider`, a `string`. -/
abbrev Provider := GoString

/-- The constant `ProviderClaude`. -/
def ProviderClaude : Provider := "claude".toList

/-- The constant `ProviderCodex`. -/
def ProviderCodex : Provider := "codex".toList

/-- The constant `ProviderGemini`. -/
def ProviderGemini : Provider := "gemini".toList

/-- The constant `ProviderVibe`. -/
def ProviderVibe : Provider := "vibe".toList

/-- The constant `ProviderOllama`. -/
def ProviderOllama : Provider := "ollama".toList

/-- The constant `ProviderNone`, the empty string. -/
def ProviderNone : Provider := []

/-- The slice `providers` of `detectProvider`, the order of preference. -/
def providers : List Provider :=
  [ProviderClaude, ProviderCodex, ProviderGemini, ProviderVibe, ProviderOllama]

/-- The loop of `detectProvider` over the providers still to check. -/
def detectLoop (commandExists : GoString → Bool) : List Provider → Provider
  | [] => ProviderNone
  | p :: rest => if commandExists p then p else detectLoop commandExists rest

/-- Go: `detectProvider()`.  `commandExists` (a lookup on `PATH` by
`exec.LookPath`) is the state of the machine and taken as a parameter. -/
def detectProvider (commandExists : GoString → Bool) : Provider :=
  detectLoop commandExists providers

/-- The struct `Client` of package `ai`. -/
structure Client where
  provider : Provider

/-- Go: `NewClient()`. -/
def NewClient (commandExists : GoString → Bool) : Client :=
  ⟨detectProvider commandExists⟩

/-- Go: `(c *Client) Available()`. -/
def Client.Available (c : Client) : Bool := c.provider != ProviderNone

/-- The scan of `strings.Split(s, sep)` for a separator of one rune, `cur`
being the piece under construction. -/
def splitScan (sep : Char) : GoString → GoString → List GoString
  | [], cur => [cur]
  | c :: cs, cur =>
    if c = sep then cur :: splitScan sep cs [] else splitScan sep cs (cur ++ [c])

/-- Go: `strings.Split(s, "\n")`: the pieces between the newlines, one more
than there are newlines. -/
def splitNewlines (s : GoString) : List GoString := splitScan '\n' s []

/-- The inner struct of the event `parseCodexOutput` decodes: `item.type` and
`item.text`. -/
structure CodexItem where
  Typ : GoString
  Text : GoString
  deriving DecidableEq

/-- The event struct `parseCodexOutput` decodes into: `type` and `item`. -/
structure CodexEvent where
  Typ : GoString
  Item : CodexItem
  deriving DecidableEq

/-- The loop of `parseCodexOutput` over the lines, `lastMessage` being the
variable of that name.  `Unmarshal` is `json.Unmarshal` into a fresh event,
`none` for an error; the decoder is outside the sources and taken as a
parameter. -/
def parseCodexLoop (Unmarshal : GoString → Option CodexEvent) :
    List GoString → GoString → GoString
  | [], lastMessage => lastMessage
  | line :: rest, lastMessage =>
    let line := TrimSpace line
    if line = [] then parseCodexLoop Unmarshal rest lastMessage
    else
      match Unmarshal line with
      | none => parseCodexLoop Unmarshal rest lastMessage
      | some event =>
        if event.Typ = "item.completed".toList ∧ event.Item.Typ = "agent_message".toList then
          parseCodexLoop Unmarshal rest event.Item.Text
        else parseCodexLoop Unmarshal rest lastMessage

/-- Go: `parseCodexOutput(output)`. -/
def parseCodexOutput (Unmarshal : GoString → Option CodexEvent) (output : GoString) :
    GoString :=
  parseCodexLoop Unmarshal (splitNewlines output) []

/-- The text a line carries as an agent message: the line, trimmed, is not
empty and decodes as an event of type `item.completed` whose item has type
`agent_message`; then its `item.text`. -/
def agentText (Unmarshal : GoString → Option CodexEvent) (line : GoString) :
    Option GoString :=
  if TrimSpace line = [] then none
  else
    match Unmarshal (TrimSpace line) with
    | none => none
    | some event =>
      if event.Typ = "item.completed".toList ∧ event.Item.Typ = "agent_message".toList then
        some event.Item.Text
      else none

/-- The lines of a JSONL text joined by newlines: `strings.Join(ls, "\n")`. -/
def joinLines : List GoString → GoString
  | [] => []
  | [l] => l
  | l :: rest => l ++ '\n' :: joinLines rest

/-- A sample JSON decoder, good for three fixed lines. -/
def sampleUnmarshal (line : GoString) : Option CodexEvent :=
  if line = "A".toList then some ⟨"item.completed".toList, ⟨"agent_message".toList, "first".toList⟩⟩
  else if line = "B".toList then
    some ⟨"item.completed".toList, ⟨"agent_message".toList, "second".toList⟩⟩
  else if line = "C".toList then some ⟨"turn.completed".toList, ⟨[], "other".toList⟩⟩
  else none

/-! ## Vocabulary of the claim about well-formed quoting -/

/-- The length of the maximal run of backslashes that ends the string `l`:
the run that immediately precedes whatever follows `l`. -/
def trailingBackslashes (l : GoString) : Nat :=
  (l.reverse.takeWhile (fun c => c == '\\')).length

/-! ## Package `ai`: the gemini output -/

/-- The scan of `strings.Index(s, sub)` for a `sub` of one rune `c`, `i` being
the index of the rune looked at; `-1` when `c` does not occur. -/
def indexFrom (c : Char) : GoString → Nat → Int
  | [], _ => -1
  | x :: xs, i => if x = c then (i : Int) else indexFrom c xs (i + 1)

/-- Go: `strings.Index(s, "{")` and the like: the index of the first `c` in
`s`, or `-1`. -/
def Index (s : GoString) (c : Char) : Int := indexFrom c s 0

/-- Go: `parseGeminiOutput(output)`.  `Unmarshal` is `json.Unmarshal` into the
fresh struct `response`, giving the field `Response` afterwards, `none` for
an error; the decoder is outside the sources and taken as a parameter. -/
def parseGeminiOutput (Unmarshal : GoString → Option GoString) (output : GoString) :
    GoString :=
  let jsonStart := Index output '{'
  if jsonStart = -1 then output
  else
    let jsonStr := output.drop jsonStart.toNat
    match Unmarshal jsonStr with
    | none => output
    | some response => response

/-- A sample decoder for the gemini output: it decodes one fixed object. -/
def sampleGeminiUnmarshal (jsonStr : GoString) : Option GoString :=
  if jsonStr = "\x7b\"response\":\"hi\"\x7d".toList then some "hi".toList else none

/-! ## Package `utils`: `TruncateStr` -/

/-- A Go `string` as its bytes: `TruncateStr` measures and cuts by bytes. -/
abbrev ByteString := List (Fin 256)

/-- The three bytes of the literal `"..."`. -/
def dots : ByteString := [46, 46, 46]

/-- Go: the slice expression `s[:hi]`; `none` stands for the run-time panic
when `hi` is out of range. -/
def sliceTo (s : ByteString) (hi : Int) : Option ByteString :=
  if 0 ≤ hi ∧ hi ≤ (s.length : Int) then some (s.take hi.toNat) else none

/-- Go: `TruncateStr(s, maxLen)`; `none` stands for a panic. -/
def TruncateStr (s : ByteString) (maxLen : Int) : Option ByteString :=
  if (s.length : Int) ≤ maxLen then some s
  else if maxLen ≤ 3 then sliceTo s maxLen
  else (sliceTo s (maxLen - 3)).map (fun t => t ++ dots)

/-! ## Package `cli`: the selector -/

/-- The struct `SelectorItem`. -/
structure SelectorItem where
  ID : GoString
  Label : GoString
  deriving DecidableEq

/-- The struct `Selector`. -/
structure Selector where
  title : GoString
  items : List SelectorItem
  cursor : Int
  selected : GoString
  cancelled : Bool
  deriving DecidableEq

/-- A `tea.Msg`: a `tea.KeyMsg` whose `String()` is `name`, or any other
message. -/
inductive Msg where
  | key (name : GoString)
  | other
  deriving DecidableEq

/-- A `tea.Cmd` as `Update` returns it: `nil` or `tea.Quit`. -/
inductive Cmd where
  | noCmd
  | quit
  deriving DecidableEq

/-- Go: `NewSelector(title, items)`; the other fields are zero. -/
def NewSelector (title : GoString) (items : List SelectorItem) : Selector :=
  { title := title, items := items, cursor := 0, selected := [], cancelled := false }

/-- Go: the index expression `items[i]`; `none` stands for the run-time panic
when `i` is out of range. -/
def itemAt (items : List SelectorItem) (i : Int) : Option SelectorItem :=
  if 0 ≤ i ∧ i < (items.length : Int) then items.get? i.toNat else none

/-- Go: `(s Selector) Update(msg)`: the model and the command returned; `none`
stands for a panic. -/
def Selector.Update (s : Selector) (msg : Msg) : Option (Selector × Cmd) :=
  match msg with
  | .other => some (s, .noCmd)
  | .key name =>
    if name = "up".toList ∨ name = "k".toList then
      some (if s.cursor > 0 then { s with cursor := s.cursor - 1 } else s, .noCmd)
    else if name = "down".toList ∨ name = "j".toList then
      some (if s.cursor < (s.items.length : Int) - 1 then { s with cursor := s.cursor + 1 }
        else s, .noCmd)
    else if name = "enter".toList then
      match itemAt s.items s.cursor with
      | none => none
      | some item => some ({ s with selected := item.ID }, .quit)
    else if name = "esc".toList ∨ name = "ctrl+c".toList then
      some ({ s with cancelled := true }, .quit)
    else some (s, .noCmd)

/-- The model after a sequence of messages has gone through `Update`; `none`
when one of the calls panics. -/
def Selector.run : Selector → List Msg → Option Selector
  | s, [] => some s
  | s, m :: ms =>
    match s.Update m with
    | none => none
    | some (s1, _) => Selector.run s1 ms

/-! ## The sync commands: what one pass over the accounts amounts to -/

/-- The state of the world once `FullSync("INBOX")` has run for each of
`accounts`, one after the other in list order, starting from `w`. -/
def syncedState {σ : Type} (fullSync : Account → GoString → σ → Option Error × σ)
    (accounts : List Account) (w : σ) : σ :=
  accounts.foldl (fun s a => (fullSync a "INBOX".toList s).2) w

/-- The line `syncAllAccounts` prints for an account once its `FullSync` has
returned `err`. -/
def daemonReport (account : Account) (err : Option Error) : GoString :=
  match err with
  | some e =>
    "Error syncing ".toList ++ account.Credentials.Email ++ ": ".toList ++ e.message ++
      "\n".toList
  | none => "Synced ".toList ++ account.Credentials.Email ++ "\n".toList

/-- The text the loop of `runSync` prints once `FullSync` has returned `err`. -/
def syncReport (err : Option Error) : GoString :=
  match err with
  | some e => " error: ".toList ++ e.message ++ "\n".toList
  | none => " done\n".toList

/-- One pass of `syncAllAccounts` as the specification describes it, for the
account at position `p.1` of `accounts`: call `FullSync("INBOX")` for it in
the state left by the syncs of the accounts before it, whatever they returned,
and print the report of what that call returned. -/
def daemonStep {σ : Type} (fullSync : Account → GoString → σ → Option Error × σ)
    (accounts : List Account) (w : σ) (p : Nat × Account) : List Effect :=
  [.fullSync p.2 "INBOX".toList,
    .print (daemonReport p.2
      (fullSync p.2 "INBOX".toList (syncedState fullSync (accounts.take p.1) w)).1)]

/-- The loop of `runSync` as the specification describes it, for the account
at position `p.1` of `accounts`: announce it, call `FullSync("INBOX")` for it
in the state left by the syncs of the accounts before it, whatever they
returned, and print what that call returned. -/
def syncStep {σ : Type} (fullSync : Account → GoString → σ → Option Error × σ)
    (accounts : List Account) (w : σ) (p : Nat × Account) : List Effect :=
  [.print ("  Syncing ".toList ++ p.2.Credentials.Email ++ "...".toList),
    .fullSync p.2 "INBOX".toList,
    .print (syncReport
      (fullSync p.2 "INBOX".toList (syncedState fullSync (accounts.take p.1) w)).1)]

/-! ## Theorems -/

theorem replaceScan_single (a : Char) (new s : GoString) :
    replaceScan [a] new 0 s = s.flatMap (fun c => if c = a then new else [c]) := by
  induction s with
  | nil => rfl
  | cons c cs ih =>
    by_cases h : c = a
    · subst h
      simp [replaceScan, HasPrefix, ih]
    · simp [replaceScan, HasPrefix, h, ih]

theorem ReplaceAll_single (a : Char) (new s : GoString) :
    ReplaceAll s [a] new = s.flatMap (fun c => if c = a then new else [c]) := by
  simp [ReplaceAll, replaceScan_single]

theorem quoteString_eq (s : GoString) : quoteString s = quotedSpec s := by
  simp only [quoteString, quotedSpec, ReplaceAll_single, List.flatMap_assoc]
  have h : ∀ c : Char,
      (List.flatMap (if c = '\\' then ['\\', '\\'] else [c])
        (fun c => if c = '"' then ['\\', '"'] else [c])) = escapeRune c := by
    intro c
    by_cases h1 : c = '\\'
    · subst h1; simp [escapeRune]
    · by_cases h2 : c = '"'
      · subst h2; simp [escapeRune]
      · simp [escapeRune, h1, h2]
  simp [h]


/-- C1: for every string `s`, `quoteString s` is a double quote, then `s` with
every backslash replaced by two backslashes and every double quote by
backslash-double-quote (the backslashes put before quotes are not doubled
again), then a double quote; every other rune, CR and LF included, is copied
unchanged. -/
theorem quoteString_eq_quotedSpec (s : GoString) :
    quoteString s = ['"'] ++ s.flatMap escapeRune ++ ['"'] ∧
      escapeRune '\\' = ['\\', '\\'] ∧ escapeRune '"' = ['\\', '"'] ∧
      escapeRune '\r' = ['\r'] ∧ escapeRune '\n' = ['\n'] ∧
      (∀ c : Char, c ≠ '\\' → c ≠ '"' → escapeRune c = [c]) := by
  refine ⟨by simp [quoteString_eq, quotedSpec], by decide, by decide, by decide, by decide, ?_⟩
  intro c h1 h2
  simp [escapeRune, h1, h2]

theorem unescape_cons_of_ne (c : Char) (t : GoString) (h : c ≠ '\\') :
    unescape (c :: t) = c :: unescape t := by
  cases t with
  | nil => rfl
  | cons x rest => simp [unescape, h]

theorem unescape_escaped (x : Char) (t : GoString) :
    unescape ('\\' :: x :: t) = x :: unescape t := by
  simp [unescape]

theorem unescape_escapeRune_append (c : Char) (t : GoString) :
    unescape (escapeRune c ++ t) = c :: unescape t := by
  by_cases h1 : c = '\\'
  · subst h1
    simp [escapeRune, unescape_escaped]
  · by_cases h2 : c = '"'
    · subst h2
      simp [escapeRune, unescape_escaped]
    · simp [escapeRune, h1, h2, unescape_cons_of_ne]

theorem unescape_flatMap_escapeRune (s : GoString) :
    unescape (s.flatMap escapeRune) = s := by
  induction s with
  | nil => rfl
  | cons c cs ih => rw [List.flatMap_cons, unescape_escapeRune_append, ih]

theorem serverUnquote_quotedSpec (s : GoString) : serverUnquote (quotedSpec s) = some s := by
  simp [serverUnquote, quotedSpec, unescape_flatMap_escapeRune]

/-- C2: quoting round-trip.  For every string `s`, stripping the outer double
quotes of `quoteString s` and reading the rest left to right, each
backslash-x pair becoming x, gives back exactly `s`; so `quoteString` is
injective. -/
theorem quoteString_roundtrip :
    (∀ s : GoString, serverUnquote (quoteString s) = some s) ∧
      Function.Injective quoteString := by
  have h : ∀ s : GoString, serverUnquote (quoteString s) = some s := fun s => by
    rw [quoteString_eq, serverUnquote_quotedSpec]
  refine ⟨h, fun a b hab => ?_⟩
  have := h a
  rw [hab, h b] at this
  exact (Option.some.inj this).symm

/-! ### The two reading loops -/

theorem readUntilOKLoop_skip (tag : GoString) (err : Error) (pre rest : List GoString)
    (hpre : ∀ l ∈ pre, isTerminator tag l = false) :
    readUntilOKLoop tag err (pre ++ rest) = readUntilOKLoop tag err rest := by
  induction pre with
  | nil => rfl
  | cons l ls ih =>
    have hl := hpre l (List.mem_cons_self _ _)
    simp only [isTerminator, isOK, isFail, Bool.or_eq_false_iff] at hl
    obtain ⟨h1, h2, h3⟩ := hl
    simp only [List.cons_append, readUntilOKLoop, h1, h2, h3]
    simpa using ih (fun x hx => hpre x (List.mem_cons_of_mem _ hx))

theorem readUntilOKLoop_terminator (tag : GoString) (err : Error) (t : GoString)
    (post : List GoString) (ht : isTerminator tag t = true) :
    readUntilOKLoop tag err (t :: post) =
      (if isOK tag t = true then none
        else some (.errorf ("command failed: ".toList ++ TrimSpace t)), post) := by
  by_cases hok : isOK tag t = true
  · have h1 : HasPrefix (TrimSpace t) (tag ++ " OK".toList) = true := hok
    simp only [readUntilOKLoop, h1, hok, if_true]
  · have hf : isFail tag t = true := by
      simpa [isTerminator, hok] using ht
    have h1 : HasPrefix (TrimSpace t) (tag ++ " OK".toList) = false := by
      simpa [isOK] using hok
    have h2 : (HasPrefix (TrimSpace t) (tag ++ " NO".toList) ||
        HasPrefix (TrimSpace t) (tag ++ " BAD".toList)) = true := hf
    simp only [readUntilOKLoop, h1, h2, hok]
    simp

theorem readUntilOKLoop_exhausted (tag : GoString) (err : Error) (ls : List GoString)
    (h : ∀ l ∈ ls, isTerminator tag l = false) :
    readUntilOKLoop tag err ls = (some err, []) := by
  have := readUntilOKLoop_skip tag err ls [] h
  simpa [readUntilOKLoop] using this

theorem appendUIDs_acc (uids : List UID) (toks : List GoString) :
    appendUIDs uids toks = uids ++ appendUIDs [] toks := by
  induction toks generalizing uids with
  | nil => simp [appendUIDs]
  | cons t ts ih =>
    cases h : ParseUint t with
    | none => simp only [appendUIDs, h]; exact ih uids
    | some num =>
      simp only [appendUIDs, h]
      rw [ih (uids ++ [num % 2 ^ 32]), ih ([] ++ [num % 2 ^ 32])]
      simp

theorem parseSearchLine_acc (line : GoString) (uids : List UID) :
    parseSearchLine line uids = uids ++ parseSearchLine line [] := by
  unfold parseSearchLine
  cases FindStringSubmatch line with
  | none => simp
  | some ms =>
    by_cases h : 1 < ms.length ∧ ms.getD 1 [] ≠ []
    · simp only [if_pos h]
      exact appendUIDs_acc _ _
    · simp only [if_neg h, List.append_nil]

theorem readSearchResponseLoop_skip (tag : GoString) (err : Error)
    (pre rest : List GoString) (uids : List UID)
    (hpre : ∀ l ∈ pre, isTerminator tag l = false) :
    readSearchResponseLoop tag err (pre ++ rest) uids =
      readSearchResponseLoop tag err rest (uids ++ pre.flatMap lineUIDs) := by
  induction pre generalizing uids with
  | nil => simp
  | cons l ls ih =>
    have hl := hpre l (List.mem_cons_self _ _)
    simp only [isTerminator, isOK, isFail, Bool.or_eq_false_iff] at hl
    obtain ⟨h1, h2, h3⟩ := hl
    simp only [List.cons_append, readSearchResponseLoop, h1, h2, h3]
    rw [parseSearchLine_acc (TrimSpace l) uids]
    have := ih (uids ++ parseSearchLine (TrimSpace l) [])
      (fun x hx => hpre x (List.mem_cons_of_mem _ hx))
    simpa [lineUIDs, List.append_assoc] using this

theorem readSearchResponseLoop_terminator (tag : GoString) (err : Error) (t : GoString)
    (post : List GoString) (uids : List UID) (ht : isTerminator tag t = true) :
    readSearchResponseLoop tag err (t :: post) uids =
      (if isOK tag t = true then (uids ++ lineUIDs t, none)
        else ([], some (.errorf ("search failed: ".toList ++ TrimSpace t))), post) := by
  by_cases hok : isOK tag t = true
  · have h1 : HasPrefix (TrimSpace t) (tag ++ " OK".toList) = true := hok
    simp only [readSearchResponseLoop, h1, hok, if_true]
    rw [parseSearchLine_acc]
    rfl
  · have hf : isFail tag t = true := by
      simpa [isTerminator, hok] using ht
    have h1 : HasPrefix (TrimSpace t) (tag ++ " OK".toList) = false := by
      simpa [isOK] using hok
    have h2 : (HasPrefix (TrimSpace t) (tag ++ " NO".toList) ||
        HasPrefix (TrimSpace t) (tag ++ " BAD".toList)) = true := hf
    simp only [readSearchResponseLoop, h1, h2, hok]
    simp

theorem readSearchResponseLoop_exhausted (tag : GoString) (err : Error)
    (ls : List GoString) (uids : List UID)
    (h : ∀ l ∈ ls, isTerminator tag l = false) :
    readSearchResponseLoop tag err ls uids = (([], some err), []) := by
  have := readSearchResponseLoop_skip tag err ls [] uids h
  simpa [readSearchResponseLoop] using this

theorem HasPrefix_iff (s p : GoString) : HasPrefix s p = true ↔ p <+: s := by
  induction p generalizing s with
  | nil => cases s <;> simp [HasPrefix]
  | cons d p ih =>
    cases s with
    | nil => simp [HasPrefix]
    | cons c s =>
      simp only [HasPrefix, Bool.and_eq_true, beq_iff_eq, ih, List.cons_prefix_cons]
      constructor
      · rintro ⟨h1, h2⟩; exact ⟨h1.symm, h2⟩
      · rintro ⟨h1, h2⟩; exact ⟨h1.symm, h2⟩

theorem HasPrefix_append (p t : GoString) : HasPrefix (p ++ t) p = true :=
  (HasPrefix_iff _ _).2 (List.prefix_append p t)

theorem isOK_not_isFail (tag raw : GoString) (h : isFail tag raw = true) :
    isOK tag raw = false := by
  cases hok : isOK tag raw with
  | false => rfl
  | true =>
    exfalso
    have h1 : (tag ++ " OK".toList) <+: TrimSpace raw := (HasPrefix_iff _ _).1 hok
    simp only [isFail, Bool.or_eq_true, HasPrefix_iff] at h
    rcases h with h2 | h2
    · have h3 := List.prefix_of_prefix_length_le h1 h2 (by simp)
      rw [List.prefix_append_right_inj] at h3
      exact absurd h3 (by decide)
    · have h3 := List.prefix_of_prefix_length_le h1 h2 (by simp)
      rw [List.prefix_append_right_inj] at h3
      exact absurd h3 (by decide)

theorem readUntilOK_at_terminator (tag err : GoString) (pre post : List GoString)
    (t : GoString) (hpre : ∀ l ∈ pre, isTerminator tag l = false)
    (ht : isTerminator tag t = true) :
    readUntilOK ⟨pre ++ t :: post, err⟩ tag =
      (if isOK tag t = true then none
        else some (.errorf ("command failed: ".toList ++ TrimSpace t)), ⟨post, err⟩) := by
  simp only [readUntilOK, readUntilOKLoop_skip tag _ pre _ hpre,
    readUntilOKLoop_terminator tag _ t post ht]

/-! ### Claims about the readers -/

/-- C8: tagged completion.  For every tag and every sequence of lines,
`readUntilOK` passes over the lines that are no terminator for the tag and
stops at the first line that, once trimmed, begins with `<tag> OK`,
`<tag> NO` or `<tag> BAD`: it returns success exactly when that line begins
with `<tag> OK`, otherwise an error whose text contains that (trimmed) line,
and the lines after the deciding one are left unread. -/
theorem readUntilOK_first_terminator (tag err : GoString) (pre post : List GoString)
    (t : GoString) (hpre : ∀ l ∈ pre, isTerminator tag l = false)
    (ht : isTerminator tag t = true) :
    readUntilOK ⟨pre ++ t :: post, err⟩ tag =
        (if isOK tag t = true then none
          else some (.errorf ("command failed: ".toList ++ TrimSpace t)), ⟨post, err⟩) ∧
      ((readUntilOK ⟨pre ++ t :: post, err⟩ tag).1 = none ↔ isOK tag t = true) ∧
      (∀ e, (readUntilOK ⟨pre ++ t :: post, err⟩ tag).1 = some e →
        TrimSpace t <:+: e.message) := by
  have h : readUntilOK ⟨pre ++ t :: post, err⟩ tag =
      (if isOK tag t = true then none
        else some (.errorf ("command failed: ".toList ++ TrimSpace t)), ⟨post, err⟩) :=
    readUntilOK_at_terminator tag err pre post t hpre ht
  refine ⟨h, ?_, ?_⟩
  · rw [h]
    by_cases hok : isOK tag t = true <;> simp [hok]
  · intro e he
    rw [h] at he
    by_cases hok : isOK tag t = true
    · simp [hok] at he
    · rw [if_neg hok] at he
      cases he
      exact ⟨"command failed: ".toList, [], by simp [Error.message]⟩

/-- Witness of C8: two lines that are no terminator for `a1`, then
`a1 NO bad`, then one more line. -/
theorem readUntilOK_first_terminator_witness :
    (∀ l ∈ ["* OK ready\r\n".toList, "a2 OK done\r\n".toList],
        isTerminator "a1".toList l = false) ∧
      isTerminator "a1".toList "a1 NO bad\r\n".toList = true ∧
      readUntilOK ⟨["* OK ready\r\n".toList, "a2 OK done\r\n".toList] ++
          "a1 NO bad\r\n".toList :: ["a1 OK\r\n".toList], "EOF".toList⟩ "a1".toList =
        (some (.errorf "command failed: a1 NO bad".toList),
          ⟨["a1 OK\r\n".toList], "EOF".toList⟩) :=
  ⟨by decide, by decide,
    (readUntilOK_first_terminator "a1".toList "EOF".toList
      ["* OK ready\r\n".toList, "a2 OK done\r\n".toList] ["a1 OK\r\n".toList]
      "a1 NO bad\r\n".toList (by decide) (by decide)).1.trans (by decide)⟩

/-- C9: a missing terminator is a transport failure.  If no line of the stream
is a terminator for the tag, `readUntilOK` and `readSearchResponse` return the
reader's own error unchanged, which is no error of the `command failed:` /
`search failed:` form, and `readSearchResponse` returns no identifiers;
conversely, when such lines are followed by a `<tag> NO` / `<tag> BAD` line,
neither function returns an error of the reader. -/
theorem missing_terminator_is_transport (tag err : GoString) (ls : List GoString)
    (h : ∀ l ∈ ls, isTerminator tag l = false) :
    readUntilOK ⟨ls, err⟩ tag = (some (.transport err), ⟨[], err⟩) ∧
      readSearchResponse ⟨ls, err⟩ tag = (([], some (.transport err)), ⟨[], err⟩) ∧
      (∀ text, (readUntilOK ⟨ls, err⟩ tag).1 ≠ some (.errorf text)) ∧
      (∀ text, (readSearchResponse ⟨ls, err⟩ tag).1.2 ≠ some (.errorf text)) ∧
      (∀ t post, isFail tag t = true →
        (∀ text, (readUntilOK ⟨ls ++ t :: post, err⟩ tag).1 ≠ some (.transport text)) ∧
        (∀ text, (readSearchResponse ⟨ls ++ t :: post, err⟩ tag).1.2 ≠
          some (.transport text))) := by
  have h1 : readUntilOK ⟨ls, err⟩ tag = (some (.transport err), ⟨[], err⟩) := by
    simp only [readUntilOK, readUntilOKLoop_exhausted tag _ ls h]
  have h2 : readSearchResponse ⟨ls, err⟩ tag =
      (([], some (.transport err)), ⟨[], err⟩) := by
    simp only [readSearchResponse, readSearchResponseLoop_exhausted tag _ ls [] h]
  refine ⟨h1, h2, ?_, ?_, ?_⟩
  · intro text; rw [h1]; simp
  · intro text; rw [h2]; simp
  · intro t post hf
    have hok := isOK_not_isFail tag t hf
    have ht : isTerminator tag t = true := by simp [isTerminator, hf]
    constructor
    · intro text
      simp [readUntilOK, readUntilOKLoop_skip tag _ ls _ h,
        readUntilOKLoop_terminator tag _ t post ht, hok]
    · intro text
      simp [readSearchResponse, readSearchResponseLoop_skip tag _ ls _ [] h,
        readSearchResponseLoop_terminator tag _ t post _ ht, hok]

/-- Witness of C9: a stream that ends after two untagged lines. -/
theorem missing_terminator_is_transport_witness :
    (∀ l ∈ ["* SEARCH 3 5\r\n".toList, "* OK\r\n".toList],
        isTerminator "a3".toList l = false) ∧
      readSearchResponse ⟨["* SEARCH 3 5\r\n".toList, "* OK\r\n".toList], "EOF".toList⟩
          "a3".toList =
        (([], some (.transport "EOF".toList)), ⟨[], "EOF".toList⟩) :=
  ⟨by decide,
    (missing_terminator_is_transport "a3".toList "EOF".toList
      ["* SEARCH 3 5\r\n".toList, "* OK\r\n".toList] (by decide)).2.1⟩


/-! ### Decimal numerals and `ParseUint` -/

theorem digitChar_spec (k : Nat) (hk : k < 10) :
    isDigit (Nat.digitChar k) = true ∧ (Nat.digitChar k).toNat - 48 = k := by
  interval_cases k <;> exact ⟨by decide, by decide⟩

theorem decVal_concat (ds : GoString) (c : Char) :
    decVal (ds ++ [c]) = decVal ds * 10 + (c.toNat - 48) := by
  simp [decVal, List.foldl_append]

theorem toDigitsCore_spec : ∀ (fuel n : Nat) (acc : List Char), n < fuel →
    ∃ pre, Nat.toDigitsCore 10 fuel n acc = pre ++ acc ∧ pre ≠ [] ∧
      (∀ c ∈ pre, isDigit c = true) ∧ decVal pre = n := by
  intro fuel
  induction fuel with
  | zero => intro n acc h; omega
  | succ fuel ih =>
    intro n acc h
    have hd := digitChar_spec (n % 10) (Nat.mod_lt _ (by decide))
    simp only [Nat.toDigitsCore]
    by_cases h0 : n / 10 = 0
    · refine ⟨[Nat.digitChar (n % 10)], by simp [h0], by simp, by simpa using hd.1, ?_⟩
      simp only [decVal, List.foldl_cons, List.foldl_nil, hd.2]
      omega
    · have hlt : n / 10 < fuel := by omega
      obtain ⟨pre, e1, _, e3, e4⟩ := ih (n / 10) (Nat.digitChar (n % 10) :: acc) hlt
      refine ⟨pre ++ [Nat.digitChar (n % 10)], by simp [h0, e1], by simp, ?_, ?_⟩
      · intro c hc
        rcases List.mem_append.1 hc with hc | hc
        · exact e3 c hc
        · simp only [List.mem_singleton] at hc
          subst hc
          exact hd.1
      · rw [decVal_concat, e4, hd.2]
        omega

theorem decimal_spec (n : Nat) :
    decimal n ≠ [] ∧ (∀ c ∈ decimal n, isDigit c = true) ∧ decVal (decimal n) = n := by
  obtain ⟨pre, e1, e2, e3, e4⟩ := toDigitsCore_spec (n + 1) n [] (by omega)
  have : decimal n = pre := by simpa [decimal, Nat.toDigits] using e1
  rw [this]
  exact ⟨e2, e3, e4⟩

theorem foldl_digits_ge (ds : GoString) (n : Nat) :
    n ≤ ds.foldl (fun n c => n * 10 + (c.toNat - 48)) n := by
  induction ds generalizing n with
  | nil => simp
  | cons c cs ih =>
    simp only [List.foldl_cons]
    exact le_trans (by omega) (ih _)

theorem parseUintLoop_digits (ds : GoString) (n : Nat)
    (hd : ∀ c ∈ ds, isDigit c = true) (hn : n ≤ maxUint32) :
    parseUintLoop maxUint32 ds n =
      if ds.foldl (fun n c => n * 10 + (c.toNat - 48)) n ≤ maxUint32
      then some (ds.foldl (fun n c => n * 10 + (c.toNat - 48)) n) else none := by
  induction ds generalizing n with
  | nil => simp [parseUintLoop, hn]
  | cons c cs ih =>
    have hc : isDigit c = true := hd c (List.mem_cons_self _ _)
    have hc2 : c.toNat - 48 ≤ 9 := by
      simp only [isDigit, Bool.and_eq_true, decide_eq_true_eq] at hc
      omega
    have hn2 : n ≤ 4294967295 := by simpa [maxUint32] using hn
    have e10 : n * 10 % 2 ^ 64 = n * 10 := Nat.mod_eq_of_lt (by omega)
    have e1 : (n * 10 + (c.toNat - 48)) % 2 ^ 64 = n * 10 + (c.toNat - 48) :=
      Nat.mod_eq_of_lt (by omega)
    have hcut : ¬ n ≥ (2 ^ 64 - 1) / 10 + 1 := by omega
    simp only [parseUintLoop, hc, if_true, hcut, if_false, e10, e1, List.foldl_cons]
    by_cases hbig : n * 10 + (c.toNat - 48) > maxUint32
    · have hge := foldl_digits_ge cs (n * 10 + (c.toNat - 48))
      have hnot : ¬ cs.foldl (fun n c => n * 10 + (c.toNat - 48))
          (n * 10 + (c.toNat - 48)) ≤ maxUint32 := by omega
      rw [if_pos (Or.inr hbig), if_neg hnot]
    · have hcond : ¬ (n * 10 + (c.toNat - 48) < n * 10 ∨
          n * 10 + (c.toNat - 48) > maxUint32) := by
        rintro (h | h)
        · omega
        · exact hbig h
      rw [if_neg hcond]
      exact ih _ (fun x hx => hd x (List.mem_cons_of_mem _ hx)) (by omega)

theorem ParseUint_digits (ds : GoString) (hne : ds ≠ [])
    (hd : ∀ c ∈ ds, isDigit c = true) :
    ParseUint ds = if decVal ds ≤ maxUint32 then some (decVal ds) else none := by
  simp only [ParseUint, hne, if_false]
  exact parseUintLoop_digits ds 0 hd (by simp [maxUint32])

theorem ParseUint_decimal (n : Nat) (hn : n < 2 ^ 32) : ParseUint (decimal n) = some n := by
  obtain ⟨h1, h2, h3⟩ := decimal_spec n
  rw [ParseUint_digits _ h1 h2, h3, if_pos]
  simp only [maxUint32]
  omega

theorem appendUIDs_decimal (ns : List Nat) (hns : ∀ n ∈ ns, n < 2 ^ 32) :
    appendUIDs [] (ns.map decimal) = ns := by
  induction ns with
  | nil => rfl
  | cons n rest ih =>
    have hn := hns n (List.mem_cons_self _ _)
    simp only [List.map_cons, appendUIDs, ParseUint_decimal n hn]
    rw [appendUIDs_acc, ih (fun x hx => hns x (List.mem_cons_of_mem _ hx)),
      Nat.mod_eq_of_lt hn]
    rfl

/-! ### The pattern, `Fields` and `TrimSpace` on a line of digit tokens -/

theorem isDigit_not_IsSpace (c : Char) (h : isDigit c = true) : IsSpace c = false := by
  simp only [isDigit, Bool.and_eq_true, decide_eq_true_eq] at h
  simp only [IsSpace, Bool.or_eq_false_iff, Bool.and_eq_false_iff, decide_eq_false_iff_not,
    beq_eq_false_iff_ne, ne_eq]
  omega

theorem isDigit_not_isReSpace (c : Char) (h : isDigit c = true) : isReSpace c = false := by
  simp only [isDigit, Bool.and_eq_true, decide_eq_true_eq] at h
  simp only [isReSpace, Bool.or_eq_false_iff, beq_eq_false_iff_ne, ne_eq]
  omega

theorem spaced_cons (t : GoString) (ts : List GoString) :
    spaced (t :: ts) = ' ' :: (t ++ spaced ts) := by
  simp only [spaced, List.flatMap_cons, List.cons_append]

theorem takeWhile_spaced (p : Char → Bool) (hp : p ' ' = false) (toks : List GoString) :
    (spaced toks).takeWhile p = [] ∧ (spaced toks).dropWhile p = spaced toks := by
  cases toks with
  | nil => simp [spaced]
  | cons t ts =>
    rw [spaced_cons]
    simp [List.takeWhile, List.dropWhile, hp]

theorem takeWhile_all_append (p : Char → Bool) (t rest : GoString)
    (ht : ∀ c ∈ t, p c = true) (hr : rest.takeWhile p = []) :
    (t ++ rest).takeWhile p = t := by
  induction t with
  | nil => simpa using hr
  | cons c cs ih =>
    have hc := ht c (List.mem_cons_self _ _)
    simp only [List.cons_append, List.takeWhile, hc, List.append_eq]
    rw [ih (fun x hx => ht x (List.mem_cons_of_mem _ hx))]

theorem dropWhile_all_append (p : Char → Bool) (t rest : GoString)
    (ht : ∀ c ∈ t, p c = true) (hr : rest.dropWhile p = rest) :
    (t ++ rest).dropWhile p = rest := by
  induction t with
  | nil => simpa using hr
  | cons c cs ih =>
    have hc := ht c (List.mem_cons_self _ _)
    simp only [List.cons_append, List.dropWhile, hc, List.append_eq]
    exact ih (fun x hx => ht x (List.mem_cons_of_mem _ hx))

theorem matchDigits_token (t : GoString) (toks : List GoString) (hne : t ≠ [])
    (ht : ∀ c ∈ t, isDigit c = true) :
    matchDigits (t ++ spaced toks) = some (t, spaced toks) := by
  have h := takeWhile_spaced isDigit (by decide) toks
  simp only [matchDigits, takeWhile_all_append isDigit t _ ht h.1,
    dropWhile_all_append isDigit t _ ht h.2, hne, if_false]

theorem matchSpaces_spaced (t : GoString) (toks : List GoString) (hne : t ≠ [])
    (ht : ∀ c ∈ t, isDigit c = true) :
    matchSpaces (spaced (t :: toks)) = some ([' '], t ++ spaced toks) := by
  cases t with
  | nil => exact absurd rfl hne
  | cons c cs =>
    have hc := isDigit_not_isReSpace c (ht c (List.mem_cons_self _ _))
    have hsp : isReSpace ' ' = true := by decide
    rw [spaced_cons]
    simp [matchSpaces, List.takeWhile, List.dropWhile, hc, hsp]

theorem matchMore_spaced (toks : List GoString)
    (htoks : ∀ t ∈ toks, t ≠ [] ∧ ∀ c ∈ t, isDigit c = true) :
    ∀ fuel, (spaced toks).length ≤ fuel → matchMore fuel (spaced toks) = spaced toks := by
  induction toks with
  | nil =>
    intro fuel _
    cases fuel <;> simp [spaced, matchMore, matchSpaces]
  | cons t ts ih =>
    intro fuel hfuel
    obtain ⟨hne, hd⟩ := htoks t (List.mem_cons_self _ _)
    have hlen : (spaced (t :: ts)).length = 1 + t.length + (spaced ts).length := by
      rw [spaced_cons]
      simp only [List.length_cons, List.length_append]
      omega
    cases fuel with
    | zero => omega
    | succ fuel =>
      simp only [matchMore, matchSpaces_spaced t ts hne hd, matchDigits_token t ts hne hd]
      rw [ih (fun x hx => htoks x (List.mem_cons_of_mem _ hx)) fuel (by omega), spaced_cons]
      simp

theorem matchGroup_spaced (t : GoString) (toks : List GoString)
    (htoks : ∀ x ∈ t :: toks, x ≠ [] ∧ ∀ c ∈ x, isDigit c = true) :
    matchGroup (spaced (t :: toks)) = some (t ++ spaced toks) := by
  obtain ⟨hne, hd⟩ := htoks t (List.mem_cons_self _ _)
  rw [spaced_cons]
  simp only [matchGroup, if_true, matchDigits_token t toks hne hd]
  rw [matchMore_spaced toks (fun x hx => htoks x (List.mem_cons_of_mem _ hx)) _ le_rfl]

theorem FindStringSubmatch_of_matchHere (s : GoString) (m : List GoString)
    (h : matchHere s = some m) : FindStringSubmatch s = some m := by
  cases s with
  | nil => simp [matchHere, HasPrefix, searchLiteral] at h
  | cons c cs => simp [FindStringSubmatch, h]

theorem fieldsScan_token (t rest cur : GoString) (ht : ∀ c ∈ t, isDigit c = true) :
    fieldsScan (t ++ rest) cur = fieldsScan rest (cur ++ t) := by
  induction t generalizing cur with
  | nil => simp
  | cons c cs ih =>
    have hc := isDigit_not_IsSpace c (ht c (List.mem_cons_self _ _))
    simp only [List.cons_append, fieldsScan, hc, List.append_eq]
    rw [if_neg (by simp), ih _ (fun x hx => ht x (List.mem_cons_of_mem _ hx))]
    simp

theorem fieldsScan_spaced (toks : List GoString)
    (htoks : ∀ t ∈ toks, t ≠ [] ∧ ∀ c ∈ t, isDigit c = true) (cur : GoString)
    (hcur : cur ≠ []) : fieldsScan (spaced toks) cur = cur :: toks := by
  induction toks generalizing cur with
  | nil => simp [spaced, fieldsScan, hcur]
  | cons t ts ih =>
    obtain ⟨hne, hd⟩ := htoks t (List.mem_cons_self _ _)
    have hsp : IsSpace ' ' = true := by decide
    rw [spaced_cons]
    simp only [fieldsScan, hsp, if_true, hcur, if_false]
    rw [fieldsScan_token t _ _ hd, List.nil_append,
      ih (fun x hx => htoks x (List.mem_cons_of_mem _ hx)) t hne]

theorem Fields_tokens (t : GoString) (toks : List GoString)
    (htoks : ∀ x ∈ t :: toks, x ≠ [] ∧ ∀ c ∈ x, isDigit c = true) :
    Fields (t ++ spaced toks) = t :: toks := by
  obtain ⟨hne, hd⟩ := htoks t (List.mem_cons_self _ _)
  rw [Fields, fieldsScan_token t _ _ hd, List.nil_append,
    fieldsScan_spaced toks (fun x hx => htoks x (List.mem_cons_of_mem _ hx)) t hne]

/-- On the trimmed line `* SEARCH t1 t2 ... tk` of digit tokens, the parse
block hands exactly the tokens to `ParseUint`, in order. -/
theorem parseSearchLine_tokens (toks : List GoString) (uids : List UID)
    (htoks : ∀ t ∈ toks, t ≠ [] ∧ ∀ c ∈ t, isDigit c = true) :
    parseSearchLine (searchLiteral ++ spaced toks) uids = appendUIDs uids toks := by
  have hpre : HasPrefix (searchLiteral ++ spaced toks) searchLiteral = true :=
    HasPrefix_append _ _
  cases toks with
  | nil =>
    have hm : matchHere (searchLiteral ++ spaced []) = some [searchLiteral, []] := by
      simp only [matchHere, hpre, if_true, List.drop_left]
      rfl
    simp [parseSearchLine, FindStringSubmatch_of_matchHere _ _ hm, appendUIDs]
  | cons t ts =>
    obtain ⟨hne, _⟩ := htoks t (List.mem_cons_self _ _)
    have hm : matchHere (searchLiteral ++ spaced (t :: ts)) =
        some [searchLiteral ++ ' ' :: (t ++ spaced ts), t ++ spaced ts] := by
      simp only [matchHere, hpre, if_true, List.drop_left, matchGroup_spaced t ts htoks]
    have hg : t ++ spaced ts ≠ [] := by simp [hne]
    simp only [parseSearchLine, FindStringSubmatch_of_matchHere _ _ hm]
    rw [if_pos ⟨by simp, by simpa using hg⟩]
    simp only [List.getD_cons_succ, List.getD_cons_zero, Fields_tokens t ts htoks]

theorem TrimSpace_crlf (body : GoString)
    (hhead : ∃ c r, body = c :: r ∧ IsSpace c = false)
    (hlast : ∃ init d, body = init ++ [d] ∧ IsSpace d = false) :
    TrimSpace (body ++ "\r\n".toList) = body := by
  obtain ⟨c, r, hb, hc⟩ := hhead
  have h1 : (body ++ "\r\n".toList).dropWhile IsSpace = body ++ "\r\n".toList := by
    rw [hb]
    simp [List.dropWhile, hc]
  obtain ⟨init, d, hb2, hd⟩ := hlast
  have h2 : body ++ "\r\n".toList = ((init ++ [d]) ++ ['\r']) ++ ['\n'] := by
    rw [hb2]
    show _ ++ ['\r', '\n'] = _
    simp
  rw [TrimSpace, h1, h2, List.rdropWhile_concat_pos _ _ _ (by decide),
    List.rdropWhile_concat_pos _ _ _ (by decide),
    List.rdropWhile_concat_neg _ _ _ (by simp [hd]), hb2]

theorem spaced_concat (toks : List GoString) (t : GoString) :
    spaced (toks ++ [t]) = spaced toks ++ ' ' :: t := by
  simp [spaced, List.flatMap_append]

theorem tokenBody_last (toks : List GoString)
    (htoks : ∀ t ∈ toks, t ≠ [] ∧ ∀ c ∈ t, isDigit c = true) :
    ∃ init d, searchLiteral ++ spaced toks = init ++ [d] ∧ IsSpace d = false := by
  rcases List.eq_nil_or_concat toks with h | ⟨L, b, h⟩
  · subst h
    exact ⟨"* SEARC".toList, 'H', by decide, by decide⟩
  · rw [List.concat_eq_append] at h
    subst h
    obtain ⟨hne, hd⟩ := htoks b (by simp)
    rcases List.eq_nil_or_concat b with hb | ⟨binit, d, hb⟩
    · exact absurd hb hne
    · rw [List.concat_eq_append] at hb
      subst hb
      refine ⟨searchLiteral ++ spaced L ++ ' ' :: binit, d, ?_, ?_⟩
      · rw [spaced_concat]
        simp
      · exact isDigit_not_IsSpace d (hd d (by simp))

theorem TrimSpace_tokenLine (toks : List GoString)
    (htoks : ∀ t ∈ toks, t ≠ [] ∧ ∀ c ∈ t, isDigit c = true) :
    TrimSpace (tokenLine toks) = searchLiteral ++ spaced toks := by
  refine TrimSpace_crlf _ ⟨'*', " SEARCH".toList ++ spaced toks, ?_, by decide⟩
    (tokenBody_last toks htoks)
  rfl

theorem lineUIDs_tokenLine (toks : List GoString)
    (htoks : ∀ t ∈ toks, t ≠ [] ∧ ∀ c ∈ t, isDigit c = true) :
    lineUIDs (tokenLine toks) = appendUIDs [] toks := by
  rw [lineUIDs, TrimSpace_tokenLine toks htoks, parseSearchLine_tokens toks [] htoks]

theorem not_isTerminator_of_avoid (tag raw : GoString)
    (h : ∀ c ∈ TrimSpace raw, c ≠ 'O' ∧ c ≠ 'N' ∧ c ≠ 'B') :
    isTerminator tag raw = false := by
  cases ht : isTerminator tag raw with
  | false => rfl
  | true =>
    exfalso
    simp only [isTerminator, isOK, isFail, Bool.or_eq_true, HasPrefix_iff] at ht
    rcases ht with h1 | h1 | h1
    · exact (h 'O' (h1.subset (by simp))).1 rfl
    · exact (h 'N' (h1.subset (by simp))).2.1 rfl
    · exact (h 'B' (h1.subset (by simp))).2.2 rfl

theorem not_isTerminator_tokenLine (tag : GoString) (toks : List GoString)
    (htoks : ∀ t ∈ toks, t ≠ [] ∧ ∀ c ∈ t, isDigit c = true) :
    isTerminator tag (tokenLine toks) = false := by
  apply not_isTerminator_of_avoid
  rw [TrimSpace_tokenLine toks htoks]
  intro c hc
  rcases List.mem_append.1 hc with hc | hc
  · have hall : ∀ x ∈ searchLiteral, x ≠ 'O' ∧ x ≠ 'N' ∧ x ≠ 'B' := by decide
    exact hall c hc
  · simp only [spaced, List.mem_flatMap, List.mem_cons] at hc
    obtain ⟨t, ht, hc | hc⟩ := hc
    · subst hc
      decide
    · have hd := (htoks t ht).2 c hc
      refine ⟨?_, ?_, ?_⟩ <;> (rintro rfl; exact absurd hd (by decide))

theorem decimal_tokens (ns : List Nat) :
    ∀ t ∈ ns.map decimal, t ≠ [] ∧ ∀ c ∈ t, isDigit c = true := by
  intro t ht
  obtain ⟨n, _, rfl⟩ := List.mem_map.1 ht
  exact ⟨(decimal_spec n).1, (decimal_spec n).2.1⟩

/-! ### Lines without digits -/

theorem matchGroup_no_digit (s : GoString) (h : ∀ c ∈ s, isDigit c = false) :
    matchGroup s = none := by
  cases s with
  | nil => rfl
  | cons c r =>
    have hr : r.takeWhile isDigit = [] := by
      cases r with
      | nil => rfl
      | cons x xs => simp [List.takeWhile, h x (by simp)]
    by_cases hc : c = ' '
    · simp [matchGroup, hc, matchDigits, hr]
    · simp [matchGroup, hc]

theorem FindStringSubmatch_no_digit (s : GoString) (h : ∀ c ∈ s, isDigit c = false)
    (m : List GoString) (hm : FindStringSubmatch s = some m) : m.getD 1 [] = [] := by
  induction s with
  | nil => simp [FindStringSubmatch] at hm
  | cons c cs ih =>
    simp only [FindStringSubmatch, matchHere] at hm
    by_cases hp : HasPrefix (c :: cs) searchLiteral = true
    · have hg : matchGroup ((c :: cs).drop searchLiteral.length) = none :=
        matchGroup_no_digit _ (fun x hx => h x (List.mem_of_mem_drop hx))
      simp only [hp, if_true, hg, Option.some.injEq] at hm
      subst hm
      rfl
    · simp only [hp] at hm
      exact ih (fun x hx => h x (List.mem_cons_of_mem _ hx)) hm

theorem parseSearchLine_no_digit (s : GoString) (h : ∀ c ∈ s, isDigit c = false)
    (uids : List UID) : parseSearchLine s uids = uids := by
  unfold parseSearchLine
  cases hm : FindStringSubmatch s with
  | none => rfl
  | some ms =>
    have := FindStringSubmatch_no_digit s h ms hm
    simp only []
    rw [if_neg (fun hh => hh.2 this)]

theorem mem_of_mem_TrimSpace (s : GoString) (c : Char) (h : c ∈ TrimSpace s) : c ∈ s :=
  (List.dropWhile_suffix IsSpace).subset ((List.rdropWhile_prefix IsSpace _).subset h)

theorem readSearchResponseLoop_insert (tag : GoString) (err : Error) (line : GoString)
    (hno : ∀ uids, parseSearchLine (TrimSpace line) uids = uids)
    (hnt : isTerminator tag line = false) (pre rest : List GoString) (uids : List UID) :
    (readSearchResponseLoop tag err (pre ++ line :: rest) uids).1 =
      (readSearchResponseLoop tag err (pre ++ rest) uids).1 := by
  induction pre generalizing uids with
  | nil =>
    simp only [isTerminator, isOK, isFail, Bool.or_eq_false_iff] at hnt
    obtain ⟨h1, h2, h3⟩ := hnt
    simp only [List.nil_append, readSearchResponseLoop, h1, h2, h3, hno]
    rfl
  | cons l ls ih =>
    simp only [List.cons_append, readSearchResponseLoop, List.append_eq]
    cases HasPrefix (TrimSpace l) (tag ++ " OK".toList) with
    | true => rfl
    | false =>
      cases (HasPrefix (TrimSpace l) (tag ++ " NO".toList) ||
          HasPrefix (TrimSpace l) (tag ++ " BAD".toList)) with
      | true => rfl
      | false =>
        simp only [Bool.false_eq_true, if_false]
        exact ih _

/-! ### Claims about `readSearchResponse` -/

/-- C3, as amended: for every tag and every list `n1..nk` of 32-bit unsigned
integers, `readSearchResponse` given the line `* SEARCH n1 n2 ... nk\r\n`
followed by a line that, once trimmed, begins with `<tag> OK` and carries no
`* SEARCH` identifiers of its own returns no error and exactly `[n1, ..., nk]`,
leaving the lines after the terminator unread. -/
theorem readSearchResponse_search_then_ok (tag err : GoString) (ns : List Nat)
    (ok : GoString) (post : List GoString) (hns : ∀ n ∈ ns, n < 2 ^ 32)
    (hok : isOK tag ok = true) (hclean : lineUIDs ok = []) :
    readSearchResponse ⟨searchLine ns :: ok :: post, err⟩ tag =
      ((ns, none), ⟨post, err⟩) := by
  have hnt : ∀ l ∈ [searchLine ns], isTerminator tag l = false := by
    intro l hl
    rw [List.mem_singleton.1 hl]
    exact not_isTerminator_tokenLine tag _ (decimal_tokens ns)
  have hterm : isTerminator tag ok = true := by simp [isTerminator, hok]
  have hids : lineUIDs (searchLine ns) = ns := by
    rw [searchLine, lineUIDs_tokenLine _ (decimal_tokens ns), appendUIDs_decimal ns hns]
  have hsplit : searchLine ns :: ok :: post = [searchLine ns] ++ ok :: post := rfl
  simp only [readSearchResponse, hsplit,
    readSearchResponseLoop_skip tag _ [searchLine ns] _ [] hnt,
    readSearchResponseLoop_terminator tag _ ok post _ hterm, hok, if_true]
  simp [hids, hclean]

/-- Witness of C3: `* SEARCH 3 5 9` then `a3 OK SEARCH completed` gives
`[3, 5, 9]`. -/
theorem readSearchResponse_search_then_ok_witness :
    searchLine [3, 5, 9] = "* SEARCH 3 5 9\r\n".toList ∧
      Reader.ofStream "* SEARCH 3 5 9\r\na3 OK SEARCH completed\r\n".toList "EOF".toList =
        ⟨[searchLine [3, 5, 9], "a3 OK SEARCH completed\r\n".toList], "EOF".toList⟩ ∧
      isOK "a3".toList "a3 OK SEARCH completed\r\n".toList = true ∧
      lineUIDs "a3 OK SEARCH completed\r\n".toList = [] ∧
      readSearchResponse
          ⟨[searchLine [3, 5, 9], "a3 OK SEARCH completed\r\n".toList], "EOF".toList⟩
          "a3".toList = (([3, 5, 9], none), ⟨[], "EOF".toList⟩) :=
  ⟨by decide, by decide, by decide, by decide,
    readSearchResponse_search_then_ok "a3".toList "EOF".toList [3, 5, 9]
      "a3 OK SEARCH completed\r\n".toList [] (by decide) (by decide) (by decide)⟩

/-- Counterexample to C3 as stated: after `* SEARCH 3 5 9`, the line
`a3 OK * SEARCH 7` begins with `a3 OK`, yet the result is `[3, 5, 9, 7]`, not
`[3, 5, 9]`: the pattern is also looked for in the terminator line. -/
theorem readSearchResponse_search_then_ok_counterexample :
    HasPrefix "a3 OK * SEARCH 7\r\n".toList "a3 OK".toList = true ∧
      (readSearchResponse
          ⟨["* SEARCH 3 5 9\r\n".toList, "a3 OK * SEARCH 7\r\n".toList], "EOF".toList⟩
          "a3".toList).1 = ([3, 5, 9, 7], none) ∧
      (readSearchResponse
          ⟨["* SEARCH 3 5 9\r\n".toList, "a3 OK * SEARCH 7\r\n".toList], "EOF".toList⟩
          "a3".toList).1 ≠ ([3, 5, 9], none) := by
  decide

/-- C4, as amended: `readSearchResponse` given the line `* SEARCH\r\n` followed
by a line that, once trimmed, begins with `<tag> OK` and carries no `* SEARCH`
identifiers of its own returns the empty list and no error; more generally a
`* SEARCH` line with no digit after it, which is no terminator for the tag,
carries no identifier and leaves the outcome what it is without that line. -/
theorem readSearchResponse_empty_search (tag err : GoString) (ok r : GoString)
    (pre rest post : List GoString) (hok : isOK tag ok = true)
    (hclean : lineUIDs ok = []) (hr : ∀ c ∈ r, isDigit c = false)
    (hnt : isTerminator tag (searchLiteral ++ r) = false) :
    readSearchResponse ⟨"* SEARCH\r\n".toList :: ok :: post, err⟩ tag =
        (([], none), ⟨post, err⟩) ∧
      lineUIDs (searchLiteral ++ r) = [] ∧
      (readSearchResponse ⟨pre ++ (searchLiteral ++ r) :: rest, err⟩ tag).1 =
        (readSearchResponse ⟨pre ++ rest, err⟩ tag).1 := by
  have hline : ∀ c ∈ TrimSpace (searchLiteral ++ r), isDigit c = false := by
    intro c hc
    rcases List.mem_append.1 (mem_of_mem_TrimSpace _ c hc) with h | h
    · have hall : ∀ x ∈ searchLiteral, isDigit x = false := by decide
      exact hall c h
    · exact hr c h
  refine ⟨?_, parseSearchLine_no_digit _ hline [], ?_⟩
  · have hnt0 : ∀ l ∈ [tokenLine []], isTerminator tag l = false := by
      intro l hl
      rw [List.mem_singleton.1 hl]
      exact not_isTerminator_tokenLine tag [] (by simp)
    have hterm : isTerminator tag ok = true := by simp [isTerminator, hok]
    have hids : lineUIDs (tokenLine []) = [] := by
      rw [lineUIDs_tokenLine [] (by simp)]
      rfl
    have hsplit : "* SEARCH\r\n".toList :: ok :: post = [tokenLine []] ++ ok :: post := rfl
    simp only [readSearchResponse, hsplit,
      readSearchResponseLoop_skip tag _ [tokenLine []] _ [] hnt0,
      readSearchResponseLoop_terminator tag _ ok post _ hterm, hok, if_true]
    simp [hids, hclean]
  · simp only [readSearchResponse]
    exact readSearchResponseLoop_insert tag _ _ (parseSearchLine_no_digit _ hline) hnt
      pre rest []

/-- Witness of C4: `* SEARCH` then `a3 OK done`, and the digit-free line
`* SEARCH (none)` between two other lines. -/
theorem readSearchResponse_empty_search_witness :
    isOK "a3".toList "a3 OK done\r\n".toList = true ∧
      lineUIDs "a3 OK done\r\n".toList = [] ∧
      (∀ c ∈ " (none)\r\n".toList, isDigit c = false) ∧
      isTerminator "a3".toList (searchLiteral ++ " (none)\r\n".toList) = false ∧
      readSearchResponse
          ⟨"* SEARCH\r\n".toList :: "a3 OK done\r\n".toList :: [], "EOF".toList⟩
          "a3".toList = (([], none), ⟨[], "EOF".toList⟩) :=
  ⟨by decide, by decide, by decide, by decide,
    (readSearchResponse_empty_search "a3".toList "EOF".toList "a3 OK done\r\n".toList
      " (none)\r\n".toList ["* SEARCH 4\r\n".toList] ["a3 OK done\r\n".toList] []
      (by decide) (by decide) (by decide) (by decide)).1⟩

/-- Counterexample to C4 as stated: after the line `* SEARCH`, the line
`a3 OK * SEARCH 7` begins with `a3 OK`, yet the result is `[7]`, not empty. -/
theorem readSearchResponse_empty_search_counterexample :
    HasPrefix "a3 OK * SEARCH 7\r\n".toList "a3 OK".toList = true ∧
      (readSearchResponse
          ⟨["* SEARCH\r\n".toList, "a3 OK * SEARCH 7\r\n".toList], "EOF".toList⟩
          "a3".toList).1 = ([7], none) := by
  decide

/-- C10, as amended: accumulation until the terminator.  For every response
made of lines that are no terminator for the tag, followed by a line that,
once trimmed, begins with `<tag> OK` and carries no `* SEARCH` identifiers of
its own, `readSearchResponse` returns the concatenation, in line order, of the
identifiers of the lines before the terminator; the lines after the terminator
are left unread and do not change the result; and if the stream stops before
the terminator, no identifier is returned. -/
theorem readSearchResponse_accumulates (tag err : GoString) (pre post : List GoString)
    (ok : GoString) (hpre : ∀ l ∈ pre, isTerminator tag l = false)
    (hok : isOK tag ok = true) (hclean : lineUIDs ok = []) :
    readSearchResponse ⟨pre ++ ok :: post, err⟩ tag =
        ((pre.flatMap lineUIDs, none), ⟨post, err⟩) ∧
      (readSearchResponse ⟨pre ++ ok :: post, err⟩ tag).1 =
        (readSearchResponse ⟨pre ++ [ok], err⟩ tag).1 ∧
      (readSearchResponse ⟨pre, err⟩ tag).1 = ([], some (.transport err)) := by
  have hterm : isTerminator tag ok = true := by simp [isTerminator, hok]
  have h : ∀ post : List GoString, readSearchResponse ⟨pre ++ ok :: post, err⟩ tag =
      ((pre.flatMap lineUIDs, none), ⟨post, err⟩) := by
    intro post
    simp only [readSearchResponse, readSearchResponseLoop_skip tag _ pre _ [] hpre,
      readSearchResponseLoop_terminator tag _ ok post _ hterm, hok, if_true]
    simp [hclean]
  refine ⟨h post, ?_, ?_⟩
  · rw [h post, h []]
  · simp only [readSearchResponse, readSearchResponseLoop_exhausted tag _ pre [] hpre]

/-- Witness of C10: two `* SEARCH` lines and an unrelated line, then
`a3 OK done`, then a line that is never read. -/
theorem readSearchResponse_accumulates_witness :
    (∀ l ∈ ["* SEARCH 4 2\r\n".toList, "* 3 EXISTS\r\n".toList, "* SEARCH 9\r\n".toList],
        isTerminator "a3".toList l = false) ∧
      isOK "a3".toList "a3 OK done\r\n".toList = true ∧
      lineUIDs "a3 OK done\r\n".toList = [] ∧
      readSearchResponse
          ⟨["* SEARCH 4 2\r\n".toList, "* 3 EXISTS\r\n".toList, "* SEARCH 9\r\n".toList] ++
            "a3 OK done\r\n".toList :: ["* SEARCH 1\r\n".toList], "EOF".toList⟩
          "a3".toList = (([4, 2, 9], none), ⟨["* SEARCH 1\r\n".toList], "EOF".toList⟩) :=
  ⟨by decide, by decide, by decide,
    (readSearchResponse_accumulates "a3".toList "EOF".toList
      ["* SEARCH 4 2\r\n".toList, "* 3 EXISTS\r\n".toList, "* SEARCH 9\r\n".toList]
      ["* SEARCH 1\r\n".toList] "a3 OK done\r\n".toList
      (by decide) (by decide) (by decide)).1.trans (by decide)⟩

/-- Counterexample to C10 as stated: the lines before the terminator carry
`[1, 2]`, but the terminator `a3 OK * SEARCH 7` adds `7` to the result. -/
theorem readSearchResponse_accumulates_counterexample :
    isOK "a3".toList "a3 OK * SEARCH 7\r\n".toList = true ∧
      ["* SEARCH 1\r\n".toList, "* SEARCH 2\r\n".toList].flatMap lineUIDs = [1, 2] ∧
      (readSearchResponse
          ⟨["* SEARCH 1\r\n".toList, "* SEARCH 2\r\n".toList,
            "a3 OK * SEARCH 7\r\n".toList], "EOF".toList⟩ "a3".toList).1 =
        ([1, 2, 7], none) := by
  decide

/-! ### The session -/

theorem writesOf_append (a b : List Event) : writesOf (a ++ b) = writesOf a ++ writesOf b := by
  induction a with
  | nil => rfl
  | cons e t ih => cases e <;> simp [writesOf, ih]

theorem writesOf_map_read (ls : List GoString) : writesOf (ls.map Event.read) = [] := by
  induction ls with
  | nil => rfl
  | cons l t ih => simpa [writesOf] using ih

theorem writesOf_reads (a b : Reader) : writesOf (reads a b) = [] :=
  writesOf_map_read _

theorem reads_of_split (a b : Reader) (pre : List GoString) (t : GoString)
    (h : a.lines = pre ++ t :: b.lines) : reads a b = pre.map Event.read ++ [.read t] := by
  have hlen : a.lines.length - b.lines.length = (pre ++ [t]).length := by
    rw [h]
    simp only [List.length_append, List.length_cons, List.length_nil]
    omega
  have hl : a.lines = (pre ++ [t]) ++ b.lines := by simp [h]
  rw [reads, hlen, hl, List.take_left]
  simp

theorem readUntilOKLoop_inv (tag : GoString) (err : Error) (ls rest : List GoString)
    (h : readUntilOKLoop tag err ls = (none, rest)) :
    ∃ pre ok, ls = pre ++ ok :: rest ∧ (∀ l ∈ pre, isTerminator tag l = false) ∧
      isOK tag ok = true := by
  induction ls with
  | nil => simp [readUntilOKLoop] at h
  | cons l t ih =>
    simp only [readUntilOKLoop] at h
    cases h1 : HasPrefix (TrimSpace l) (tag ++ " OK".toList) with
    | true =>
      simp only [h1, if_true, Prod.mk.injEq, true_and] at h
      exact ⟨[], l, by simp [h], by simp, h1⟩
    | false =>
      simp only [h1, Bool.false_eq_true, if_false] at h
      cases h2 : (HasPrefix (TrimSpace l) (tag ++ " NO".toList) ||
          HasPrefix (TrimSpace l) (tag ++ " BAD".toList)) with
      | true =>
        simp only [h2, if_true] at h
        simp at h
      | false =>
        simp only [h2, Bool.false_eq_true, if_false] at h
        obtain ⟨pre, ok, e1, e2, e3⟩ := ih h
        refine ⟨l :: pre, ok, by simp [e1], ?_, e3⟩
        intro x hx
        rcases List.mem_cons.1 hx with hx | hx
        · subst hx
          simp only [isTerminator, isOK, isFail, h1, h2, Bool.or_self]
        · exact e2 x hx

theorem readUntilOK_inv (r r1 : Reader) (tag : GoString)
    (h : readUntilOK r tag = (none, r1)) :
    ∃ pre ok, r.lines = pre ++ ok :: r1.lines ∧ r1.err = r.err ∧
      (∀ l ∈ pre, isTerminator tag l = false) ∧ isOK tag ok = true := by
  simp only [readUntilOK, Prod.mk.injEq] at h
  obtain ⟨h1, h2⟩ := h
  subst h2
  obtain ⟨pre, ok, e1, e2, e3⟩ := readUntilOKLoop_inv tag _ r.lines
    (readUntilOKLoop tag (.transport r.err) r.lines).2 (Prod.ext h1 rfl)
  exact ⟨pre, ok, e1, rfl, e2, e3⟩

theorem readSearchResponseLoop_inv (tag : GoString) (err : Error)
    (ls rest : List GoString) (acc uids : List UID)
    (h : readSearchResponseLoop tag err ls acc = ((uids, none), rest)) :
    ∃ pre ok, ls = pre ++ ok :: rest ∧ (∀ l ∈ pre, isTerminator tag l = false) ∧
      isOK tag ok = true ∧ uids = acc ++ pre.flatMap lineUIDs ++ lineUIDs ok := by
  induction ls generalizing acc with
  | nil => simp [readSearchResponseLoop] at h
  | cons l t ih =>
    simp only [readSearchResponseLoop] at h
    cases h1 : HasPrefix (TrimSpace l) (tag ++ " OK".toList) with
    | true =>
      simp only [h1, if_true, Prod.mk.injEq, and_true] at h
      refine ⟨[], l, by simp [h.2], by simp, h1, ?_⟩
      rw [← h.1, parseSearchLine_acc]
      simp [lineUIDs]
    | false =>
      simp only [h1, Bool.false_eq_true, if_false] at h
      cases h2 : (HasPrefix (TrimSpace l) (tag ++ " NO".toList) ||
          HasPrefix (TrimSpace l) (tag ++ " BAD".toList)) with
      | true =>
        simp only [h2, if_true] at h
        simp at h
      | false =>
        simp only [h2, Bool.false_eq_true, if_false] at h
        obtain ⟨pre, ok, e1, e2, e3, e4⟩ := ih _ h
        refine ⟨l :: pre, ok, by simp [e1], ?_, e3, ?_⟩
        · intro x hx
          rcases List.mem_cons.1 hx with hx | hx
          · subst hx
            simp only [isTerminator, isOK, isFail, h1, h2, Bool.or_self]
          · exact e2 x hx
        · rw [e4, parseSearchLine_acc]
          simp [lineUIDs, List.append_assoc]

theorem readSearchResponse_inv (r r1 : Reader) (tag : GoString) (uids : List UID)
    (h : readSearchResponse r tag = ((uids, none), r1)) :
    ∃ pre ok, r.lines = pre ++ ok :: r1.lines ∧ r1.err = r.err ∧
      (∀ l ∈ pre, isTerminator tag l = false) ∧ isOK tag ok = true ∧
      uids = pre.flatMap lineUIDs ++ lineUIDs ok := by
  simp only [readSearchResponse, Prod.mk.injEq] at h
  obtain ⟨h1, h2⟩ := h
  subst h2
  obtain ⟨pre, ok, e1, e2, e3, e4⟩ := readSearchResponseLoop_inv tag _ r.lines
    (readSearchResponseLoop tag (.transport r.err) r.lines []).2 [] uids (Prod.ext h1 rfl)
  exact ⟨pre, ok, e1, rfl, e2, e3, by simpa using e4⟩

/-- The trace of `doSearch` up to and including the write of the search
command, when the greeting, the login and the select have gone through. -/
theorem doSearch_search_fails (net : Network) (creds : Credentials)
    (mailbox query : GoString) (stype : searchType) (greeting : GoString)
    (rest0 : List GoString) (r1 r2 r3 : Reader) (ids : List UID) (e : Error)
    (hd : net.dialErr = none) (hl : net.server.lines = greeting :: rest0)
    (hw0 : net.writeErr 0 = none) (hw1 : net.writeErr 1 = none)
    (hw2 : net.writeErr 2 = none)
    (h1 : readUntilOK ⟨rest0, net.server.err⟩ "a1".toList = (none, r1))
    (h2 : readUntilOK r1 "a2".toList = (none, r2))
    (h3 : readSearchResponse r2 "a3".toList = ((ids, some e), r3)) :
    (doSearch net creds mailbox query stype).1 =
      ([], some (.wrap "search failed: ".toList e)) := by
  simp only [doSearch, hd, Reader.ReadString, hl, hw0, hw1, hw2, h1, h2, h3]

theorem doSearch_search_succeeds (net : Network) (creds : Credentials)
    (mailbox query : GoString) (stype : searchType) (greeting : GoString)
    (rest0 : List GoString) (r1 r2 r3 : Reader) (uids : List UID)
    (hd : net.dialErr = none) (hl : net.server.lines = greeting :: rest0)
    (hw0 : net.writeErr 0 = none) (hw1 : net.writeErr 1 = none)
    (hw2 : net.writeErr 2 = none)
    (h1 : readUntilOK ⟨rest0, net.server.err⟩ "a1".toList = (none, r1))
    (h2 : readUntilOK r1 "a2".toList = (none, r2))
    (h3 : readSearchResponse r2 "a3".toList = ((uids, none), r3)) :
    doSearch net creds mailbox query stype =
      ((uids, none),
        [.dial creds.IMAPHost creds.IMAPPort, .read greeting, .write (loginCmd creds)] ++
          reads ⟨rest0, net.server.err⟩ r1 ++ [.write (selectCmd mailbox)] ++
          reads r1 r2 ++ [.write (searchCmd query stype)] ++ reads r2 r3 ++
          [.write logoutCmd, .close]) := by
  simp only [doSearch, hd, Reader.ReadString, hl, hw0, hw1, hw2, h1, h2, h3]
  simp

theorem doSearch_success_inv (net : Network) (creds : Credentials)
    (mailbox query : GoString) (stype : searchType)
    (h : (doSearch net creds mailbox query stype).1.2 = none) :
    ∃ greeting rest0 r1 r2 r3 uids, net.dialErr = none ∧
      net.server.lines = greeting :: rest0 ∧ net.writeErr 0 = none ∧
      net.writeErr 1 = none ∧ net.writeErr 2 = none ∧
      readUntilOK ⟨rest0, net.server.err⟩ "a1".toList = (none, r1) ∧
      readUntilOK r1 "a2".toList = (none, r2) ∧
      readSearchResponse r2 "a3".toList = ((uids, none), r3) := by
  cases hd : net.dialErr with
  | some e => simp only [doSearch, hd] at h; cases h
  | none =>
  cases hl : net.server.lines with
  | nil => simp only [doSearch, hd, Reader.ReadString, hl] at h; cases h
  | cons greeting rest0 =>
  cases hw0 : net.writeErr 0 with
  | some e => simp only [doSearch, hd, Reader.ReadString, hl, hw0] at h; cases h
  | none =>
  cases h1 : readUntilOK ⟨rest0, net.server.err⟩ "a1".toList with
  | mk res1 r1 =>
  cases res1 with
  | some e => simp only [doSearch, hd, Reader.ReadString, hl, hw0, h1] at h; cases h
  | none =>
  cases hw1 : net.writeErr 1 with
  | some e => simp only [doSearch, hd, Reader.ReadString, hl, hw0, h1, hw1] at h; cases h
  | none =>
  cases h2 : readUntilOK r1 "a2".toList with
  | mk res2 r2 =>
  cases res2 with
  | some e =>
    simp only [doSearch, hd, Reader.ReadString, hl, hw0, h1, hw1, h2] at h; cases h
  | none =>
  cases hw2 : net.writeErr 2 with
  | some e =>
    simp only [doSearch, hd, Reader.ReadString, hl, hw0, h1, hw1, h2, hw2] at h; cases h
  | none =>
  cases h3 : readSearchResponse r2 "a3".toList with
  | mk out r3 =>
  obtain ⟨uids, e3⟩ := out
  cases e3 with
  | some e =>
    simp only [doSearch, hd, Reader.ReadString, hl, hw0, h1, hw1, h2, hw2, h3] at h
    cases h
  | none => exact ⟨greeting, rest0, r1, r2, r3, uids, rfl, rfl, rfl, rfl, rfl, h1, h2, h3⟩

theorem doSearch_writes_initial (net : Network) (creds : Credentials)
    (mailbox query : GoString) (stype : searchType) :
    writesOf (doSearch net creds mailbox query stype).2 <+:
      [loginCmd creds, selectCmd mailbox, searchCmd query stype, logoutCmd] := by
  cases hd : net.dialErr with
  | some e =>
    simp only [doSearch, hd, writesOf]
    exact List.nil_prefix
  | none =>
  cases hl : net.server.lines with
  | nil =>
    simp only [doSearch, hd, Reader.ReadString, hl]
    simp [writesOf_append, writesOf]
  | cons greeting rest0 =>
  cases hw0 : net.writeErr 0 with
  | some e =>
    simp only [doSearch, hd, Reader.ReadString, hl, hw0]
    simp [writesOf_append, writesOf]
  | none =>
  cases h1 : readUntilOK ⟨rest0, net.server.err⟩ "a1".toList with
  | mk res1 r1 =>
  cases res1 with
  | some e =>
    simp only [doSearch, hd, Reader.ReadString, hl, hw0, h1]
    simp [writesOf_append, writesOf_reads, writesOf]
  | none =>
  cases hw1 : net.writeErr 1 with
  | some e =>
    simp only [doSearch, hd, Reader.ReadString, hl, hw0, h1, hw1]
    simp [writesOf_append, writesOf_reads, writesOf]
  | none =>
  cases h2 : readUntilOK r1 "a2".toList with
  | mk res2 r2 =>
  cases res2 with
  | some e =>
    simp only [doSearch, hd, Reader.ReadString, hl, hw0, h1, hw1, h2]
    simp [writesOf_append, writesOf_reads, writesOf]
  | none =>
  cases hw2 : net.writeErr 2 with
  | some e =>
    simp only [doSearch, hd, Reader.ReadString, hl, hw0, h1, hw1, h2, hw2]
    simp [writesOf_append, writesOf_reads, writesOf]
  | none =>
  cases h3 : readSearchResponse r2 "a3".toList with
  | mk out r3 =>
  obtain ⟨uids, e3⟩ := out
  cases e3 with
  | some e =>
    simp only [doSearch, hd, Reader.ReadString, hl, hw0, h1, hw1, h2, hw2, h3]
    simp [writesOf_append, writesOf_reads, writesOf]
  | none =>
    simp only [doSearch, hd, Reader.ReadString, hl, hw0, h1, hw1, h2, hw2, h3]
    simp [writesOf_append, writesOf_reads, writesOf]

/-- The commands `doSearch` writes in a session that gets as far as the
search: the dial succeeds, a greeting is read, and the login and the select
are written and accepted. -/
theorem doSearch_writes_at_search (net : Network) (creds : Credentials)
    (mailbox query : GoString) (stype : searchType) (greeting : GoString)
    (rest0 : List GoString) (r1 r2 : Reader)
    (hd : net.dialErr = none) (hl : net.server.lines = greeting :: rest0)
    (hw0 : net.writeErr 0 = none) (hw1 : net.writeErr 1 = none)
    (h1 : readUntilOK ⟨rest0, net.server.err⟩ "a1".toList = (none, r1))
    (h2 : readUntilOK r1 "a2".toList = (none, r2)) :
    writesOf (doSearch net creds mailbox query stype).2 =
      [loginCmd creds, selectCmd mailbox, searchCmd query stype] ++
        if (doSearch net creds mailbox query stype).1.2 = none then [logoutCmd] else [] := by
  cases hw2 : net.writeErr 2 with
  | some e =>
    simp only [doSearch, hd, Reader.ReadString, hl, hw0, h1, hw1, h2, hw2]
    simp [writesOf_append, writesOf_reads, writesOf]
  | none =>
  cases h3 : readSearchResponse r2 "a3".toList with
  | mk out r3 =>
  obtain ⟨uids, e3⟩ := out
  cases e3 with
  | some e =>
    simp only [doSearch, hd, Reader.ReadString, hl, hw0, h1, hw1, h2, hw2, h3]
    simp [writesOf_append, writesOf_reads, writesOf]
  | none =>
    simp only [doSearch, hd, Reader.ReadString, hl, hw0, h1, hw1, h2, hw2, h3]
    simp [writesOf_append, writesOf_reads, writesOf]

theorem searchCmd_ne_loginCmd (query : GoString) (stype : searchType) (creds : Credentials) :
    searchCmd query stype ≠ loginCmd creds := by
  unfold searchCmd loginCmd
  split <;> simp

theorem searchCmd_ne_selectCmd (query : GoString) (stype : searchType) (mailbox : GoString) :
    searchCmd query stype ≠ selectCmd mailbox := by
  unfold searchCmd selectCmd
  split <;> simp

/-- The search command is among the writes of `doSearch` only in a session
that gets as far as the search. -/
theorem doSearch_search_written_inv (net : Network) (creds : Credentials)
    (mailbox query : GoString) (stype : searchType)
    (h : searchCmd query stype ∈ writesOf (doSearch net creds mailbox query stype).2) :
    ∃ greeting rest0 r1 r2, net.dialErr = none ∧
      net.server.lines = greeting :: rest0 ∧ net.writeErr 0 = none ∧
      net.writeErr 1 = none ∧
      readUntilOK ⟨rest0, net.server.err⟩ "a1".toList = (none, r1) ∧
      readUntilOK r1 "a2".toList = (none, r2) := by
  have hl1 := searchCmd_ne_loginCmd query stype creds
  have hl2 := searchCmd_ne_selectCmd query stype mailbox
  cases hd : net.dialErr with
  | some e =>
    simp only [doSearch, hd, writesOf] at h
    cases h
  | none =>
  cases hl : net.server.lines with
  | nil =>
    simp only [doSearch, hd, Reader.ReadString, hl] at h
    simp [writesOf_append, writesOf] at h
  | cons greeting rest0 =>
  cases hw0 : net.writeErr 0 with
  | some e =>
    simp only [doSearch, hd, Reader.ReadString, hl, hw0] at h
    simp [writesOf_append, writesOf, hl1] at h
  | none =>
  cases h1 : readUntilOK ⟨rest0, net.server.err⟩ "a1".toList with
  | mk res1 r1 =>
  cases res1 with
  | some e =>
    simp only [doSearch, hd, Reader.ReadString, hl, hw0, h1] at h
    simp [writesOf_append, writesOf_reads, writesOf, hl1] at h
  | none =>
  cases hw1 : net.writeErr 1 with
  | some e =>
    simp only [doSearch, hd, Reader.ReadString, hl, hw0, h1, hw1] at h
    simp [writesOf_append, writesOf_reads, writesOf, hl1, hl2] at h
  | none =>
  cases h2 : readUntilOK r1 "a2".toList with
  | mk res2 r2 =>
  cases res2 with
  | some e =>
    simp only [doSearch, hd, Reader.ReadString, hl, hw0, h1, hw1, h2] at h
    simp [writesOf_append, writesOf_reads, writesOf, hl1, hl2] at h
  | none => exact ⟨greeting, rest0, r1, r2, rfl, rfl, rfl, rfl, h1, h2⟩

/-- C5: failure propagation.  Whenever the first terminator line for the
search tag begins with `<tag> NO` or `<tag> BAD`, `readSearchResponse` returns
an error whose message contains the server line (trimmed) and no identifiers,
whatever the earlier lines carried; in a session that reaches the search,
`doSearch` and `Search` then return no identifiers and an error wrapping that
one, whose message contains the server line too. -/
theorem search_failure_propagates (net : Network) (creds : Credentials)
    (mailbox query : GoString) (stype : searchType) (greeting ok1 ok2 t : GoString)
    (pre1 pre2 pre3 post : List GoString)
    (hd : net.dialErr = none) (hw : ∀ k, net.writeErr k = none)
    (hl : net.server.lines =
      greeting :: (pre1 ++ ok1 :: (pre2 ++ ok2 :: (pre3 ++ t :: post))))
    (hp1 : ∀ l ∈ pre1, isTerminator "a1".toList l = false)
    (ho1 : isOK "a1".toList ok1 = true)
    (hp2 : ∀ l ∈ pre2, isTerminator "a2".toList l = false)
    (ho2 : isOK "a2".toList ok2 = true)
    (hp3 : ∀ l ∈ pre3, isTerminator "a3".toList l = false)
    (hf : isFail "a3".toList t = true) :
    (∀ (tag err : GoString) (pre post : List GoString) (line : GoString),
        (∀ l ∈ pre, isTerminator tag l = false) → isFail tag line = true →
        readSearchResponse ⟨pre ++ line :: post, err⟩ tag =
            (([], some (.errorf ("search failed: ".toList ++ TrimSpace line))),
              ⟨post, err⟩) ∧
          TrimSpace line <:+:
            (Error.errorf ("search failed: ".toList ++ TrimSpace line)).message) ∧
      (doSearch net creds mailbox query stype).1 =
        ([], some (.wrap "search failed: ".toList
          (.errorf ("search failed: ".toList ++ TrimSpace t)))) ∧
      (∀ ProviderGmail, (Search ProviderGmail net creds mailbox query).1 =
        ([], some (.wrap "search failed: ".toList
          (.errorf ("search failed: ".toList ++ TrimSpace t))))) ∧
      TrimSpace t <:+: (Error.wrap "search failed: ".toList
        (.errorf ("search failed: ".toList ++ TrimSpace t))).message := by
  have hreader : ∀ (tag err : GoString) (pre post : List GoString) (line : GoString),
      (∀ l ∈ pre, isTerminator tag l = false) → isFail tag line = true →
      readSearchResponse ⟨pre ++ line :: post, err⟩ tag =
        (([], some (.errorf ("search failed: ".toList ++ TrimSpace line))),
          ⟨post, err⟩) := by
    intro tag err pre post line hpre hfail
    have hterm : isTerminator tag line = true := by simp [isTerminator, hfail]
    have hnok := isOK_not_isFail tag line hfail
    simp only [readSearchResponse, readSearchResponseLoop_skip tag _ pre _ [] hpre,
      readSearchResponseLoop_terminator tag _ line post _ hterm, hnok]
    rfl
  have hdo : ∀ st, (doSearch net creds mailbox query st).1 =
      ([], some (.wrap "search failed: ".toList
        (.errorf ("search failed: ".toList ++ TrimSpace t)))) := by
    intro st
    have h1 := readUntilOK_at_terminator "a1".toList net.server.err pre1
      (pre2 ++ ok2 :: (pre3 ++ t :: post)) ok1 hp1 (by simp only [isTerminator, ho1, Bool.true_or])
    have h2 := readUntilOK_at_terminator "a2".toList net.server.err pre2
      (pre3 ++ t :: post) ok2 hp2 (by simp only [isTerminator, ho2, Bool.true_or])
    rw [if_pos ho1] at h1
    rw [if_pos ho2] at h2
    exact doSearch_search_fails net creds mailbox query st greeting _ _ _ _ _ _ hd hl
      (hw 0) (hw 1) (hw 2) h1 h2 (hreader "a3".toList _ pre3 post t hp3 hf)
  refine ⟨fun tag err pre post line hpre hfail =>
    ⟨hreader tag err pre post line hpre hfail, ⟨"search failed: ".toList, [], by
      simp [Error.message]⟩⟩, hdo stype, ?_, ?_⟩
  · intro P
    unfold Search
    split
    · exact hdo _
    · exact hdo _
  · exact ⟨"search failed: ".toList ++ "search failed: ".toList, [], by
      simp [Error.message]⟩

/-- Witness of C5: the session of the specification's example, where the
search is answered `a3 NO search failed` after a `* SEARCH 4` line. -/
theorem search_failure_propagates_witness :
    (doSearch (sampleNetwork ["* SEARCH 4\r\n".toList, "a3 NO search failed\r\n".toList])
        sampleCreds "INBOX".toList "invoice".toList searchTypeText).1 =
      ([], some (.wrap "search failed: ".toList
        (.errorf ("search failed: ".toList ++
          TrimSpace "a3 NO search failed\r\n".toList)))) ∧
      TrimSpace "a3 NO search failed\r\n".toList = "a3 NO search failed".toList :=
  ⟨(search_failure_propagates
      (sampleNetwork ["* SEARCH 4\r\n".toList, "a3 NO search failed\r\n".toList])
      sampleCreds "INBOX".toList "invoice".toList searchTypeText
      "* OK ready\r\n".toList "a1 OK logged in\r\n".toList "a2 OK selected\r\n".toList
      "a3 NO search failed\r\n".toList [] ["* 3 EXISTS\r\n".toList]
      ["* SEARCH 4\r\n".toList] [] rfl (fun _ => rfl) rfl (by decide) (by decide)
      (by decide) (by decide) (by decide) (by decide)).2.1, by decide⟩

/-- C6: provider dispatch is a two-way choice.  For every query, with the
search command `a3 UID SEARCH X-GM-RAW ` + `quoteString q` + CRLF when the
provider is Gmail and `a3 UID SEARCH TEXT ` + `quoteString q` + CRLF for every
other provider: the commands `Search` writes are always an initial part of
LOGIN, SELECT, that search command, LOGOUT, so no other search command is ever
written; a run that succeeds has written exactly these four; in every session
that gets as far as the search (the dial succeeds, a greeting is read, the
LOGIN and SELECT commands are written and each answered by an OK terminator)
`Search` writes exactly LOGIN, SELECT and that search command, followed by
LOGOUT when it succeeds; and the search command is written in these sessions
only. -/
theorem Search_provider_dispatch (ProviderGmail : GoString) (net : Network)
    (creds : Credentials) (mailbox query : GoString) :
    writesOf (Search ProviderGmail net creds mailbox query).2 <+:
        [loginCmd creds, selectCmd mailbox,
          if creds.Provider = ProviderGmail then
            "a3 UID SEARCH X-GM-RAW ".toList ++ quoteString query ++ "\r\n".toList
          else "a3 UID SEARCH TEXT ".toList ++ quoteString query ++ "\r\n".toList,
          logoutCmd] ∧
      ((Search ProviderGmail net creds mailbox query).1.2 = none →
        writesOf (Search ProviderGmail net creds mailbox query).2 =
          [loginCmd creds, selectCmd mailbox,
            if creds.Provider = ProviderGmail then
              "a3 UID SEARCH X-GM-RAW ".toList ++ quoteString query ++ "\r\n".toList
            else "a3 UID SEARCH TEXT ".toList ++ quoteString query ++ "\r\n".toList,
            logoutCmd]) ∧
      (∀ (greeting ok1 ok2 : GoString) (pre1 pre2 rest : List GoString),
        net.dialErr = none → net.writeErr 0 = none → net.writeErr 1 = none →
        net.server.lines = greeting :: (pre1 ++ ok1 :: (pre2 ++ ok2 :: rest)) →
        (∀ l ∈ pre1, isTerminator "a1".toList l = false) → isOK "a1".toList ok1 = true →
        (∀ l ∈ pre2, isTerminator "a2".toList l = false) → isOK "a2".toList ok2 = true →
        writesOf (Search ProviderGmail net creds mailbox query).2 =
          [loginCmd creds, selectCmd mailbox,
            if creds.Provider = ProviderGmail then
              "a3 UID SEARCH X-GM-RAW ".toList ++ quoteString query ++ "\r\n".toList
            else "a3 UID SEARCH TEXT ".toList ++ quoteString query ++ "\r\n".toList] ++
            if (Search ProviderGmail net creds mailbox query).1.2 = none then [logoutCmd]
            else []) ∧
      ((if creds.Provider = ProviderGmail then
            "a3 UID SEARCH X-GM-RAW ".toList ++ quoteString query ++ "\r\n".toList
          else "a3 UID SEARCH TEXT ".toList ++ quoteString query ++ "\r\n".toList) ∈
          writesOf (Search ProviderGmail net creds mailbox query).2 →
        ∃ (greeting ok1 ok2 : GoString) (pre1 pre2 rest : List GoString),
          net.dialErr = none ∧ net.writeErr 0 = none ∧ net.writeErr 1 = none ∧
          net.server.lines = greeting :: (pre1 ++ ok1 :: (pre2 ++ ok2 :: rest)) ∧
          (∀ l ∈ pre1, isTerminator "a1".toList l = false) ∧ isOK "a1".toList ok1 = true ∧
          (∀ l ∈ pre2, isTerminator "a2".toList l = false) ∧ isOK "a2".toList ok2 = true) := by
  have hfull : ∀ st, (doSearch net creds mailbox query st).1.2 = none →
      writesOf (doSearch net creds mailbox query st).2 =
        [loginCmd creds, selectCmd mailbox, searchCmd query st, logoutCmd] := by
    intro st h
    obtain ⟨greeting, rest0, r1, r2, r3, uids, hd, hl, hw0, hw1, hw2, h1, h2, h3⟩ :=
      doSearch_success_inv net creds mailbox query st h
    rw [doSearch_search_succeeds net creds mailbox query st greeting rest0 r1 r2 r3 uids
      hd hl hw0 hw1 hw2 h1 h2 h3]
    simp [writesOf_append, writesOf_reads, writesOf]
  have hreach : ∀ st (greeting ok1 ok2 : GoString) (pre1 pre2 rest : List GoString),
      net.dialErr = none → net.writeErr 0 = none → net.writeErr 1 = none →
      net.server.lines = greeting :: (pre1 ++ ok1 :: (pre2 ++ ok2 :: rest)) →
      (∀ l ∈ pre1, isTerminator "a1".toList l = false) → isOK "a1".toList ok1 = true →
      (∀ l ∈ pre2, isTerminator "a2".toList l = false) → isOK "a2".toList ok2 = true →
      writesOf (doSearch net creds mailbox query st).2 =
        [loginCmd creds, selectCmd mailbox, searchCmd query st] ++
          if (doSearch net creds mailbox query st).1.2 = none then [logoutCmd] else [] := by
    intro st greeting ok1 ok2 pre1 pre2 rest hd hw0 hw1 hl hp1 ho1 hp2 ho2
    have h1 := readUntilOK_at_terminator "a1".toList net.server.err pre1
      (pre2 ++ ok2 :: rest) ok1 hp1 (by simp only [isTerminator, ho1, Bool.true_or])
    have h2 := readUntilOK_at_terminator "a2".toList net.server.err pre2 rest ok2 hp2
      (by simp only [isTerminator, ho2, Bool.true_or])
    rw [if_pos ho1] at h1
    rw [if_pos ho2] at h2
    exact doSearch_writes_at_search net creds mailbox query st greeting _ _ _ hd hl hw0 hw1
      h1 h2
  have hinv : ∀ st, searchCmd query st ∈ writesOf (doSearch net creds mailbox query st).2 →
      ∃ (greeting ok1 ok2 : GoString) (pre1 pre2 rest : List GoString),
        net.dialErr = none ∧ net.writeErr 0 = none ∧ net.writeErr 1 = none ∧
        net.server.lines = greeting :: (pre1 ++ ok1 :: (pre2 ++ ok2 :: rest)) ∧
        (∀ l ∈ pre1, isTerminator "a1".toList l = false) ∧ isOK "a1".toList ok1 = true ∧
        (∀ l ∈ pre2, isTerminator "a2".toList l = false) ∧ isOK "a2".toList ok2 = true := by
    intro st h
    obtain ⟨greeting, rest0, r1, r2, hd, hl, hw0, hw1, h1, h2⟩ :=
      doSearch_search_written_inv net creds mailbox query st h
    obtain ⟨pre1, ok1, e1, e1', hp1, ho1⟩ := readUntilOK_inv _ _ _ h1
    obtain ⟨pre2, ok2, e2, _, hp2, ho2⟩ := readUntilOK_inv _ _ _ h2
    refine ⟨greeting, ok1, ok2, pre1, pre2, r2.lines, hd, hw0, hw1, ?_, hp1, ho1, hp2, ho2⟩
    rw [hl, ← e2, ← e1]
  by_cases hp : creds.Provider = ProviderGmail
  · have hs : Search ProviderGmail net creds mailbox query =
        doSearch net creds mailbox query searchTypeGmailRaw := by simp [Search, hp]
    have hc : searchCmd query searchTypeGmailRaw =
        "a3 UID SEARCH X-GM-RAW ".toList ++ quoteString query ++ "\r\n".toList := by
      simp only [searchCmd, if_true]
    rw [hs, if_pos hp, ← hc]
    exact ⟨doSearch_writes_initial net creds mailbox query _, hfull _, hreach _, hinv _⟩
  · have hs : Search ProviderGmail net creds mailbox query =
        doSearch net creds mailbox query searchTypeText := by simp [Search, hp]
    have hc : searchCmd query searchTypeText =
        "a3 UID SEARCH TEXT ".toList ++ quoteString query ++ "\r\n".toList := by
      have hne : ¬ searchTypeText = searchTypeGmailRaw := by decide
      simp only [searchCmd, hne, if_false]
    rw [hs, if_neg hp, ← hc]
    exact ⟨doSearch_writes_initial net creds mailbox query _, hfull _, hreach _, hinv _⟩

/-- Witness of C6: the same session, in which the server accepts the login
and the select and answers the search with `* SEARCH 4` and `a3 OK done`, run
for a Gmail account and for another one. -/
theorem Search_provider_dispatch_witness :
    writesOf (Search "gmail".toList
        (sampleNetwork ["* SEARCH 4\r\n".toList, "a3 OK done\r\n".toList])
        sampleCreds "INBOX".toList "from:bob \"q3\"".toList).2 =
      ["a1 LOGIN \"me@gmail.com\" \"p\\\"w\"\r\n".toList, "a2 SELECT \"INBOX\"\r\n".toList,
        "a3 UID SEARCH X-GM-RAW \"from:bob \\\"q3\\\"\"\r\n".toList,
        "a4 LOGOUT\r\n".toList] ∧
      writesOf (Search "gmail".toList
        (sampleNetwork ["* SEARCH 4\r\n".toList, "a3 OK done\r\n".toList])
        plainCreds "INBOX".toList "from:bob \"q3\"".toList).2 =
      ["a1 LOGIN \"b@yahoo.com\" \"pw\"\r\n".toList, "a2 SELECT \"INBOX\"\r\n".toList,
        "a3 UID SEARCH TEXT \"from:bob \\\"q3\\\"\"\r\n".toList,
        "a4 LOGOUT\r\n".toList] :=
  ⟨((Search_provider_dispatch "gmail".toList
      (sampleNetwork ["* SEARCH 4\r\n".toList, "a3 OK done\r\n".toList])
      sampleCreds "INBOX".toList "from:bob \"q3\"".toList).2.2.1
      "* OK ready\r\n".toList "a1 OK logged in\r\n".toList "a2 OK selected\r\n".toList
      [] ["* 3 EXISTS\r\n".toList] ["* SEARCH 4\r\n".toList, "a3 OK done\r\n".toList]
      rfl rfl rfl rfl (by decide) (by decide) (by decide) (by decide)).trans (by decide),
    ((Search_provider_dispatch "gmail".toList
      (sampleNetwork ["* SEARCH 4\r\n".toList, "a3 OK done\r\n".toList])
      plainCreds "INBOX".toList "from:bob \"q3\"".toList).2.2.1
      "* OK ready\r\n".toList "a1 OK logged in\r\n".toList "a2 OK selected\r\n".toList
      [] ["* 3 EXISTS\r\n".toList] ["* SEARCH 4\r\n".toList, "a3 OK done\r\n".toList]
      rfl rfl rfl rfl (by decide) (by decide) (by decide) (by decide)).trans (by decide)⟩

/-- C7: the tag scheme.  On every successful run of `doSearch` the trace of
the connection is: dial, the greeting read, `a1 LOGIN` written, lines read up
to the first `a1` terminator (an OK), `a2 SELECT` written, lines read up to the
first `a2` terminator (an OK), `a3 UID SEARCH` written, lines read up to the
first `a3` terminator (an OK), `a4 LOGOUT` written, close.  So the commands
written are these four, in this order, each ending in CRLF, and each command
after the first is written only once the terminator of the one before has been
read. -/
theorem doSearch_tag_scheme (net : Network) (creds : Credentials)
    (mailbox query : GoString) (stype : searchType)
    (h : (doSearch net creds mailbox query stype).1.2 = none) :
    (∃ (greeting : GoString) (pre1 : List GoString) (ok1 : GoString)
        (pre2 : List GoString) (ok2 : GoString) (pre3 : List GoString) (ok3 : GoString),
      (∀ l ∈ pre1, isTerminator "a1".toList l = false) ∧ isOK "a1".toList ok1 = true ∧
      (∀ l ∈ pre2, isTerminator "a2".toList l = false) ∧ isOK "a2".toList ok2 = true ∧
      (∀ l ∈ pre3, isTerminator "a3".toList l = false) ∧ isOK "a3".toList ok3 = true ∧
      (doSearch net creds mailbox query stype).2 =
        [.dial creds.IMAPHost creds.IMAPPort, .read greeting, .write (loginCmd creds)] ++
          pre1.map Event.read ++ [.read ok1, .write (selectCmd mailbox)] ++
          pre2.map Event.read ++ [.read ok2, .write (searchCmd query stype)] ++
          pre3.map Event.read ++ [.read ok3, .write logoutCmd, .close]) ∧
      writesOf (doSearch net creds mailbox query stype).2 =
        [loginCmd creds, selectCmd mailbox, searchCmd query stype, logoutCmd] ∧
      loginCmd creds = "a1 LOGIN ".toList ++ quoteString creds.Email ++ " ".toList ++
        quoteString creds.Password ++ "\r\n".toList ∧
      selectCmd mailbox = "a2 SELECT ".toList ++ quoteString mailbox ++ "\r\n".toList ∧
      "a3 UID SEARCH ".toList <+: searchCmd query stype ∧
      "\r\n".toList <:+ searchCmd query stype ∧
      logoutCmd = "a4 LOGOUT\r\n".toList := by
  obtain ⟨greeting, rest0, r1, r2, r3, uids, hd, hl, hw0, hw1, hw2, h1, h2, h3⟩ :=
    doSearch_success_inv net creds mailbox query stype h
  have heq := doSearch_search_succeeds net creds mailbox query stype greeting rest0 r1 r2 r3
    uids hd hl hw0 hw1 hw2 h1 h2 h3
  obtain ⟨pre1, ok1, e1, _, p1, o1⟩ := readUntilOK_inv _ _ _ h1
  obtain ⟨pre2, ok2, e2, _, p2, o2⟩ := readUntilOK_inv _ _ _ h2
  obtain ⟨pre3, ok3, e3, _, p3, o3, _⟩ := readSearchResponse_inv _ _ _ _ h3
  refine ⟨⟨greeting, pre1, ok1, pre2, ok2, pre3, ok3, p1, o1, p2, o2, p3, o3, ?_⟩, ?_,
    rfl, rfl, ?_, ?_, rfl⟩
  · rw [heq, reads_of_split _ _ pre1 ok1 e1, reads_of_split _ _ pre2 ok2 e2,
      reads_of_split _ _ pre3 ok3 e3]
    simp
  · rw [heq]
    simp [writesOf_append, writesOf_reads, writesOf]
  · unfold searchCmd
    split
    · exact ⟨"X-GM-RAW ".toList ++ quoteString query ++ "\r\n".toList, by simp⟩
    · exact ⟨"TEXT ".toList ++ quoteString query ++ "\r\n".toList, by simp⟩
  · unfold searchCmd
    split
    · exact ⟨"a3 UID SEARCH X-GM-RAW ".toList ++ quoteString query, by simp⟩
    · exact ⟨"a3 UID SEARCH TEXT ".toList ++ quoteString query, by simp⟩

/-- Witness of C7: a session in which the search is answered `* SEARCH 3 5 9`
and `a3 OK SEARCH completed`. -/
theorem doSearch_tag_scheme_witness :
    (doSearch (sampleNetwork ["* SEARCH 3 5 9\r\n".toList,
        "a3 OK SEARCH completed\r\n".toList])
        sampleCreds "INBOX".toList "invoice".toList searchTypeGmailRaw).1.2 = none ∧
      writesOf (doSearch (sampleNetwork ["* SEARCH 3 5 9\r\n".toList,
        "a3 OK SEARCH completed\r\n".toList])
        sampleCreds "INBOX".toList "invoice".toList searchTypeGmailRaw).2 =
      ["a1 LOGIN \"me@gmail.com\" \"p\\\"w\"\r\n".toList, "a2 SELECT \"INBOX\"\r\n".toList,
        "a3 UID SEARCH X-GM-RAW \"invoice\"\r\n".toList, "a4 LOGOUT\r\n".toList] :=
  ⟨by decide,
    (doSearch_tag_scheme (sampleNetwork ["* SEARCH 3 5 9\r\n".toList,
        "a3 OK SEARCH completed\r\n".toList])
      sampleCreds "INBOX".toList "invoice".toList searchTypeGmailRaw
      (by decide)).2.1.trans (by decide)⟩

/-! ### Which lines contribute identifiers -/

theorem FindStringSubmatch_some_inside (s : GoString) (m : List GoString)
    (h : FindStringSubmatch s = some m) : searchLiteral <:+: s := by
  induction s with
  | nil => simp [FindStringSubmatch] at h
  | cons c cs ih =>
    simp only [FindStringSubmatch, matchHere] at h
    by_cases hp : HasPrefix (c :: cs) searchLiteral = true
    · exact ((HasPrefix_iff _ _).1 hp).isInfix
    · simp only [hp] at h
      exact (ih h).trans (List.suffix_cons c cs).isInfix

theorem TrimSpace_inside (s : GoString) : TrimSpace s <:+: s :=
  (List.rdropWhile_prefix IsSpace _).isInfix.trans (List.dropWhile_suffix IsSpace).isInfix

theorem lineUIDs_of_no_search (raw : GoString) (h : ¬ searchLiteral <:+: raw) :
    ∀ uids, parseSearchLine (TrimSpace raw) uids = uids := by
  intro uids
  unfold parseSearchLine
  cases hm : FindStringSubmatch (TrimSpace raw) with
  | none => rfl
  | some ms =>
    exact absurd ((FindStringSubmatch_some_inside _ ms hm).trans (TrimSpace_inside raw)) h

theorem readSearchResponse_at_ok (tag err : GoString) (pre post : List GoString)
    (ok : GoString) (hpre : ∀ l ∈ pre, isTerminator tag l = false)
    (hok : isOK tag ok = true) :
    readSearchResponse ⟨pre ++ ok :: post, err⟩ tag =
      ((pre.flatMap lineUIDs ++ lineUIDs ok, none), ⟨post, err⟩) := by
  have hterm : isTerminator tag ok = true := by simp only [isTerminator, hok, Bool.true_or]
  simp only [readSearchResponse, readSearchResponseLoop_skip tag _ pre _ [] hpre,
    readSearchResponseLoop_terminator tag _ ok post _ hterm, hok, if_true, List.nil_append]

/-- C11, as amended: only lines that contain the text `* SEARCH` contribute
identifiers.  A line in which `* SEARCH` does not occur carries no identifier;
if it is no terminator the outcome of `readSearchResponse` is the same as
without it, and if it is the `<tag> OK` terminator the result is exactly what
the lines before it carry. -/
theorem line_without_search_contributes_nothing (tag err raw : GoString)
    (pre rest : List GoString) (h : ¬ searchLiteral <:+: raw) :
    lineUIDs raw = [] ∧
      (isTerminator tag raw = false →
        (readSearchResponse ⟨pre ++ raw :: rest, err⟩ tag).1 =
          (readSearchResponse ⟨pre ++ rest, err⟩ tag).1) ∧
      ((∀ l ∈ pre, isTerminator tag l = false) → isOK tag raw = true →
        readSearchResponse ⟨pre ++ raw :: rest, err⟩ tag =
          ((pre.flatMap lineUIDs, none), ⟨rest, err⟩)) := by
  have h0 : lineUIDs raw = [] := lineUIDs_of_no_search raw h []
  refine ⟨h0, ?_, ?_⟩
  · intro hnt
    simp only [readSearchResponse]
    exact readSearchResponseLoop_insert tag _ raw (lineUIDs_of_no_search raw h) hnt pre rest []
  · intro hpre hok
    rw [readSearchResponse_at_ok tag err pre rest raw hpre hok, h0, List.append_nil]

/-- Witness of C11: the line `a3 OK SEARCH completed` holds no `* SEARCH`. -/
theorem line_without_search_contributes_nothing_witness :
    ¬ searchLiteral <:+: "a3 OK SEARCH completed\r\n".toList ∧
      lineUIDs "a3 OK SEARCH completed\r\n".toList = [] :=
  ⟨by decide,
    (line_without_search_contributes_nothing "a3".toList "EOF".toList
      "a3 OK SEARCH completed\r\n".toList [] [] (by decide)).1⟩

/-- Counterexample to C11 as stated: the lines `a3 OK * SEARCH 7` and
`a9 BAD * SEARCH 7 8` do not begin with `* SEARCH`, yet each contributes
identifiers. -/
theorem line_without_search_contributes_nothing_counterexample :
    HasPrefix (TrimSpace "a3 OK * SEARCH 7\r\n".toList) searchLiteral = false ∧
      lineUIDs "a3 OK * SEARCH 7\r\n".toList = [7] ∧
      HasPrefix (TrimSpace "a9 BAD * SEARCH 7 8\r\n".toList) searchLiteral = false ∧
      (readSearchResponse ⟨["a9 BAD * SEARCH 7 8\r\n".toList, "a3 OK done\r\n".toList],
        "EOF".toList⟩ "a3".toList).1 = ([7, 8], none) := by
  decide

/-- C12, as amended: the result of a search is an ordered list in which
repetitions are kept.  For `* SEARCH` lines listing 32-bit identifiers,
followed by a `<tag> OK` terminator that carries none, `readSearchResponse`
returns the concatenation of the lists, every identifier as often as the
response lists it; so the result is free of duplicates exactly when the
response is. -/
theorem readSearchResponse_keeps_repetitions (tag err : GoString) (nss : List (List Nat))
    (ok : GoString) (post : List GoString) (hns : ∀ ns ∈ nss, ∀ n ∈ ns, n < 2 ^ 32)
    (hok : isOK tag ok = true) (hclean : lineUIDs ok = []) :
    readSearchResponse ⟨nss.map searchLine ++ ok :: post, err⟩ tag =
        ((nss.flatten, none), ⟨post, err⟩) ∧
      ((readSearchResponse ⟨nss.map searchLine ++ ok :: post, err⟩ tag).1.1.Nodup ↔
        nss.flatten.Nodup) := by
  have hpre : ∀ l ∈ nss.map searchLine, isTerminator tag l = false := by
    intro l hl
    obtain ⟨ns, _, rfl⟩ := List.mem_map.1 hl
    exact not_isTerminator_tokenLine tag _ (decimal_tokens ns)
  have hids : (nss.map searchLine).flatMap lineUIDs = nss.flatten := by
    induction nss with
    | nil => rfl
    | cons ns rest ih =>
      have h1 : lineUIDs (searchLine ns) = ns := by
        rw [searchLine, lineUIDs_tokenLine _ (decimal_tokens ns),
          appendUIDs_decimal ns (hns ns (List.mem_cons_self _ _))]
      simp only [List.map_cons, List.flatMap_cons, List.flatten_cons, h1]
      rw [ih (fun x hx => hns x (List.mem_cons_of_mem _ hx))
        (fun l hl => hpre l (List.mem_cons_of_mem _ hl))]
  have h := readSearchResponse_at_ok tag err (nss.map searchLine) post ok hpre hok
  rw [hids, hclean, List.append_nil] at h
  exact ⟨h, by rw [h]⟩

/-- Witness of C12: the lines `* SEARCH 3 5` and `* SEARCH 5 9` give
`[3, 5, 5, 9]`. -/
theorem readSearchResponse_keeps_repetitions_witness :
    isOK "a3".toList "a3 OK done\r\n".toList = true ∧
      lineUIDs "a3 OK done\r\n".toList = [] ∧
      readSearchResponse ⟨[[3, 5], [5, 9]].map searchLine ++ "a3 OK done\r\n".toList :: [],
        "EOF".toList⟩ "a3".toList = (([3, 5, 5, 9], none), ⟨[], "EOF".toList⟩) :=
  ⟨by decide, by decide,
    (readSearchResponse_keeps_repetitions "a3".toList "EOF".toList [[3, 5], [5, 9]]
      "a3 OK done\r\n".toList [] (by decide) (by decide) (by decide)).1⟩

/-- Counterexample to C12 as stated: the response `* SEARCH 3 3` then
`a3 OK done` yields `[3, 3]`, the identifier 3 twice. -/
theorem readSearchResponse_keeps_repetitions_counterexample :
    (readSearchResponse ⟨["* SEARCH 3 3\r\n".toList, "a3 OK done\r\n".toList],
        "EOF".toList⟩ "a3".toList).1 = ([3, 3], none) ∧
      ¬ (readSearchResponse ⟨["* SEARCH 3 3\r\n".toList, "a3 OK done\r\n".toList],
        "EOF".toList⟩ "a3".toList).1.1.Nodup := by
  decide

/-! ### Closing the session -/

theorem count_close_reads (a b : Reader) : (reads a b).count Event.close = 0 := by
  rw [List.count_eq_zero]
  intro h
  obtain ⟨l, _, hl⟩ := List.mem_map.1 h
  cases hl

theorem mem_writesOf (d : GoString) (t : List Event) : d ∈ writesOf t ↔ Event.write d ∈ t := by
  induction t with
  | nil => simp [writesOf]
  | cons e t ih => cases e <;> simp [writesOf, ih]

theorem logoutCmd_ne_loginCmd (creds : Credentials) : logoutCmd ≠ loginCmd creds := by
  intro h
  have := congrArg (fun l => l.get? 1) h
  simp [logoutCmd, loginCmd] at this

theorem logoutCmd_ne_selectCmd (mailbox : GoString) : logoutCmd ≠ selectCmd mailbox := by
  intro h
  have := congrArg (fun l => l.get? 1) h
  simp [logoutCmd, selectCmd] at this

theorem logoutCmd_ne_searchCmd (query : GoString) (stype : searchType) :
    logoutCmd ≠ searchCmd query stype := by
  intro h
  have := congrArg (fun l => l.get? 1) h
  unfold searchCmd at this
  split at this <;> simp [logoutCmd] at this

theorem doSearch_close_logout (net : Network) (creds : Credentials)
    (mailbox query : GoString) (stype : searchType) (hd : net.dialErr = none) :
    (doSearch net creds mailbox query stype).2.getLast? = some Event.close ∧
      (doSearch net creds mailbox query stype).2.count Event.close = 1 ∧
      (logoutCmd ∈ writesOf (doSearch net creds mailbox query stype).2 ↔
        (doSearch net creds mailbox query stype).1.2 = none) := by
  have n1 := logoutCmd_ne_loginCmd creds
  have n2 := logoutCmd_ne_selectCmd mailbox
  have n3 := logoutCmd_ne_searchCmd query stype
  cases hl : net.server.lines with
  | nil =>
    simp only [doSearch, hd, Reader.ReadString, hl]
    refine ⟨by simp only [List.getLast?_concat], ?_⟩
    simp [writesOf_append, writesOf]
  | cons greeting rest0 =>
  cases hw0 : net.writeErr 0 with
  | some e =>
    simp only [doSearch, hd, Reader.ReadString, hl, hw0]
    refine ⟨by simp only [List.getLast?_concat], ?_⟩
    simp [writesOf_append, writesOf, List.count_cons, n1]
  | none =>
  cases h1 : readUntilOK ⟨rest0, net.server.err⟩ "a1".toList with
  | mk res1 r1 =>
  cases res1 with
  | some e =>
    simp only [doSearch, hd, Reader.ReadString, hl, hw0, h1]
    refine ⟨by simp only [List.getLast?_concat], ?_⟩
    simp [writesOf_append, writesOf_reads, writesOf, List.count_cons, count_close_reads, n1]
  | none =>
  cases hw1 : net.writeErr 1 with
  | some e =>
    simp only [doSearch, hd, Reader.ReadString, hl, hw0, h1, hw1]
    refine ⟨by simp only [List.getLast?_concat], ?_⟩
    simp [writesOf_append, writesOf_reads, writesOf, List.count_cons, count_close_reads, n1, n2]
  | none =>
  cases h2 : readUntilOK r1 "a2".toList with
  | mk res2 r2 =>
  cases res2 with
  | some e =>
    simp only [doSearch, hd, Reader.ReadString, hl, hw0, h1, hw1, h2]
    refine ⟨by simp only [List.getLast?_concat], ?_⟩
    simp [writesOf_append, writesOf_reads, writesOf, List.count_cons, count_close_reads, n1, n2]
  | none =>
  cases hw2 : net.writeErr 2 with
  | some e =>
    simp only [doSearch, hd, Reader.ReadString, hl, hw0, h1, hw1, h2, hw2]
    refine ⟨by simp only [List.getLast?_concat], ?_⟩
    simp [writesOf_append, writesOf_reads, writesOf, List.count_cons, count_close_reads,
      n1, n2, n3]
  | none =>
  cases h3 : readSearchResponse r2 "a3".toList with
  | mk out r3 =>
  obtain ⟨uids, e3⟩ := out
  cases e3 with
  | some e =>
    simp only [doSearch, hd, Reader.ReadString, hl, hw0, h1, hw1, h2, hw2, h3]
    refine ⟨by simp only [List.getLast?_concat], ?_⟩
    simp [writesOf_append, writesOf_reads, writesOf, List.count_cons, count_close_reads,
      n1, n2, n3]
  | none =>
    simp only [doSearch, hd, Reader.ReadString, hl, hw0, h1, hw1, h2, hw2, h3]
    refine ⟨by rw [List.getLast?_append]; rfl, ?_⟩
    simp [writesOf_append, writesOf_reads, writesOf, List.count_cons, count_close_reads]

/-- C13, as amended: once the connection has been opened, every exit path of
`doSearch`, the error paths included, releases the connection (the deferred
`conn.Close()` runs, once, as the last event); the `a4 LOGOUT` command is
written on the successful path only. -/
theorem doSearch_releases_connection (net : Network) (creds : Credentials)
    (mailbox query : GoString) (stype : searchType) (hd : net.dialErr = none) :
    (doSearch net creds mailbox query stype).2.getLast? = some Event.close ∧
      (doSearch net creds mailbox query stype).2.count Event.close = 1 ∧
      (Event.write logoutCmd ∈ (doSearch net creds mailbox query stype).2 ↔
        (doSearch net creds mailbox query stype).1.2 = none) := by
  obtain ⟨h1, h2, h3⟩ := doSearch_close_logout net creds mailbox query stype hd
  exact ⟨h1, h2, by rw [← mem_writesOf]; exact h3⟩

/-- Witness of C13: a session in which the login is rejected. -/
theorem doSearch_releases_connection_witness :
    (plainNetwork ["* OK ready\r\n".toList, "a1 NO bad credentials\r\n".toList]).dialErr =
        none ∧
      (doSearch (plainNetwork ["* OK ready\r\n".toList, "a1 NO bad credentials\r\n".toList])
        sampleCreds "INBOX".toList "invoice".toList searchTypeText).2.getLast? =
        some Event.close :=
  ⟨rfl,
    (doSearch_releases_connection
      (plainNetwork ["* OK ready\r\n".toList, "a1 NO bad credentials\r\n".toList])
      sampleCreds "INBOX".toList "invoice".toList searchTypeText rfl).1⟩

/-- Counterexample to C13 as stated: when the login is rejected the connection
is closed but no LOGOUT command is written; the only write is the LOGIN. -/
theorem doSearch_releases_connection_counterexample :
    (plainNetwork ["* OK ready\r\n".toList, "a1 NO bad credentials\r\n".toList]).dialErr =
        none ∧
      writesOf (doSearch
        (plainNetwork ["* OK ready\r\n".toList, "a1 NO bad credentials\r\n".toList])
        sampleCreds "INBOX".toList "invoice".toList searchTypeText).2 =
        [loginCmd sampleCreds] ∧
      Event.write logoutCmd ∉ (doSearch
        (plainNetwork ["* OK ready\r\n".toList, "a1 NO bad credentials\r\n".toList])
        sampleCreds "INBOX".toList "invoice".toList searchTypeText).2 := by
  decide

/-! ### Stage failures -/

theorem doSearch_login_fails (net : Network) (creds : Credentials)
    (mailbox query : GoString) (stype : searchType) (greeting : GoString)
    (rest0 : List GoString) (r1 : Reader) (e : Error)
    (hd : net.dialErr = none) (hl : net.server.lines = greeting :: rest0)
    (hw0 : net.writeErr 0 = none)
    (h1 : readUntilOK ⟨rest0, net.server.err⟩ "a1".toList = (some e, r1)) :
    (doSearch net creds mailbox query stype).1 = stageFailure "login failed: ".toList e ∧
      writesOf (doSearch net creds mailbox query stype).2 = [loginCmd creds] := by
  simp only [doSearch, hd, Reader.ReadString, hl, hw0, h1, stageFailure]
  simp [writesOf_append, writesOf_reads, writesOf]

theorem doSearch_select_fails (net : Network) (creds : Credentials)
    (mailbox query : GoString) (stype : searchType) (greeting : GoString)
    (rest0 : List GoString) (r1 r2 : Reader) (e : Error)
    (hd : net.dialErr = none) (hl : net.server.lines = greeting :: rest0)
    (hw0 : net.writeErr 0 = none) (hw1 : net.writeErr 1 = none)
    (h1 : readUntilOK ⟨rest0, net.server.err⟩ "a1".toList = (none, r1))
    (h2 : readUntilOK r1 "a2".toList = (some e, r2)) :
    (doSearch net creds mailbox query stype).1 = stageFailure "select failed: ".toList e ∧
      writesOf (doSearch net creds mailbox query stype).2 =
        [loginCmd creds, selectCmd mailbox] := by
  simp only [doSearch, hd, Reader.ReadString, hl, hw0, hw1, h1, h2, stageFailure]
  simp [writesOf_append, writesOf_reads, writesOf]

/-- C14: a stage failure aborts and is classified.  If the first `a1`
terminator is a NO/BAD line, `doSearch` returns no identifiers and a
`login failed:` error and has written the LOGIN command only; if `a1` is
answered OK and the first `a2` terminator is a NO/BAD line, it returns a
`select failed:` error and has written LOGIN and SELECT only.  The login,
select and search failure errors differ pairwise, as values and as messages,
and each message contains the rejecting (trimmed) server line. -/
theorem doSearch_stage_failure (net : Network) (creds : Credentials)
    (mailbox query : GoString) (stype : searchType) (hd : net.dialErr = none)
    (hw : ∀ k, net.writeErr k = none) :
    (∀ (greeting t : GoString) (pre post : List GoString),
        net.server.lines = greeting :: (pre ++ t :: post) →
        (∀ l ∈ pre, isTerminator "a1".toList l = false) → isFail "a1".toList t = true →
        (doSearch net creds mailbox query stype).1 =
            stageFailure "login failed: ".toList
              (.errorf ("command failed: ".toList ++ TrimSpace t)) ∧
          writesOf (doSearch net creds mailbox query stype).2 = [loginCmd creds]) ∧
      (∀ (greeting ok1 t : GoString) (pre1 pre2 post : List GoString),
        net.server.lines = greeting :: (pre1 ++ ok1 :: (pre2 ++ t :: post)) →
        (∀ l ∈ pre1, isTerminator "a1".toList l = false) → isOK "a1".toList ok1 = true →
        (∀ l ∈ pre2, isTerminator "a2".toList l = false) → isFail "a2".toList t = true →
        (doSearch net creds mailbox query stype).1 =
            stageFailure "select failed: ".toList
              (.errorf ("command failed: ".toList ++ TrimSpace t)) ∧
          writesOf (doSearch net creds mailbox query stype).2 =
            [loginCmd creds, selectCmd mailbox]) ∧
      (∀ l1 l2 l3 : GoString,
        let eLogin := Error.wrap "login failed: ".toList
          (.errorf ("command failed: ".toList ++ l1))
        let eSelect := Error.wrap "select failed: ".toList
          (.errorf ("command failed: ".toList ++ l2))
        let eSearch := Error.wrap "search failed: ".toList
          (.errorf ("search failed: ".toList ++ l3))
        eLogin ≠ eSelect ∧ eLogin ≠ eSearch ∧ eSelect ≠ eSearch ∧
          eLogin.message ≠ eSelect.message ∧ eLogin.message ≠ eSearch.message ∧
          eSelect.message ≠ eSearch.message ∧
          l1 <:+: eLogin.message ∧ l2 <:+: eSelect.message ∧ l3 <:+: eSearch.message) := by
  refine ⟨?_, ?_, ?_⟩
  · intro greeting t pre post hl hpre hf
    have hnok := isOK_not_isFail _ t hf
    have h1 := readUntilOK_at_terminator "a1".toList net.server.err pre post t hpre
      (by simp only [isTerminator, hf, Bool.or_true])
    rw [if_neg (by rw [hnok]; decide)] at h1
    exact doSearch_login_fails net creds mailbox query stype greeting _ _ _ hd hl (hw 0) h1
  · intro greeting ok1 t pre1 pre2 post hl hp1 ho1 hp2 hf
    have hnok := isOK_not_isFail _ t hf
    have h1 := readUntilOK_at_terminator "a1".toList net.server.err pre1
      (pre2 ++ t :: post) ok1 hp1 (by simp only [isTerminator, ho1, Bool.true_or])
    rw [if_pos ho1] at h1
    have h2 := readUntilOK_at_terminator "a2".toList net.server.err pre2 post t hp2
      (by simp only [isTerminator, hf, Bool.or_true])
    rw [if_neg (by rw [hnok]; decide)] at h2
    exact doSearch_select_fails net creds mailbox query stype greeting _ _ _ _ hd hl
      (hw 0) (hw 1) h1 h2
  · intro l1 l2 l3
    refine ⟨by simp, by simp, by simp, by simp [Error.message], by simp [Error.message],
      by simp [Error.message], ?_, ?_, ?_⟩
    · exact ⟨"login failed: ".toList ++ "command failed: ".toList, [], by
        simp [Error.message]⟩
    · exact ⟨"select failed: ".toList ++ "command failed: ".toList, [], by
        simp [Error.message]⟩
    · exact ⟨"search failed: ".toList ++ "search failed: ".toList, [], by
        simp [Error.message]⟩

/-- Witness of C14: a session in which the login is accepted and the select
is rejected with `a2 NO no such mailbox`. -/
theorem doSearch_stage_failure_witness :
    (doSearch (plainNetwork ["* OK ready\r\n".toList, "a1 OK in\r\n".toList,
        "a2 NO no such mailbox\r\n".toList])
        sampleCreds "Nope".toList "invoice".toList searchTypeText).1 =
      stageFailure "select failed: ".toList
        (.errorf ("command failed: ".toList ++ TrimSpace "a2 NO no such mailbox\r\n".toList)) ∧
      writesOf (doSearch (plainNetwork ["* OK ready\r\n".toList, "a1 OK in\r\n".toList,
        "a2 NO no such mailbox\r\n".toList])
        sampleCreds "Nope".toList "invoice".toList searchTypeText).2 =
      [loginCmd sampleCreds, selectCmd "Nope".toList] :=
  (doSearch_stage_failure (plainNetwork ["* OK ready\r\n".toList, "a1 OK in\r\n".toList,
      "a2 NO no such mailbox\r\n".toList])
    sampleCreds "Nope".toList "invoice".toList searchTypeText rfl (fun _ => rfl)).2.1
    "* OK ready\r\n".toList "a1 OK in\r\n".toList "a2 NO no such mailbox\r\n".toList
    [] [] [] rfl (by decide) (by decide) (by decide) (by decide)

/-! ### Package `cli`: isolation across accounts and the daemon schedule -/

theorem callsOf_append (a b : List Effect) : callsOf (a ++ b) = callsOf a ++ callsOf b := by
  induction a with
  | nil => rfl
  | cons e t ih => cases e <;> simp [callsOf, ih]

theorem callsOf_syncAllAccounts {σ : Type}
    (fullSync : Account → GoString → σ → Option Error × σ) (accounts : List Account) (w : σ) :
    callsOf (syncAllAccounts fullSync accounts w).1 =
      accounts.map (fun a => (a, "INBOX".toList)) := by
  induction accounts generalizing w with
  | nil => rfl
  | cons a rest ih =>
    simp only [syncAllAccounts, callsOf, List.map_cons]
    rw [ih]

theorem callsOf_runSyncLoop {σ : Type}
    (fullSync : Account → GoString → σ → Option Error × σ) (accounts : List Account) (w : σ) :
    callsOf (runSyncLoop fullSync accounts w).1 =
      accounts.map (fun a => (a, "INBOX".toList)) := by
  induction accounts generalizing w with
  | nil => rfl
  | cons a rest ih =>
    simp only [runSyncLoop, callsOf, List.map_cons]
    rw [ih]

theorem syncedState_snoc {σ : Type} (fullSync : Account → GoString → σ → Option Error × σ)
    (done : List Account) (a : Account) (w : σ) :
    syncedState fullSync (done ++ [a]) w =
      (fullSync a "INBOX".toList (syncedState fullSync done w)).2 := by
  simp [syncedState, List.foldl_append]

theorem syncAllAccounts_from {σ : Type}
    (fullSync : Account → GoString → σ → Option Error × σ) (done rest : List Account) (w : σ) :
    syncAllAccounts fullSync rest (syncedState fullSync done w) =
      ((rest.enumFrom done.length).flatMap (daemonStep fullSync (done ++ rest) w),
        syncedState fullSync (done ++ rest) w) := by
  induction rest generalizing done with
  | nil => simp [syncAllAccounts]
  | cons a rest ih =>
    have h := ih (done ++ [a])
    rw [syncedState_snoc, List.length_append, List.length_singleton, List.append_assoc,
      List.singleton_append] at h
    simp only [syncAllAccounts, h, List.enumFrom_cons, List.flatMap_cons, daemonStep,
      List.take_left', daemonReport]
    rfl

theorem runSyncLoop_from {σ : Type}
    (fullSync : Account → GoString → σ → Option Error × σ) (done rest : List Account) (w : σ) :
    runSyncLoop fullSync rest (syncedState fullSync done w) =
      ((rest.enumFrom done.length).flatMap (syncStep fullSync (done ++ rest) w),
        syncedState fullSync (done ++ rest) w) := by
  induction rest generalizing done with
  | nil => simp [runSyncLoop]
  | cons a rest ih =>
    have h := ih (done ++ [a])
    rw [syncedState_snoc, List.length_append, List.length_singleton, List.append_assoc,
      List.singleton_append] at h
    simp only [runSyncLoop, h, List.enumFrom_cons, List.flatMap_cons, syncStep,
      List.take_left', syncReport]
    rfl

theorem syncAllAccounts_eq {σ : Type}
    (fullSync : Account → GoString → σ → Option Error × σ) (accounts : List Account) (w : σ) :
    syncAllAccounts fullSync accounts w =
      (accounts.enum.flatMap (daemonStep fullSync accounts w),
        syncedState fullSync accounts w) :=
  syncAllAccounts_from fullSync [] accounts w

theorem runSyncLoop_eq {σ : Type}
    (fullSync : Account → GoString → σ → Option Error × σ) (accounts : List Account) (w : σ) :
    runSyncLoop fullSync accounts w =
      (accounts.enum.flatMap (syncStep fullSync accounts w),
        syncedState fullSync accounts w) :=
  runSyncLoop_from fullSync [] accounts w

theorem daemonLoop_never_exits {σ : Type}
    (fullSync : Account → GoString → σ → Option Error × σ) (accounts : List Account)
    (wakes : List Wake) (w : σ) (code : Int) :
    (daemonLoop fullSync accounts wakes w).2.2 ≠ .exited code := by
  induction wakes generalizing w with
  | nil => simp [daemonLoop]
  | cons e rest ih =>
    cases e with
    | tick => simpa only [daemonLoop] using ih _
    | signal sig => simp [daemonLoop]

theorem runDaemon_ending {σ : Type} (env : SyncEnv σ) (accounts : List Account)
    (hs : env.LoadAccountStore = .ok accounts) (hne : accounts ≠ [])
    (hc : env.cacheNew = none) (mkdirOk : Bool) (wakes : List Wake) (w : σ) :
    (runDaemon env mkdirOk wakes w).2.2 =
      (daemonLoop env.fullSync accounts wakes (syncedState env.fullSync accounts w)).2.2 := by
  have hlen : ¬ accounts.length = 0 := fun h => hne (List.length_eq_zero.1 h)
  simp only [runDaemon, hs, hlen, if_false, hc, syncAllAccounts_eq]
  split <;> simp_all

/-- C15: isolation across accounts.  For every list of accounts and every
behaviour of `FullSync` (any mix of successes and errors, which may depend on
the state the earlier syncs have left), one pass of `syncAllAccounts` and the
loop of `runSync` call `FullSync("INBOX")` exactly once for each account, in
store order: the account at position `i` is synced in the state left by the
syncs of the accounts before it, its report shows what its own call returned,
and the state at the end is the one left by syncing every account in turn.
`runSync` returns normally whenever it reaches its loop, and when it exits it
has synced no account and left the state alone; `runDaemon`, once it has its
accounts and its cache, never exits. -/
theorem sync_isolation {σ : Type} (env : SyncEnv σ) (accounts : List Account) (w : σ) :
    callsOf (syncAllAccounts env.fullSync accounts w).1 =
        accounts.map (fun a => (a, "INBOX".toList)) ∧
      callsOf (runSyncLoop env.fullSync accounts w).1 =
        accounts.map (fun a => (a, "INBOX".toList)) ∧
      (env.LoadAccountStore = .ok accounts → accounts ≠ [] → env.cacheNew = none →
        callsOf (runSync env w).1 = accounts.map (fun a => (a, "INBOX".toList)) ∧
          (runSync env w).2.2 = .returned) ∧
      (∀ code, (runSync env w).2.2 = .exited code → callsOf (runSync env w).1 = []) ∧
      syncAllAccounts env.fullSync accounts w =
        (accounts.enum.flatMap (daemonStep env.fullSync accounts w),
          syncedState env.fullSync accounts w) ∧
      runSyncLoop env.fullSync accounts w =
        (accounts.enum.flatMap (syncStep env.fullSync accounts w),
          syncedState env.fullSync accounts w) ∧
      (env.LoadAccountStore = .ok accounts → accounts ≠ [] → env.cacheNew = none →
        runSync env w =
            ([.print "Syncing emails...\n".toList] ++
                accounts.enum.flatMap (syncStep env.fullSync accounts w) ++
                [.print "Sync complete\n".toList],
              syncedState env.fullSync accounts w, .returned) ∧
          ∀ (mkdirOk : Bool) (wakes : List Wake) (code : Int),
            (runDaemon env mkdirOk wakes w).2.2 ≠ .exited code) ∧
      (∀ code, (runSync env w).2.2 = .exited code → (runSync env w).2.1 = w) := by
  refine ⟨callsOf_syncAllAccounts _ _ _, callsOf_runSyncLoop _ _ _, ?_, ?_,
    syncAllAccounts_eq _ _ _, runSyncLoop_eq _ _ _, ?_, ?_⟩
  · intro hs hne hc
    have hlen : ¬ accounts.length = 0 := by
      intro h
      exact hne (List.length_eq_zero.1 h)
    simp only [runSync, hs, hlen, if_false, hc, callsOf_append, callsOf_runSyncLoop]
    simp [callsOf]
  · intro code h
    cases hs : env.LoadAccountStore with
    | error e => simp only [runSync, hs]; rfl
    | ok accs =>
      by_cases hlen : accs.length = 0
      · simp only [runSync, hs, hlen, if_true]; rfl
      · cases hc : env.cacheNew with
        | some e => simp only [runSync, hs, hlen, if_false, hc]; rfl
        | none =>
          simp only [runSync, hs, hlen, if_false, hc] at h
          cases h
  · intro hs hne hc
    have hlen : ¬ accounts.length = 0 := fun h => hne (List.length_eq_zero.1 h)
    refine ⟨?_, ?_⟩
    · simp only [runSync, hs, hlen, if_false, hc, runSyncLoop_eq]
    · intro mkdirOk wakes code
      rw [runDaemon_ending env accounts hs hne hc]
      exact daemonLoop_never_exits _ _ _ _ _
  · intro code h
    cases hs : env.LoadAccountStore with
    | error e => simp only [runSync, hs]
    | ok accs =>
      by_cases hlen : accs.length = 0
      · simp only [runSync, hs, hlen, if_true]
      · cases hc : env.cacheNew with
        | some e => simp only [runSync, hs, hlen, if_false, hc]
        | none =>
          simp only [runSync, hs, hlen, if_false, hc] at h
          cases h

/-- Witness of C15: with two accounts and a `FullSync` that fails for the
first, `runSync` syncs both, in order, reports the error of the first and the
success of the second, leaves the state reached after two calls and returns. -/
theorem sync_isolation_witness :
    runSync ⟨.ok sampleAccounts, none, sampleFullSync⟩ 0 =
        ([.print "Syncing emails...\n".toList] ++
            sampleAccounts.enum.flatMap (syncStep sampleFullSync sampleAccounts 0) ++
            [.print "Sync complete\n".toList],
          syncedState sampleFullSync sampleAccounts 0, .returned) ∧
      sampleAccounts.enum.flatMap (syncStep sampleFullSync sampleAccounts 0) =
        [.print "  Syncing me@gmail.com...".toList,
          .fullSync ⟨sampleCreds⟩ "INBOX".toList,
          .print " error: select failed\n".toList,
          .print "  Syncing b@yahoo.com...".toList,
          .fullSync (sampleAccounts.getD 1 ⟨sampleCreds⟩) "INBOX".toList,
          .print " done\n".toList] ∧
      syncedState sampleFullSync sampleAccounts 0 = 2 ∧
      (syncAllAccounts sampleFullSync sampleAccounts 0).1 =
        [.fullSync ⟨sampleCreds⟩ "INBOX".toList,
          .print "Error syncing me@gmail.com: select failed\n".toList,
          .fullSync (sampleAccounts.getD 1 ⟨sampleCreds⟩) "INBOX".toList,
          .print "Synced b@yahoo.com\n".toList] :=
  ⟨((sync_isolation ⟨.ok sampleAccounts, none, sampleFullSync⟩ sampleAccounts 0).2.2.2.2.2.2.1
      rfl (by decide) rfl).1, by decide, by decide, by decide⟩

theorem daemonLoop_ticks_signal {σ : Type}
    (fullSync : Account → GoString → σ → Option Error × σ) (accounts : List Account)
    (n : Nat) (sig : GoString) (rest : List Wake) (w : σ) :
    daemonLoop fullSync accounts (List.replicate n Wake.tick ++ Wake.signal sig :: rest) w =
      ((passes fullSync accounts n w).1 ++
          [.print ("Received signal: ".toList ++ sig ++ "\n".toList)],
        (passes fullSync accounts n w).2, .returned) := by
  induction n generalizing w with
  | zero => rfl
  | succ n ih =>
    simp only [List.replicate_succ, List.cons_append, daemonLoop, passes, List.append_eq, ih,
      List.append_assoc]

theorem daemonLoop_ticks {σ : Type}
    (fullSync : Account → GoString → σ → Option Error × σ) (accounts : List Account)
    (n : Nat) (w : σ) :
    daemonLoop fullSync accounts (List.replicate n Wake.tick) w =
      ((passes fullSync accounts n w).1, (passes fullSync accounts n w).2, .waiting) := by
  induction n generalizing w with
  | zero => rfl
  | succ n ih => simp only [List.replicate_succ, daemonLoop, passes, List.append_eq, ih]

theorem callsOf_passes {σ : Type}
    (fullSync : Account → GoString → σ → Option Error × σ) (accounts : List Account)
    (n : Nat) (w : σ) :
    callsOf (passes fullSync accounts n w).1 =
      (List.replicate n (accounts.map (fun a => (a, "INBOX".toList)))).flatten := by
  induction n generalizing w with
  | zero => rfl
  | succ n ih =>
    simp only [passes, callsOf_append, callsOf_syncAllAccounts, ih, List.replicate_succ,
      List.flatten_cons]

theorem daemonLoop_returned_iff {σ : Type}
    (fullSync : Account → GoString → σ → Option Error × σ) (accounts : List Account)
    (wakes : List Wake) (w : σ) :
    (daemonLoop fullSync accounts wakes w).2.2 = .returned ↔
      ∃ sig, Wake.signal sig ∈ wakes := by
  induction wakes generalizing w with
  | nil => simp [daemonLoop]
  | cons e rest ih =>
    cases e with
    | tick =>
      simp only [daemonLoop, ih, List.mem_cons, false_or, reduceCtorEq]
    | signal sig =>
      simp only [daemonLoop, true_iff]
      exact ⟨sig, List.mem_cons_self _ _⟩

/-- C16: the daemon schedule.  With the loop of `runDaemon` run on the events
its `select` receives: `n` ticks followed by a signal give exactly `n`
complete passes over all accounts, then the signal is reported and the loop
returns (what follows is not looked at); `n` ticks alone give `n` complete
passes and leave the loop waiting; each pass calls `FullSync("INBOX")` once
per account; and the loop returns if and only if a signal is among the events
handled.  `runDaemon` itself runs one more pass, the initial one, before. -/
theorem daemon_schedule {σ : Type} (env : SyncEnv σ) (accounts : List Account) :
    (∀ (n : Nat) (sig : GoString) (rest : List Wake) (w : σ),
        daemonLoop env.fullSync accounts
            (List.replicate n Wake.tick ++ Wake.signal sig :: rest) w =
          ((passes env.fullSync accounts n w).1 ++
              [.print ("Received signal: ".toList ++ sig ++ "\n".toList)],
            (passes env.fullSync accounts n w).2, .returned)) ∧
      (∀ (n : Nat) (w : σ),
        daemonLoop env.fullSync accounts (List.replicate n Wake.tick) w =
          ((passes env.fullSync accounts n w).1, (passes env.fullSync accounts n w).2,
            .waiting)) ∧
      (∀ (n : Nat) (w : σ),
        callsOf (passes env.fullSync accounts n w).1 =
          (List.replicate n (accounts.map (fun a => (a, "INBOX".toList)))).flatten) ∧
      (∀ (wakes : List Wake) (w : σ),
        (daemonLoop env.fullSync accounts wakes w).2.2 = .returned ↔
          ∃ sig, Wake.signal sig ∈ wakes) ∧
      (env.LoadAccountStore = .ok accounts → accounts ≠ [] → env.cacheNew = none →
        ∀ (mkdirOk : Bool) (n : Nat) (sig : GoString) (rest : List Wake) (w : σ),
          (runDaemon env mkdirOk (List.replicate n Wake.tick ++ Wake.signal sig :: rest)
              w).2.2 = .returned ∧
            callsOf (runDaemon env mkdirOk
              (List.replicate n Wake.tick ++ Wake.signal sig :: rest) w).1 =
              (List.replicate (n + 1)
                (accounts.map (fun a => (a, "INBOX".toList)))).flatten) := by
  refine ⟨daemonLoop_ticks_signal _ _, daemonLoop_ticks _ _, callsOf_passes _ _,
    daemonLoop_returned_iff _ _, ?_⟩
  intro hs hne hc mkdirOk n sig rest w
  have hlen : ¬ accounts.length = 0 := fun h => hne (List.length_eq_zero.1 h)
  simp only [runDaemon, hs, hlen, if_false, hc, daemonLoop_ticks_signal, callsOf_append,
    callsOf_passes, callsOf_syncAllAccounts, List.replicate_succ, List.flatten_cons, true_and]
  cases mkdirOk <;> simp [callsOf]

/-- Witness of C16: two ticks, a signal, then a tick that is never handled. -/
theorem daemon_schedule_witness :
    callsOf (daemonLoop sampleFullSync sampleAccounts
        [.tick, .tick, .signal "interrupt".toList, .tick] 0).1 =
      (sampleAccounts ++ sampleAccounts).map (fun a => (a, "INBOX".toList)) ∧
      (daemonLoop sampleFullSync sampleAccounts
        [.tick, .tick, .signal "interrupt".toList, .tick] 0).2 = (4, .returned) :=
  ⟨by
    rw [show [Wake.tick, .tick, .signal "interrupt".toList, .tick] =
      List.replicate 2 Wake.tick ++ Wake.signal "interrupt".toList :: [.tick] from rfl,
      (daemon_schedule ⟨.ok sampleAccounts, none, sampleFullSync⟩ sampleAccounts).1]
    decide, by decide⟩

/-! ### The sync engine: idempotence -/

theorem Apply_nothing (cache : List CacheEntry) : Apply cache [] [] [] true = .ok cache := by
  simp [Apply]

theorem Apply_synced (remote : List RemoteMessage) (cache0 cache1 : List CacheEntry)
    (h : Apply cache0 (additions remote cache0) (updates remote cache0)
      (removals remote cache0) true = .ok cache1) :
    (∀ e ∈ cache1, ∃ m ∈ remote, m.uid = e.uid ∧ m.flags = e.flags) ∧
      (∀ m ∈ remote, ∃ e ∈ cache1, e.uid = m.uid) := by
  simp only [Apply, if_true, Except.ok.injEq] at h
  subst h
  have hkept : ∀ e0 ∈ cache0, (∀ r ∈ removals remote cache0, r.uid ≠ e0.uid) →
      ∃ m ∈ remote, m.uid = e0.uid := by
    intro e0 he0 hr
    by_contra hcon
    push_neg at hcon
    have : e0 ∈ removals remote cache0 := by
      simp only [removals, List.mem_filter, decide_eq_true_eq]
      exact ⟨he0, hcon⟩
    exact hr e0 this rfl
  constructor
  · intro e he
    rcases List.mem_append.1 he with he | he
    · obtain ⟨e0, he0, rfl⟩ := List.mem_map.1 he
      simp only [List.mem_filter, decide_eq_true_eq] at he0
      obtain ⟨hc0, hr⟩ := he0
      obtain ⟨m, hm, hmu⟩ := hkept e0 hc0 hr
      cases hf : (updates remote cache0).find? (fun m => m.uid == e0.uid) with
      | some m1 =>
        have h1 := List.find?_some hf
        have h2 := List.mem_of_find?_eq_some hf
        simp only [updates, List.mem_filter] at h2
        exact ⟨m1, h2.1, by simpa using h1, rfl⟩
      | none =>
        refine ⟨m, hm, hmu, ?_⟩
        by_contra hne
        have hin : m ∈ updates remote cache0 := by
          simp only [updates, List.mem_filter, decide_eq_true_eq]
          exact ⟨hm, e0, hc0, hmu.symm, fun h => hne h.symm⟩
        have := List.find?_eq_none.1 hf m hin
        simp [hmu] at this
    · obtain ⟨m, hm, rfl⟩ := List.mem_map.1 he
      simp only [additions, List.mem_filter] at hm
      exact ⟨m, hm.1, rfl, rfl⟩
  · intro m hm
    by_cases hex : ∃ e0 ∈ cache0, e0.uid = m.uid
    · obtain ⟨e0, hc0, hu⟩ := hex
      have hk : ∀ r ∈ removals remote cache0, r.uid ≠ e0.uid := by
        intro r hr heq
        simp only [removals, List.mem_filter, decide_eq_true_eq] at hr
        exact hr.2 m hm (by rw [heq, hu])
      refine ⟨_, List.mem_append_left _ (List.mem_map.2 ⟨e0, ?_, rfl⟩), ?_⟩
      · simp only [List.mem_filter, decide_eq_true_eq]
        exact ⟨hc0, hk⟩
      · cases (updates remote cache0).find? (fun m => m.uid == e0.uid) <;> exact hu
    · push_neg at hex
      refine ⟨⟨m.uid, m.flags, none⟩, List.mem_append_right _ (List.mem_map.2 ⟨m, ?_, rfl⟩), rfl⟩
      simp only [additions, List.mem_filter, decide_eq_true_eq]
      exact ⟨hm, hex⟩

theorem diff_of_synced (remote : List RemoteMessage) (cache : List CacheEntry)
    (hu : (remote.map (fun m => m.uid)).Nodup)
    (h1 : ∀ e ∈ cache, ∃ m ∈ remote, m.uid = e.uid ∧ m.flags = e.flags)
    (h2 : ∀ m ∈ remote, ∃ e ∈ cache, e.uid = m.uid) :
    additions remote cache = [] ∧ removals remote cache = [] ∧ updates remote cache = [] := by
  refine ⟨?_, ?_, ?_⟩
  · simp only [additions, List.filter_eq_nil_iff, decide_eq_true_eq]
    intro m hm hall
    obtain ⟨e, he, heu⟩ := h2 m hm
    exact hall e he heu
  · simp only [removals, List.filter_eq_nil_iff, decide_eq_true_eq]
    intro e he hall
    obtain ⟨m, hm, hmu, _⟩ := h1 e he
    exact hall m hm hmu
  · simp only [updates, List.filter_eq_nil_iff, decide_eq_true_eq]
    rintro m hm ⟨e, he, heu, hef⟩
    obtain ⟨m1, hm1, hmu, hmf⟩ := h1 e he
    have : m1 = m := List.inj_on_of_nodup_map hu hm1 hm (by rw [hmu, heu])
    subst this
    exact hef hmf.symm

/-- C17: idempotence of `FullSync`, on the engine modelled from the
specification.  When the identifiers of the remote mailbox are unique and the
first run succeeds, a second run against the same remote mailbox reports zero
additions, zero removals and zero updates and leaves the cache as the first
run left it. -/
theorem FullSync_idempotent (remote : List RemoteMessage) (cache0 : List CacheEntry)
    (hu : (remote.map (fun m => m.uid)).Nodup) :
    (FullSync (.ok remote) true cache0).1.isOk = true ∧
      FullSync (.ok remote) true (FullSync (.ok remote) true cache0).2 =
        (.ok ⟨0, 0, 0, remote.length⟩, (FullSync (.ok remote) true cache0).2) := by
  cases h : Apply cache0 (additions remote cache0) (updates remote cache0)
      (removals remote cache0) true with
  | error e => simp [Apply] at h
  | ok cache1 =>
    obtain ⟨h1, h2⟩ := Apply_synced remote cache0 cache1 h
    obtain ⟨d1, d2, d3⟩ := diff_of_synced remote cache1 hu h1 h2
    have hrun : FullSync (.ok remote) true cache0 =
        (.ok ⟨(additions remote cache0).length, (removals remote cache0).length,
          (updates remote cache0).length,
          remote.length - (additions remote cache0).length -
            (updates remote cache0).length⟩, cache1) := by
      simp only [FullSync, h]
    rw [hrun]
    refine ⟨rfl, ?_⟩
    simp only [FullSync, d1, d2, d3, Apply_nothing, List.length_nil, Nat.sub_zero]

/-- Witness of C17: a cache holding a stale flag and a message gone from the
server, synced twice against a mailbox of two messages. -/
theorem FullSync_idempotent_witness :
    ([⟨4, ["\\Seen".toList]⟩, ⟨7, []⟩].map (fun m : RemoteMessage => m.uid)).Nodup ∧
      (FullSync (.ok [⟨4, ["\\Seen".toList]⟩, ⟨7, []⟩]) true
        [⟨4, [], some "body".toList⟩, ⟨5, [], none⟩]) =
        (.ok ⟨1, 1, 1, 0⟩, [⟨4, ["\\Seen".toList], some "body".toList⟩, ⟨7, [], none⟩]) ∧
      FullSync (.ok [⟨4, ["\\Seen".toList]⟩, ⟨7, []⟩]) true
        (FullSync (.ok [⟨4, ["\\Seen".toList]⟩, ⟨7, []⟩]) true
          [⟨4, [], some "body".toList⟩, ⟨5, [], none⟩]).2 =
        (.ok ⟨0, 0, 0, 2⟩,
          (FullSync (.ok [⟨4, ["\\Seen".toList]⟩, ⟨7, []⟩]) true
            [⟨4, [], some "body".toList⟩, ⟨5, [], none⟩]).2) :=
  ⟨by decide, by rfl,
    (FullSync_idempotent [⟨4, ["\\Seen".toList]⟩, ⟨7, []⟩]
      [⟨4, [], some "body".toList⟩, ⟨5, [], none⟩] (by decide)).2⟩

/-! ### Package `cli`: the default end time of `calendar add` -/

theorem addEvent_submitted (lib : TimeLib) (client : Except Error CalendarClient)
    (flags : AddFlags) (title : GoString) (ev : CalendarEvent)
    (h : (addEvent lib client flags title).submitted = some ev)
    (hend : flags.eventEnd = []) :
    ev.EndTime = ev.StartTime.Add ((if flags.eventAllDay then 24 else 1) * Hour) ∧
      ev.AllDay = flags.eventAllDay := by
  cases client with
  | error e => simp [addEvent] at h
  | ok c =>
    cases hs : parseDateTime lib flags.eventStart with
    | error e => simp [addEvent, hs] at h
    | ok startTime =>
      cases hall : flags.eventAllDay with
      | true =>
        cases hc : c.CreateEvent ⟨[], title, startTime, startTime.Add (24 * Hour),
          flags.eventLocation, flags.eventNotes, flags.calendarID, true, 0⟩ with
        | error e =>
          simp only [addEvent, hs, hend, hall, hc, ne_eq, not_true_eq_false, if_false,
            if_true, Option.some.injEq] at h
          subst h
          exact ⟨rfl, rfl⟩
        | ok id =>
          simp only [addEvent, hs, hend, hall, hc, ne_eq, not_true_eq_false, if_false,
            if_true, Option.some.injEq] at h
          subst h
          exact ⟨rfl, rfl⟩
      | false =>
        cases hc : c.CreateEvent ⟨[], title, startTime, startTime.Add (1 * Hour),
          flags.eventLocation, flags.eventNotes, flags.calendarID, false, 0⟩ with
        | error e =>
          simp only [addEvent, hs, hend, hall, hc, ne_eq, not_true_eq_false, if_false,
            Bool.false_eq_true, Option.some.injEq] at h
          subst h
          exact ⟨rfl, rfl⟩
        | ok id =>
          simp only [addEvent, hs, hend, hall, hc, ne_eq, not_true_eq_false, if_false,
            Bool.false_eq_true, Option.some.injEq] at h
          subst h
          exact ⟨rfl, rfl⟩

/-- C18, as amended: whenever the `--end` flag is not given, the event that
`addEvent` hands to `CreateEvent` ends exactly one hour (3 600 000 000 000 ns)
after its start when `--all-day` is not set, and exactly 24 hours after its
start when `--all-day` is set. -/
theorem addEvent_default_end (lib : TimeLib) (client : Except Error CalendarClient)
    (flags : AddFlags) (title : GoString) (ev : CalendarEvent)
    (h : (addEvent lib client flags title).submitted = some ev)
    (hend : flags.eventEnd = []) :
    (flags.eventAllDay = false →
        ev.EndTime = ev.StartTime.Add (1 * Hour) ∧
          ev.EndTime.unixNano = ev.StartTime.unixNano + 3600000000000) ∧
      (flags.eventAllDay = true →
        ev.EndTime = ev.StartTime.Add (24 * Hour) ∧
          ev.EndTime.unixNano = ev.StartTime.unixNano + 24 * 3600000000000) := by
  obtain ⟨h1, _⟩ := addEvent_submitted lib client flags title ev h hend
  constructor
  · intro hall
    rw [hall] at h1
    exact ⟨h1, by rw [h1]; rfl⟩
  · intro hall
    rw [hall] at h1
    exact ⟨h1, by rw [h1]; rfl⟩

/-- Witness of C18: `calendar add Lunch --start 2024-01-20`, no `--end`, no
`--all-day`. -/
theorem addEvent_default_end_witness :
    (addEvent sampleTimeLib (.ok sampleCalendarClient)
        ⟨[], "2024-01-20".toList, [], [], [], false⟩ "Lunch".toList).submitted =
      some ⟨[], "Lunch".toList, ⟨1705708800000000000⟩, ⟨1705712400000000000⟩, [], [], [],
        false, 0⟩ ∧
      (⟨1705712400000000000⟩ : Time) = Time.Add ⟨1705708800000000000⟩ (1 * Hour) :=
  ⟨by decide,
    ((addEvent_default_end sampleTimeLib (.ok sampleCalendarClient)
      ⟨[], "2024-01-20".toList, [], [], [], false⟩ "Lunch".toList
      ⟨[], "Lunch".toList, ⟨1705708800000000000⟩, ⟨1705712400000000000⟩, [], [], [],
        false, 0⟩ (by decide) rfl).1 rfl).1⟩

/-- Counterexample to C18 as stated: `calendar add Conference --start
2024-01-20 --all-day` without `--end` creates an event that ends 24 hours
after its start, not one hour after it. -/
theorem addEvent_default_end_counterexample :
    (addEvent sampleTimeLib (.ok sampleCalendarClient)
        ⟨[], "2024-01-20".toList, [], [], [], true⟩ "Conference".toList).submitted =
      some ⟨[], "Conference".toList, ⟨1705708800000000000⟩, ⟨1705795200000000000⟩, [], [],
        [], true, 0⟩ ∧
      (addEvent sampleTimeLib (.ok sampleCalendarClient)
        ⟨[], "2024-01-20".toList, [], [], [], true⟩ "Conference".toList).ending = .returned ∧
      (⟨1705795200000000000⟩ : Time) ≠ Time.Add ⟨1705708800000000000⟩ (1 * Hour) := by
  decide

/-! ### Package `ai` -/

theorem detectLoop_eq_find (ce : GoString → Bool) (l : List Provider) :
    detectLoop ce l = (l.find? ce).getD ProviderNone := by
  induction l with
  | nil => rfl
  | cons p rest ih =>
    cases h : ce p <;> simp [detectLoop, List.find?, h, ih]

theorem detectLoop_first (ce : GoString → Bool) (pre post : List Provider) (p : Provider)
    (hpre : ∀ q ∈ pre, ce q = false) (hp : ce p = true) :
    detectLoop ce (pre ++ p :: post) = p := by
  induction pre with
  | nil => simp [detectLoop, hp]
  | cons q rest ih =>
    have hq := hpre q (List.mem_cons_self _ _)
    simp only [List.cons_append, detectLoop, hq, Bool.false_eq_true, if_false]
    exact ih (fun x hx => hpre x (List.mem_cons_of_mem _ hx))

theorem detectLoop_none (ce : GoString → Bool) (l : List Provider)
    (h : ∀ q ∈ l, ce q = false) : detectLoop ce l = ProviderNone := by
  induction l with
  | nil => rfl
  | cons q rest ih =>
    have hq := h q (List.mem_cons_self _ _)
    simp only [detectLoop, hq, Bool.false_eq_true, if_false]
    exact ih (fun x hx => h x (List.mem_cons_of_mem _ hx))

theorem detectLoop_mem (ce : GoString → Bool) (l : List Provider) (p : Provider)
    (hp : p ∈ l) (hce : ce p = true) : detectLoop ce l ∈ l := by
  induction l with
  | nil => cases hp
  | cons q rest ih =>
    cases hq : ce q with
    | true => simp [detectLoop, hq]
    | false =>
      simp only [detectLoop, hq, Bool.false_eq_true, if_false]
      rcases List.mem_cons.1 hp with rfl | hp
      · rw [hq] at hce; cases hce
      · exact List.mem_cons_of_mem _ (ih hp)

/-- C19: `detectProvider` checks the CLIs in the order claude, codex, gemini,
vibe, ollama: it returns the first provider of that order whose command
exists, and `ProviderNone` exactly when none of the five exists; hence
`NewClient().Available()` is true exactly when at least one exists. -/
theorem detectProvider_first_available (ce : GoString → Bool) :
    providers = ["claude".toList, "codex".toList, "gemini".toList, "vibe".toList,
        "ollama".toList] ∧
      detectProvider ce = (providers.find? ce).getD ProviderNone ∧
      (∀ (pre post : List Provider) (p : Provider), providers = pre ++ p :: post →
        (∀ q ∈ pre, ce q = false) → ce p = true → detectProvider ce = p) ∧
      (detectProvider ce = ProviderNone ↔ ∀ p ∈ providers, ce p = false) ∧
      ((NewClient ce).Available = true ↔ ∃ p ∈ providers, ce p = true) := by
  have hiff : detectProvider ce = ProviderNone ↔ ∀ p ∈ providers, ce p = false := by
    constructor
    · intro h p hp
      by_contra hc
      have hmem := detectLoop_mem ce providers p hp (by simpa using hc)
      have hne : ∀ q ∈ providers, q ≠ ProviderNone := by decide
      exact hne _ hmem h
    · exact detectLoop_none ce providers
  refine ⟨rfl, detectLoop_eq_find ce providers, ?_, hiff, ?_⟩
  · intro pre post p hsplit hpre hp
    rw [detectProvider, hsplit]
    exact detectLoop_first ce pre post p hpre hp
  · simp only [NewClient, Client.Available, bne_iff_ne, ne_eq, hiff]
    push_neg
    simp

/-- Witness of C19: with only `gemini` and `ollama` installed the provider
is `gemini`. -/
theorem detectProvider_first_available_witness :
    detectProvider (fun c => c == "gemini".toList || c == "ollama".toList) =
        "gemini".toList ∧
      (NewClient (fun c => c == "gemini".toList || c == "ollama".toList)).Available = true :=
  ⟨(detectProvider_first_available
      (fun c => c == "gemini".toList || c == "ollama".toList)).2.2.1
      ["claude".toList, "codex".toList] ["vibe".toList, "ollama".toList] "gemini".toList
      rfl (by decide) (by decide), by decide⟩

theorem getLast?_cons_getD (t d : GoString) (xs : List GoString) :
    ((t :: xs).getLast?).getD d = (xs.getLast?).getD t := by
  cases xs with
  | nil => rfl
  | cons x rest =>
    rw [List.getLast?_cons_cons, List.getLast?_eq_getLast _ (List.cons_ne_nil x rest)]
    rfl

theorem parseCodexLoop_eq (U : GoString → Option CodexEvent) (ls : List GoString)
    (last : GoString) :
    parseCodexLoop U ls last = ((ls.filterMap (agentText U)).getLast?).getD last := by
  induction ls generalizing last with
  | nil => rfl
  | cons l rest ih =>
    by_cases h0 : TrimSpace l = []
    · simp [parseCodexLoop, agentText, h0, ih]
    · cases hu : U (TrimSpace l) with
      | none => simp [parseCodexLoop, agentText, h0, hu, ih]
      | some ev =>
        by_cases hk : ev.Typ = "item.completed".toList ∧ ev.Item.Typ = "agent_message".toList
        · have ha : agentText U l = some ev.Item.Text := by
            simp only [agentText, h0, if_false, hu, hk, and_self, if_true]
          simp only [parseCodexLoop, h0, if_false, hu, hk, and_self, if_true, ih,
            List.filterMap_cons, ha, getLast?_cons_getD]
        · have ha : agentText U l = none := by
            simp only [agentText, h0, if_false, hu, hk, if_false]
          simp only [parseCodexLoop, h0, if_false, hu, hk, ih, List.filterMap_cons, ha]

theorem splitScan_line (l rest cur : GoString) (hl : '\n' ∉ l) :
    splitScan '\n' (l ++ rest) cur = splitScan '\n' rest (cur ++ l) := by
  induction l generalizing cur with
  | nil => simp
  | cons c cs ih =>
    have hc : ¬ c = '\n' := fun h => hl (by simp [h])
    simp only [List.cons_append, splitScan, hc, if_false, List.append_eq]
    rw [ih _ (fun h => hl (List.mem_cons_of_mem _ h))]
    simp

theorem splitScan_joinLines (ls : List GoString) (l cur : GoString)
    (h : ∀ x ∈ l :: ls, '\n' ∉ x) :
    splitScan '\n' (joinLines (l :: ls)) cur = (cur ++ l) :: ls := by
  induction ls generalizing l cur with
  | nil =>
    have := splitScan_line l [] cur (h l (List.mem_cons_self _ _))
    simpa [joinLines, splitScan] using this
  | cons l2 rest ih =>
    have h1 := h l (List.mem_cons_self _ _)
    simp only [joinLines]
    rw [splitScan_line l _ cur h1]
    simp only [splitScan, if_true]
    rw [ih l2 [] (fun x hx => h x (List.mem_cons_of_mem _ hx))]
    simp

/-- C20: `parseCodexOutput` returns the text of the last agent message.  For
every output, the result is the `item.text` of the last of its lines (the
pieces between newlines, in input order) that, trimmed, is not empty and
decodes as an event of type `item.completed` with an item of type
`agent_message`; every other line is passed over without effect, and the
result is the empty string when there is no such line. -/
theorem parseCodexOutput_last_agent_message (U : GoString → Option CodexEvent) :
    (∀ output, parseCodexOutput U output =
        (((splitNewlines output).filterMap (agentText U)).getLast?).getD []) ∧
      (∀ (l : GoString) (ls : List GoString), (∀ x ∈ l :: ls, '\n' ∉ x) →
        splitNewlines (joinLines (l :: ls)) = l :: ls) ∧
      (∀ (pre post : List GoString) (l t : GoString), agentText U l = some t →
        (∀ x ∈ post, agentText U x = none) →
        parseCodexLoop U (pre ++ l :: post) [] = t) ∧
      (∀ (pre post : List GoString) (l : GoString), agentText U l = none →
        parseCodexLoop U (pre ++ l :: post) [] = parseCodexLoop U (pre ++ post) []) ∧
      (∀ ls : List GoString, (∀ x ∈ ls, agentText U x = none) →
        parseCodexLoop U ls [] = []) := by
  refine ⟨fun output => parseCodexLoop_eq U _ [], ?_, ?_, ?_, ?_⟩
  · intro l ls h
    have := splitScan_joinLines ls l [] h
    simpa [splitNewlines] using this
  · intro pre post l t hl hpost
    have hp : post.filterMap (agentText U) = [] := by
      rw [List.filterMap_eq_nil_iff]
      exact hpost
    rw [parseCodexLoop_eq, List.filterMap_append, List.filterMap_cons, hl, hp]
    simp
  · intro pre post l hl
    rw [parseCodexLoop_eq, parseCodexLoop_eq, List.filterMap_append, List.filterMap_cons, hl,
      List.filterMap_append]
  · intro ls h
    have hp : ls.filterMap (agentText U) = [] := by
      rw [List.filterMap_eq_nil_iff]
      exact h
    rw [parseCodexLoop_eq, hp]
    rfl

/-- Witness of C20: of the five lines `A`, blank, `B`, `C`, `junk` the last
agent message is that of `B`. -/
theorem parseCodexOutput_last_agent_message_witness :
    parseCodexOutput sampleUnmarshal "A\n  \nB\r\nC\njunk".toList = "second".toList ∧
      (((splitNewlines "A\n  \nB\r\nC\njunk".toList).filterMap
        (agentText sampleUnmarshal)).getLast?).getD [] = "second".toList :=
  ⟨by decide,
    ((parseCodexOutput_last_agent_message sampleUnmarshal).1
      "A\n  \nB\r\nC\njunk".toList).symm.trans (by decide)⟩

/-! ### Identifiers are below 2^32 -/

theorem appendUIDs_lt (acc : List UID) (toks : List GoString)
    (h : ∀ u ∈ acc, u < 2 ^ 32) : ∀ u ∈ appendUIDs acc toks, u < 2 ^ 32 := by
  induction toks generalizing acc with
  | nil => simpa [appendUIDs] using h
  | cons t rest ih =>
    cases hp : ParseUint t with
    | none => simp only [appendUIDs, hp]; exact ih acc h
    | some num =>
      simp only [appendUIDs, hp]
      apply ih
      intro u hu
      rcases List.mem_append.1 hu with hu | hu
      · exact h u hu
      · rw [List.mem_singleton.1 hu]
        exact Nat.mod_lt _ (by decide)

theorem parseSearchLine_lt (line : GoString) (acc : List UID)
    (h : ∀ u ∈ acc, u < 2 ^ 32) : ∀ u ∈ parseSearchLine line acc, u < 2 ^ 32 := by
  unfold parseSearchLine
  cases FindStringSubmatch line with
  | none => exact h
  | some ms =>
    by_cases hc : 1 < ms.length ∧ ms.getD 1 [] ≠ []
    · simp only [if_pos hc]
      exact appendUIDs_lt _ _ h
    · simp only [if_neg hc]
      exact h

theorem readSearchResponseLoop_lt (tag : GoString) (err : Error) (ls : List GoString)
    (acc : List UID) (h : ∀ u ∈ acc, u < 2 ^ 32) :
    ∀ u ∈ (readSearchResponseLoop tag err ls acc).1.1, u < 2 ^ 32 := by
  induction ls generalizing acc with
  | nil => simp [readSearchResponseLoop]
  | cons l rest ih =>
    simp only [readSearchResponseLoop]
    cases HasPrefix (TrimSpace l) (tag ++ " OK".toList) with
    | true => exact parseSearchLine_lt _ _ h
    | false =>
      cases (HasPrefix (TrimSpace l) (tag ++ " NO".toList) ||
          HasPrefix (TrimSpace l) (tag ++ " BAD".toList)) with
      | true =>
        intro u hu
        simp at hu
      | false =>
        simp only [Bool.false_eq_true, if_false]
        exact ih _ (parseSearchLine_lt _ _ h)

theorem appendUIDs_tokens (toks : List GoString)
    (htoks : ∀ t ∈ toks, t ≠ [] ∧ ∀ c ∈ t, isDigit c = true) :
    appendUIDs [] toks = (toks.filter (fun t => decide (decVal t ≤ maxUint32))).map decVal := by
  induction toks with
  | nil => rfl
  | cons t rest ih =>
    obtain ⟨hne, hd⟩ := htoks t (List.mem_cons_self _ _)
    have ih2 := ih (fun x hx => htoks x (List.mem_cons_of_mem _ hx))
    by_cases hr : decVal t ≤ maxUint32
    · have hlt : decVal t % 2 ^ 32 = decVal t := by
        apply Nat.mod_eq_of_lt
        simp only [maxUint32] at hr
        omega
      simp only [appendUIDs, ParseUint_digits t hne hd, if_pos hr, List.nil_append, hlt]
      rw [appendUIDs_acc, ih2]
      simp [List.filter_cons, hr]
    · simp only [appendUIDs, ParseUint_digits t hne hd, if_neg hr]
      rw [ih2]
      simp [List.filter_cons, hr]

/-- C23: every identifier that `readSearchResponse` returns is below 2^32.  On
a line `* SEARCH t1 ... tk` of digit tokens the identifiers are exactly the
decimal values of the tokens whose value is at most 2^32-1, in their order;
a token above that is passed over, with no error and without its value being
reduced modulo 2^32. -/
theorem readSearchResponse_identifiers_in_range (tag err : GoString)
    (toks : List GoString) (ok : GoString) (post : List GoString)
    (htoks : ∀ t ∈ toks, t ≠ [] ∧ ∀ c ∈ t, isDigit c = true)
    (hok : isOK tag ok = true) (hclean : lineUIDs ok = []) :
    (∀ (reader : Reader) (tag1 : GoString),
        ∀ u ∈ (readSearchResponse reader tag1).1.1, u < 2 ^ 32) ∧
      lineUIDs (tokenLine toks) =
        (toks.filter (fun t => decide (decVal t ≤ 2 ^ 32 - 1))).map decVal ∧
      readSearchResponse ⟨tokenLine toks :: ok :: post, err⟩ tag =
        (((toks.filter (fun t => decide (decVal t ≤ 2 ^ 32 - 1))).map decVal, none),
          ⟨post, err⟩) := by
  have hline : lineUIDs (tokenLine toks) =
      (toks.filter (fun t => decide (decVal t ≤ 2 ^ 32 - 1))).map decVal := by
    rw [lineUIDs_tokenLine toks htoks, appendUIDs_tokens toks htoks]
    rfl
  refine ⟨?_, hline, ?_⟩
  · intro reader tag1
    simp only [readSearchResponse]
    exact readSearchResponseLoop_lt tag1 _ _ [] (by simp)
  · have hpre : ∀ l ∈ [tokenLine toks], isTerminator tag l = false := by
      intro l hl
      rw [List.mem_singleton.1 hl]
      exact not_isTerminator_tokenLine tag toks htoks
    have h := readSearchResponse_at_ok tag err [tokenLine toks] post ok hpre hok
    simpa [hline, hclean] using h

/-- Witness of C23: in `* SEARCH 3 4294967296 9` the token 4294967296 = 2^32 is
passed over and `[3, 9]` is returned. -/
theorem readSearchResponse_identifiers_in_range_witness :
    tokenLine ["3".toList, "4294967296".toList, "9".toList] =
        "* SEARCH 3 4294967296 9\r\n".toList ∧
      readSearchResponse ⟨tokenLine ["3".toList, "4294967296".toList, "9".toList] ::
          "a3 OK done\r\n".toList :: [], "EOF".toList⟩ "a3".toList =
        (([3, 9], none), ⟨[], "EOF".toList⟩) :=
  ⟨by decide,
    ((readSearchResponse_identifiers_in_range "a3".toList "EOF".toList
      ["3".toList, "4294967296".toList, "9".toList] "a3 OK done\r\n".toList []
      (by decide) (by decide) (by decide)).2.2).trans (by decide)⟩

/-! ### `quoteString` gives one well-formed quoted string -/

theorem trailingBackslashes_concat (l : GoString) (c : Char) :
    trailingBackslashes (l ++ [c]) = if c = '\\' then trailingBackslashes l + 1 else 0 := by
  by_cases h : c = '\\'
  · subst h
    simp [trailingBackslashes, List.takeWhile]
  · simp [trailingBackslashes, List.takeWhile, h]

/-- The invariant of a well-formed beginning of a quoted string: an even run
of backslashes at its end, an odd run before each quote after the first rune. -/
theorem quoted_step (B : GoString) (c : Char)
    (h1 : Even (trailingBackslashes B))
    (h2 : ∀ pre post, B = pre ++ '"' :: post → pre ≠ [] → Odd (trailingBackslashes pre)) :
    Even (trailingBackslashes (B ++ escapeRune c)) ∧
      ∀ pre post, B ++ escapeRune c = pre ++ '"' :: post → pre ≠ [] →
        Odd (trailingBackslashes pre) := by
  by_cases hb : c = '\\'
  · subst hb
    have he : escapeRune '\\' = ['\\', '\\'] := by decide
    rw [he]
    constructor
    · have : B ++ ['\\', '\\'] = (B ++ ['\\']) ++ ['\\'] := by simp
      rw [this, trailingBackslashes_concat, trailingBackslashes_concat]
      simp only [if_true]
      obtain ⟨k, hk⟩ := h1
      exact ⟨k + 1, by omega⟩
    · intro pre post heq hne
      rcases List.append_eq_append_iff.1 heq with ⟨a, ha, hb⟩ | ⟨a, ha, hb⟩
      · cases a with
        | nil =>
          simp at hb
        | cons x xs =>
          simp only [List.cons_append, List.cons.injEq] at hb
          obtain ⟨hx, hxs⟩ := hb
          cases xs with
          | nil => simp at hxs
          | cons y ys =>
            simp only [List.cons_append, List.cons.injEq] at hxs
            obtain ⟨hy, hys⟩ := hxs
            cases ys with
            | nil => simp at hys
            | cons z zs => simp at hys
      · cases a with
        | nil => simp at hb
        | cons x xs =>
          simp only [List.cons_append, List.cons.injEq] at hb
          rw [← hb.1] at ha
          exact h2 pre xs ha hne
  · by_cases hq : c = '"'
    · subst hq
      have he : escapeRune '"' = ['\\', '"'] := by decide
      rw [he]
      constructor
      · have : B ++ ['\\', '"'] = (B ++ ['\\']) ++ ['"'] := by simp
        rw [this, trailingBackslashes_concat]
        simp
      · intro pre post heq hne
        rcases List.append_eq_append_iff.1 heq with ⟨a, ha, hb⟩ | ⟨a, ha, hb⟩
        · cases a with
          | nil => simp at hb
          | cons x xs =>
            simp only [List.cons_append, List.cons.injEq] at hb
            obtain ⟨hx, hxs⟩ := hb
            cases xs with
            | nil =>
              rw [ha, ← hx, trailingBackslashes_concat]
              simp only [if_true]
              exact Even.add_one h1
            | cons y ys =>
              simp only [List.cons_append, List.cons.injEq] at hxs
              obtain ⟨hy, hys⟩ := hxs
              cases ys <;> simp at hys
        · cases a with
          | nil => simp at hb
          | cons x xs =>
            simp only [List.cons_append, List.cons.injEq] at hb
            rw [← hb.1] at ha
            exact h2 pre xs ha hne
    · have he : escapeRune c = [c] := by simp [escapeRune, hb, hq]
      rw [he]
      constructor
      · rw [trailingBackslashes_concat]
        simp [hb]
      · intro pre post heq hne
        rcases List.append_eq_append_iff.1 heq with ⟨a, ha, hb2⟩ | ⟨a, ha, hb2⟩
        · cases a with
          | nil =>
            simp only [List.nil_append, List.cons.injEq] at hb2
            exact absurd hb2.1 hq
          | cons x xs =>
            simp only [List.cons_append, List.cons.injEq] at hb2
            obtain ⟨_, hxs⟩ := hb2
            cases xs <;> simp at hxs
        · cases a with
          | nil =>
            simp only [List.nil_append, List.cons.injEq] at hb2
            exact absurd hb2.1.symm hq
          | cons x xs =>
            simp only [List.cons_append, List.cons.injEq] at hb2
            rw [← hb2.1] at ha
            exact h2 pre xs ha hne

theorem quoted_body (s B : GoString)
    (h1 : Even (trailingBackslashes B))
    (h2 : ∀ pre post, B = pre ++ '"' :: post → pre ≠ [] → Odd (trailingBackslashes pre)) :
    Even (trailingBackslashes (B ++ s.flatMap escapeRune)) ∧
      ∀ pre post, B ++ s.flatMap escapeRune = pre ++ '"' :: post → pre ≠ [] →
        Odd (trailingBackslashes pre) := by
  induction s generalizing B with
  | nil => simpa using ⟨h1, h2⟩
  | cons c rest ih =>
    obtain ⟨s1, s2⟩ := quoted_step B c h1 h2
    have := ih (B ++ escapeRune c) s1 s2
    simpa [List.flatMap_cons, List.append_assoc] using this

/-- C22: `quoteString` always produces one well-formed quoted string.  For
every `s` the output has length at least 2 and begins and ends with a double
quote; every double quote strictly inside it is immediately preceded by a
maximal run of backslashes of odd length, and the closing quote by a run of
even length. -/
theorem quoteString_well_formed (s : GoString) :
    2 ≤ (quoteString s).length ∧
      (quoteString s).head? = some '"' ∧ (quoteString s).getLast? = some '"' ∧
      (∀ pre post, quoteString s = pre ++ '"' :: post → pre ≠ [] → post ≠ [] →
        Odd (trailingBackslashes pre)) ∧
      (∀ pre, quoteString s = pre ++ ['"'] → Even (trailingBackslashes pre)) := by
  have hq : quoteString s = (['"'] ++ s.flatMap escapeRune) ++ ['"'] := by
    rw [quoteString_eq, quotedSpec]
    simp
  have h0 : Even (trailingBackslashes ['"']) := ⟨0, by decide⟩
  have h0' : ∀ pre post, ['"'] = pre ++ '"' :: post → pre ≠ [] →
      Odd (trailingBackslashes pre) := by
    intro pre post h hne
    cases pre with
    | nil => exact absurd rfl hne
    | cons x xs =>
      have := congrArg List.length h
      simp at this
  obtain ⟨b1, b2⟩ := quoted_body s ['"'] h0 h0'
  refine ⟨?_, ?_, ?_, ?_, ?_⟩
  · rw [hq]
    simp only [List.length_append, List.length_singleton]
    omega
  · rw [hq]
    rfl
  · rw [hq, List.getLast?_concat]
  · intro pre post heq hne hpost
    rw [hq] at heq
    rcases List.append_eq_append_iff.1 heq with ⟨a, ha, hb⟩ | ⟨a, ha, hb⟩
    · cases a with
      | nil =>
        simp only [List.nil_append, List.cons.injEq, true_and] at hb
        exact absurd hb.symm hpost
      | cons x xs =>
        have := congrArg List.length hb
        simp at this
    · cases a with
      | nil =>
        simp only [List.nil_append, List.cons.injEq, true_and] at hb
        exact absurd hb hpost
      | cons x xs =>
        simp only [List.cons_append, List.cons.injEq] at hb
        rw [← hb.1] at ha
        exact b2 pre xs ha hne
  · intro pre heq
    rw [hq] at heq
    have : ['"'] ++ s.flatMap escapeRune = pre := List.append_cancel_right heq
    rw [← this]
    exact b1

/-! ### Package `ai`: the gemini output -/

theorem indexFrom_absent (c : Char) (s : GoString) (i : Nat) (h : c ∉ s) :
    indexFrom c s i = -1 := by
  induction s generalizing i with
  | nil => rfl
  | cons x xs ih =>
    have hx : ¬ x = c := fun e => h (by simp [e])
    simp only [indexFrom, hx, if_false]
    exact ih _ (fun hm => h (List.mem_cons_of_mem _ hm))

theorem indexFrom_first (c : Char) (p rest : GoString) (i : Nat) (h : c ∉ p) :
    indexFrom c (p ++ c :: rest) i = ((i + p.length : Nat) : Int) := by
  induction p generalizing i with
  | nil => simp [indexFrom]
  | cons x xs ih =>
    have hx : ¬ x = c := fun e => h (by simp [e])
    simp only [List.cons_append, indexFrom, hx, if_false, List.append_eq]
    rw [ih _ (fun hm => h (List.mem_cons_of_mem _ hm))]
    simp only [List.length_cons]
    congr 1
    omega

theorem parseGeminiOutput_at_brace (U : GoString → Option GoString) (p rest : GoString)
    (h : '{' ∉ p) :
    parseGeminiOutput U (p ++ '{' :: rest) =
      match U ('{' :: rest) with
      | none => p ++ '{' :: rest
      | some r => r := by
  have hi : Index (p ++ '{' :: rest) '{' = (p.length : Int) := by
    rw [Index, indexFrom_first '{' p rest 0 h]
    simp
  have hne : ¬ ((p.length : Int) = -1) := by omega
  simp only [parseGeminiOutput, hi, hne, if_false, Int.toNat_ofNat, List.drop_left]

/-- C21: `parseGeminiOutput` skips any prefix before the JSON and falls back
to the raw output.  If the output holds no `{`, or the text from the first `{`
to the end does not decode, the output is returned unchanged, prefix
included; otherwise the `response` field decoded from the text that starts at
the first `{` is returned, whatever the prefix is. -/
theorem parseGeminiOutput_skips_what_precedes (U : GoString → Option GoString) :
    (∀ output, '{' ∉ output → parseGeminiOutput U output = output) ∧
      (∀ p rest, '{' ∉ p → U ('{' :: rest) = none →
        parseGeminiOutput U (p ++ '{' :: rest) = p ++ '{' :: rest) ∧
      (∀ p rest r, '{' ∉ p → U ('{' :: rest) = some r →
        parseGeminiOutput U (p ++ '{' :: rest) = r) ∧
      (∀ p1 p2 rest r, '{' ∉ p1 → '{' ∉ p2 → U ('{' :: rest) = some r →
        parseGeminiOutput U (p1 ++ '{' :: rest) = parseGeminiOutput U (p2 ++ '{' :: rest)) := by
  refine ⟨?_, ?_, ?_, ?_⟩
  · intro output h
    simp only [parseGeminiOutput, Index, indexFrom_absent '{' output 0 h, if_true]
  · intro p rest h hu
    rw [parseGeminiOutput_at_brace U p rest h, hu]
  · intro p rest r h hu
    rw [parseGeminiOutput_at_brace U p rest h, hu]
  · intro p1 p2 rest r h1 h2 hu
    rw [parseGeminiOutput_at_brace U p1 rest h1, parseGeminiOutput_at_brace U p2 rest h2, hu]

/-- Witness of C21: the output `Loaded cached credentials.` followed by the
object gives `hi`. -/
theorem parseGeminiOutput_skips_what_precedes_witness :
    parseGeminiOutput sampleGeminiUnmarshal
        ("Loaded cached credentials.\n".toList ++ '{' :: "\"response\":\"hi\"\x7d".toList) =
      "hi".toList ∧
      parseGeminiOutput sampleGeminiUnmarshal "no json here".toList = "no json here".toList :=
  ⟨(parseGeminiOutput_skips_what_precedes sampleGeminiUnmarshal).2.2.1
      "Loaded cached credentials.\n".toList "\"response\":\"hi\"\x7d".toList "hi".toList
      (by decide) (by decide),
    (parseGeminiOutput_skips_what_precedes sampleGeminiUnmarshal).1 "no json here".toList
      (by decide)⟩

/-! ### Package `utils`: `TruncateStr` -/

theorem TruncateStr_short (s : ByteString) (maxLen : Int) (h : (s.length : Int) ≤ maxLen) :
    TruncateStr s maxLen = some s := by
  simp only [TruncateStr, h, if_true]

theorem TruncateStr_cut (s : ByteString) (n : Nat) (h : n < s.length) (h3 : n ≤ 3) :
    TruncateStr s (n : Int) = some (s.take n) := by
  have h1 : ¬ ((s.length : Int) ≤ (n : Int)) := by omega
  have h2 : (n : Int) ≤ 3 := by omega
  have h4 : (0 : Int) ≤ (n : Int) ∧ (n : Int) ≤ (s.length : Int) := by omega
  simp only [TruncateStr, h1, if_false, h2, if_true, sliceTo, h4, and_self, Int.toNat_ofNat]

theorem TruncateStr_dots (s : ByteString) (n : Nat) (h : n < s.length) (h3 : 3 < n) :
    TruncateStr s (n : Int) = some (s.take (n - 3) ++ dots) := by
  have h1 : ¬ ((s.length : Int) ≤ (n : Int)) := by omega
  have h2 : ¬ ((n : Int) ≤ 3) := by omega
  have h4 : (0 : Int) ≤ (n : Int) - 3 ∧ (n : Int) - 3 ≤ (s.length : Int) := by omega
  have h5 : ((n : Int) - 3).toNat = n - 3 := by omega
  simp only [TruncateStr, h1, if_false, h2, sliceTo, h4, and_self, if_true, h5, Option.map_some']

/-- C24: for every string `s` and every `maxLen >= 0`, `TruncateStr(s, maxLen)`
slices within bounds (no panic) and returns a string of byte length
`min(len(s), maxLen)`: `s` itself when `len(s) <= maxLen`, the first `maxLen`
bytes when `len(s) > maxLen` and `maxLen <= 3`, the first `maxLen-3` bytes
followed by `...` otherwise; truncating the result again gives the result. -/
theorem TruncateStr_spec (s : ByteString) (maxLen : Int) (h0 : 0 ≤ maxLen) :
    ∃ r, TruncateStr s maxLen = some r ∧
      (r.length : Int) = min (s.length : Int) maxLen ∧
      ((s.length : Int) ≤ maxLen → r = s) ∧
      (maxLen < (s.length : Int) → maxLen ≤ 3 → r = s.take maxLen.toNat) ∧
      (maxLen < (s.length : Int) → 3 < maxLen → r = s.take (maxLen - 3).toNat ++ dots) ∧
      TruncateStr r maxLen = some r := by
  obtain ⟨n, rfl⟩ := Int.eq_ofNat_of_zero_le h0
  by_cases hs : s.length ≤ n
  · have hs' : (s.length : Int) ≤ (n : Int) := by omega
    refine ⟨s, TruncateStr_short s _ hs', by omega, fun _ => rfl, ?_, ?_,
      TruncateStr_short s _ hs'⟩
    · intro h; omega
    · intro h; omega
  · have hlt : n < s.length := by omega
    by_cases h3 : n ≤ 3
    · have hlen : (s.take n).length = n := by simp; omega
      refine ⟨s.take n, TruncateStr_cut s n hlt h3, by rw [hlen]; omega, ?_, ?_, ?_,
        TruncateStr_short _ _ (by rw [hlen])⟩
      · intro h; omega
      · intro _ _; simp
      · intro _ h; omega
    · have hlen : (s.take (n - 3) ++ dots).length = n := by
        simp [dots]; omega
      refine ⟨s.take (n - 3) ++ dots, TruncateStr_dots s n hlt (by omega),
        by rw [hlen]; omega, ?_, ?_, ?_, TruncateStr_short _ _ (by rw [hlen])⟩
      · intro h; omega
      · intro _ h; omega
      · intro _ _
        have : ((n : Int) - 3).toNat = n - 3 := by omega
        rw [this]

/-- Witness of C24: the ten bytes of `0123456789` cut to 6 are `012...`. -/
theorem TruncateStr_spec_witness :
    (0 : Int) ≤ 6 ∧
      TruncateStr [48, 49, 50, 51, 52, 53, 54, 55, 56, 57] 6 = some [48, 49, 50, 46, 46, 46] ∧
      ∃ r, TruncateStr [48, 49, 50, 51, 52, 53, 54, 55, 56, 57] 6 = some r ∧
        (r.length : Int) = min (([48, 49, 50, 51, 52, 53, 54, 55, 56, 57] :
          ByteString).length : Int) 6 :=
  ⟨by decide, by decide,
    let ⟨r, h1, h2, _⟩ := TruncateStr_spec [48, 49, 50, 51, 52, 53, 54, 55, 56, 57] 6
      (by decide)
    ⟨r, h1, h2⟩⟩

/-! ### Package `cli`: the selector cursor -/

theorem Update_keeps_cursor_in_range (s s1 : Selector) (m : Msg) (c : Cmd)
    (hc : 0 ≤ s.cursor ∧ s.cursor ≤ max 0 ((s.items.length : Int) - 1))
    (h : s.Update m = some (s1, c)) :
    s1.items = s.items ∧ s1.title = s.title ∧
      0 ≤ s1.cursor ∧ s1.cursor ≤ max 0 ((s.items.length : Int) - 1) := by
  cases m with
  | other =>
    simp only [Selector.Update, Option.some.injEq, Prod.mk.injEq] at h
    obtain ⟨rfl, _⟩ := h
    exact ⟨rfl, rfl, hc⟩
  | key name =>
    simp only [Selector.Update] at h
    split_ifs at h with k1 k2 k3 k4 k5 k6
    · simp only [Option.some.injEq, Prod.mk.injEq] at h
      obtain ⟨rfl, _⟩ := h
      refine ⟨rfl, rfl, ?_, ?_⟩ <;> simp only <;> omega
    · simp only [Option.some.injEq, Prod.mk.injEq] at h
      obtain ⟨rfl, _⟩ := h
      exact ⟨rfl, rfl, hc⟩
    · simp only [Option.some.injEq, Prod.mk.injEq] at h
      obtain ⟨rfl, _⟩ := h
      refine ⟨rfl, rfl, ?_, ?_⟩ <;> simp only <;> omega
    · simp only [Option.some.injEq, Prod.mk.injEq] at h
      obtain ⟨rfl, _⟩ := h
      exact ⟨rfl, rfl, hc⟩
    · cases hi : itemAt s.items s.cursor with
      | none => simp [hi] at h
      | some item =>
        simp only [hi, Option.some.injEq, Prod.mk.injEq] at h
        obtain ⟨rfl, _⟩ := h
        exact ⟨rfl, rfl, hc⟩
    · simp only [Option.some.injEq, Prod.mk.injEq] at h
      obtain ⟨rfl, _⟩ := h
      exact ⟨rfl, rfl, hc⟩
    · simp only [Option.some.injEq, Prod.mk.injEq] at h
      obtain ⟨rfl, _⟩ := h
      exact ⟨rfl, rfl, hc⟩

theorem run_keeps_cursor_in_range (s s1 : Selector) (ms : List Msg)
    (hc : 0 ≤ s.cursor ∧ s.cursor ≤ max 0 ((s.items.length : Int) - 1))
    (h : s.run ms = some s1) :
    s1.items = s.items ∧ 0 ≤ s1.cursor ∧ s1.cursor ≤ max 0 ((s.items.length : Int) - 1) := by
  induction ms generalizing s with
  | nil =>
    simp only [Selector.run, Option.some.injEq] at h
    subst h
    exact ⟨rfl, hc⟩
  | cons m rest ih =>
    simp only [Selector.run] at h
    cases hu : s.Update m with
    | none => simp [hu] at h
    | some out =>
      obtain ⟨s2, c⟩ := out
      simp only [hu] at h
      obtain ⟨e1, _, e3, e4⟩ := Update_keeps_cursor_in_range s s2 m c hc hu
      have := ih s2 (by rw [e1]; exact ⟨e3, e4⟩) h
      rw [e1] at this
      exact this

theorem itemAt_in_range (items : List SelectorItem) (i : Int) (hne : items ≠ [])
    (h0 : 0 ≤ i) (h1 : i ≤ max 0 ((items.length : Int) - 1)) :
    ∃ item, itemAt items i = some item ∧ items.get? i.toNat = some item := by
  have hpos : 0 < items.length := List.length_pos.2 hne
  have hlt : i.toNat < items.length := by omega
  have hin : 0 ≤ i ∧ i < (items.length : Int) := by omega
  refine ⟨items.get ⟨i.toNat, hlt⟩, ?_, List.get?_eq_get hlt⟩
  simp only [itemAt, hin, and_self, if_true]
  exact List.get?_eq_get hlt

theorem run_never_panics (s : Selector) (ms : List Msg) (hne : s.items ≠ [])
    (hc : 0 ≤ s.cursor ∧ s.cursor ≤ max 0 ((s.items.length : Int) - 1)) :
    ∃ s1, s.run ms = some s1 := by
  induction ms generalizing s with
  | nil => exact ⟨s, rfl⟩
  | cons m rest ih =>
    have hu : ∃ s2 c, s.Update m = some (s2, c) := by
      cases m with
      | other => exact ⟨s, .noCmd, rfl⟩
      | key name =>
        obtain ⟨item, hi, _⟩ := itemAt_in_range s.items s.cursor hne hc.1 hc.2
        simp only [Selector.Update, hi]
        split_ifs <;> exact ⟨_, _, rfl⟩
    obtain ⟨s2, c, hu⟩ := hu
    obtain ⟨e1, _, e3, e4⟩ := Update_keeps_cursor_in_range s s2 m c hc hu
    obtain ⟨s1, h1⟩ := ih s2 (by rw [e1]; exact hne) (by rw [e1]; exact ⟨e3, e4⟩)
    exact ⟨s1, by simp only [Selector.run, hu, h1]⟩

/-- C25: selector cursor safety.  Starting from `NewSelector(title, items)`,
after any sequence of messages through `Update` the cursor satisfies
`0 <= cursor <= max(0, len(items)-1)`; in such a state the `enter` branch
indexes `items` out of range exactly when `items` is empty, and for non-empty
`items` it sets `selected` to the ID of the item at the cursor and quits; with
non-empty `items` no sequence of messages panics. -/
theorem Selector_cursor_safe (title : GoString) (items : List SelectorItem)
    (msgs : List Msg) :
    (items ≠ [] → ∃ s1, (NewSelector title items).run msgs = some s1) ∧
      (∀ s1, (NewSelector title items).run msgs = some s1 →
        s1.items = items ∧ 0 ≤ s1.cursor ∧
          s1.cursor ≤ max 0 ((items.length : Int) - 1) ∧
          (s1.Update (.key "enter".toList) = none ↔ items = []) ∧
          (items ≠ [] → ∃ item, items.get? s1.cursor.toNat = some item ∧
            s1.Update (.key "enter".toList) =
              some ({ s1 with selected := item.ID }, .quit))) := by
  have hc0 : 0 ≤ (NewSelector title items).cursor ∧
      (NewSelector title items).cursor ≤
        max 0 (((NewSelector title items).items.length : Int) - 1) := by
    simp [NewSelector]
  refine ⟨fun hne => run_never_panics _ msgs hne hc0, ?_⟩
  intro s1 h
  obtain ⟨e1, e2, e3⟩ := run_keeps_cursor_in_range _ s1 msgs hc0 h
  have e1' : s1.items = items := e1
  have e3' : s1.cursor ≤ max 0 ((items.length : Int) - 1) := e3
  have henter : ∀ item, itemAt s1.items s1.cursor = some item →
      s1.Update (.key "enter".toList) = some ({ s1 with selected := item.ID }, .quit) := by
    intro item hi
    have n1 : ¬ ("enter".toList = "up".toList ∨ "enter".toList = "k".toList) := by decide
    have n2 : ¬ ("enter".toList = "down".toList ∨ "enter".toList = "j".toList) := by decide
    simp only [Selector.Update, n1, n2, if_false, if_true, hi]
  refine ⟨e1', e2, e3', ?_, ?_⟩
  · constructor
    · intro hnone
      by_contra hne
      obtain ⟨item, hi, _⟩ := itemAt_in_range s1.items s1.cursor (by rw [e1']; exact hne) e2
        (by rw [e1']; exact e3')
      rw [henter item hi] at hnone
      cases hnone
    · intro hnil
      have hi : itemAt s1.items s1.cursor = none := by
        rw [e1', hnil]
        simp [itemAt]
      have n1 : ¬ ("enter".toList = "up".toList ∨ "enter".toList = "k".toList) := by decide
      have n2 : ¬ ("enter".toList = "down".toList ∨ "enter".toList = "j".toList) := by
        decide
      simp only [Selector.Update, n1, n2, if_false, if_true, hi]
  · intro hne
    obtain ⟨item, hi, hg⟩ := itemAt_in_range s1.items s1.cursor (by rw [e1']; exact hne) e2
      (by rw [e1']; exact e3')
    rw [e1'] at hg
    exact ⟨item, hg, henter item hi⟩

/-- Witness of C25: three items; down, down, down, up, enter selects the
second. -/
theorem Selector_cursor_safe_witness :
    (NewSelector "Pick".toList [⟨"a".toList, "A".toList⟩, ⟨"b".toList, "B".toList⟩,
        ⟨"c".toList, "C".toList⟩]).run
        [.key "down".toList, .key "j".toList, .key "down".toList, .key "up".toList,
          .key "enter".toList] =
      some ⟨"Pick".toList, [⟨"a".toList, "A".toList⟩, ⟨"b".toList, "B".toList⟩,
        ⟨"c".toList, "C".toList⟩], 1, "b".toList, false⟩ ∧
      ∃ s1, (NewSelector "Pick".toList [⟨"a".toList, "A".toList⟩, ⟨"b".toList, "B".toList⟩,
        ⟨"c".toList, "C".toList⟩]).run [.key "down".toList, .key "up".toList,
          .key "up".toList] = some s1 :=
  ⟨by decide,
    (Selector_cursor_safe "Pick".toList [⟨"a".toList, "A".toList⟩,
      ⟨"b".toList, "B".toList⟩, ⟨"c".toList, "C".toList⟩]
      [.key "down".toList, .key "up".toList, .key "up".toList]).1 (by decide)⟩

end Mail
